import Mathlib

/-!
# dust3d: the component tree, the incremental mesh generation and the poses

A shallow embedding of the `Component` class of `src/document.h` and of the
parts of the mesh generation pipeline it feeds (the generation pass, the mesh
combiner, the remesher and the scheduling of passes by the document), of the
classes `MotionClip` and `Motion` of the same header and of the pose document
of `src/posedocument.cpp`, with the properties of the specification proved
over it.

Conventions of the embedding

* `QUuid` is a 128 bit identifier; the null uuid is the value `0`.
* `std::vector<QUuid>` is `List QUuid`, `std::set<QUuid>` is `Finset QUuid`.
* `std::find(v.begin(), v.end(), x)` is `List.indexOf x v`: the position of
  the first occurrence, or `v.length` (the `end()` iterator) when absent.
* `float` fields hold rationals: the member functions only compare and copy
  them, which is exact on every non-NaN float.
* `size_t` and `ptrdiff_t` values are unbounded natural numbers.  Where the
  source converts a size or an index to `int`, by `(int)` or by initialising an
  `int`, the conversion is `toInt32`: the low 32 bits read as a signed number.
* Signed overflow and an access outside a vector are undefined in the source.
  There the embedding computes with the unbounded integer and leaves the vector
  as it is.
-/

namespace Dust3d

/-! ## QUuid -/

/-- A `QUuid`: 128 bits. -/
abbrev QUuid := Fin (2 ^ 128)

/-- The null uuid, `QUuid()`. -/
def QUuid.null : QUuid := 0

/-- The C++ `QUuid::isNull`. -/
def QUuid.isNull (u : QUuid) : Bool := u == QUuid.null

/-- One lower case hexadecimal digit. -/
def hexChar (d : Nat) : Char :=
  if d < 10 then Char.ofNat (48 + d) else Char.ofNat (87 + d)

/-- The value of a hexadecimal digit, either case. -/
def hexVal (c : Char) : Option Nat :=
  let n := c.toNat
  if 48 ≤ n ∧ n ≤ 57 then some (n - 48)
  else if 97 ≤ n ∧ n ≤ 102 then some (n - 87)
  else if 65 ≤ n ∧ n ≤ 70 then some (n - 55)
  else none

/-- The `w` hexadecimal digits of `n`, most significant first. -/
def hexDigits : Nat → Nat → List Char
  | 0, _ => []
  | w + 1, n => hexDigits w (n / 16) ++ [hexChar (n % 16)]

/-- Reads a run of hexadecimal digits, most significant first. -/
def hexValue (cs : List Char) : Option Nat :=
  cs.foldl (fun acc c => acc.bind fun a => (hexVal c).map fun d => a * 16 + d) (some 0)

/-- Inserts the braces and dashes of the textual form around 32 digits. -/
def QUuid.layout (ds : List Char) : List Char :=
  ['{'] ++ ds.take 8 ++ ['-'] ++ (ds.drop 8).take 4 ++ ['-'] ++ (ds.drop 12).take 4 ++ ['-']
    ++ (ds.drop 16).take 4 ++ ['-'] ++ ds.drop 20 ++ ['}']

/-- Strips the braces and dashes of a 38 character textual form. -/
def QUuid.unlayout (cs : List Char) : Option (List Char) :=
  if cs.length = 38 ∧ cs[0]? = some '{' ∧ cs[9]? = some '-' ∧ cs[14]? = some '-'
      ∧ cs[19]? = some '-' ∧ cs[24]? = some '-' ∧ cs[37]? = some '}' then
    some ((cs.drop 1).take 8 ++ (cs.drop 10).take 4 ++ (cs.drop 15).take 4
      ++ (cs.drop 20).take 4 ++ (cs.drop 25).take 12)
  else none

/-- The C++ `QUuid::toString()`: `{xxxxxxxx-xxxx-xxxx-xxxx-xxxxxxxxxxxx}`. -/
def QUuid.toString (u : QUuid) : String :=
  String.mk (QUuid.layout (hexDigits 32 u.val))

/-- The C++ `QUuid(const QString &)`: the uuid a text in the form of `toString`
denotes (hexadecimal digits in either case), and the null uuid for any other
text.  Qt reads a few more forms, such as the one without braces; no member of
`Component` produces them. -/
def QUuid.ofString (s : String) : QUuid :=
  match (QUuid.unlayout s.data).bind hexValue with
  | some n => if h : n < 2 ^ 128 then ⟨n, h⟩ else QUuid.null
  | none => QUuid.null

/-- The uuid with the value `n`, reduced to 128 bits. -/
def QUuid.ofNat (n : Nat) : QUuid := ⟨n % 2 ^ 128, Nat.mod_lt _ (by norm_num)⟩

/-! ## Conversion to `int` -/

/-- The conversion to `int` of a `size_t` or a `ptrdiff_t` that is not
negative: the low 32 bits read as a signed number. -/
def toInt32 (n : Nat) : Int :=
  if n % 2 ^ 32 < 2 ^ 31 then ((n % 2 ^ 32 : Nat) : Int)
  else ((n % 2 ^ 32 : Nat) : Int) - 2 ^ 32

/-! ## Component (src/document.h) -/

/-- The C++ `class Component` of `src/document.h`.  The fields whose types are
declared in headers outside this development (`combineMode`, `polyCount`,
`layer` and the four cloth settings) are touched by no member function and are
left out. -/
structure Component where
  id : QUuid := QUuid.null
  name : String := ""
  linkToPartId : QUuid := QUuid.null
  parentId : QUuid := QUuid.null
  expanded : Bool := true
  dirty : Bool := true
  smoothAll : Rat := 0
  smoothSeam : Rat := 0
  childrenIds : List QUuid := []
  m_childrenIdSet : Finset QUuid := ∅
  deriving DecidableEq

namespace Component

/-- The C++ `Component()`. -/
def init : Component := {}

/-- The C++ `Component(withId, linkData, linkDataType)`; `fresh` is the value
`QUuid::createUuid()` returns when `withId` is null. -/
def create (fresh withId : QUuid) (linkData linkDataType : String) : Component :=
  let c : Component := { id := if withId.isNull then fresh else withId }
  if ¬ linkData.isEmpty then
    if "partId" = linkDataType then
      { c with linkToPartId := QUuid.ofString linkData }
    else c
  else c

/-- The C++ `Component::linkData`. -/
def linkData (c : Component) : String :=
  if c.linkToPartId.isNull then "" else c.linkToPartId.toString

/-- The C++ `Component::linkDataType`. -/
def linkDataType (c : Component) : String :=
  if c.linkToPartId.isNull then "" else "partId"

/-- The C++ `std::swap(v[i], v[j])` on a vector.  An access outside the vector
is undefined in the source; the list is then left as it is. -/
def swapAt (l : List QUuid) (i j : Nat) : List QUuid :=
  match l[i]?, l[j]? with
  | some a, some b => (l.set i b).set j a
  | _, _ => l

/-- The C++ `Component::addChild`. -/
def addChild (c : Component) (childId : QUuid) : Component :=
  if childId ∈ c.m_childrenIdSet then c
  else
    { c with
      m_childrenIdSet := insert childId c.m_childrenIdSet
      childrenIds := c.childrenIds ++ [childId] }

/-- The C++ `Component::removeChild`. -/
def removeChild (c : Component) (childId : QUuid) : Component :=
  if childId ∉ c.m_childrenIdSet then c
  else
    let findResult := c.childrenIds.indexOf childId
    { c with
      m_childrenIdSet := c.m_childrenIdSet.erase childId
      childrenIds :=
        if findResult ≠ c.childrenIds.length then c.childrenIds.eraseIdx findResult
        else c.childrenIds }

/-- The C++ `Component::replaceChild`. -/
def replaceChild (c : Component) (childId newId : QUuid) : Component :=
  if childId ∉ c.m_childrenIdSet then c
  else if newId ∈ c.m_childrenIdSet then c
  else
    let findResult := c.childrenIds.indexOf childId
    { c with
      m_childrenIdSet := insert newId (c.m_childrenIdSet.erase childId)
      childrenIds :=
        if findResult ≠ c.childrenIds.length then c.childrenIds.set findResult newId
        else c.childrenIds }

/-- The C++ `Component::moveChildUp`.  `index` is the `ptrdiff_t` that
`std::distance` returns; no value is converted to `int`. -/
def moveChildUp (c : Component) (childId : QUuid) : Component :=
  let index := c.childrenIds.indexOf childId
  if index = c.childrenIds.length then c
  else if index = 0 then c
  else { c with childrenIds := swapAt c.childrenIds (index - 1) index }

/-- The C++ `Component::moveChildDown`.  `index` is a `ptrdiff_t`; it is
compared with `(int)childrenIds.size() - 1`, the size converted to `int`. -/
def moveChildDown (c : Component) (childId : QUuid) : Component :=
  let index := c.childrenIds.indexOf childId
  if index = c.childrenIds.length then c
  else if (index : Int) = toInt32 c.childrenIds.length - 1 then c
  else { c with childrenIds := swapAt c.childrenIds index (index + 1) }

/-- The loop `for (int i = index; i >= 1; i--) std::swap(v[i - 1], v[i]);` of
`moveChildToTop`, entered with a positive `i`. -/
def toTopLoop : Nat → List QUuid → List QUuid
  | 0, l => l
  | i + 1, l => toTopLoop i (swapAt l i (i + 1))

/-- The loop `for (int i = index; i <= (int)v.size() - 2; i++)
std::swap(v[i], v[i + 1]);` of `moveChildToBottom`, entered with the `int`
`i`; `fuel` bounds the number of iterations.  With a negative `i` the access
`v[i]` is outside the vector: the loop ends with the list as it is. -/
def toBottomLoop : Nat → Int → List QUuid → List QUuid
  | 0, _, l => l
  | fuel + 1, i, l =>
    if i ≤ toInt32 l.length - 2 then
      if 0 ≤ i then toBottomLoop fuel (i + 1) (swapAt l i.toNat (i.toNat + 1))
      else l
    else l

/-- The C++ `Component::moveChildToTop`.  `int i = index` converts the index to
`int`; when the result is not positive the loop is not entered. -/
def moveChildToTop (c : Component) (childId : QUuid) : Component :=
  let index := c.childrenIds.indexOf childId
  if index = c.childrenIds.length then c
  else if index = 0 then c
  else { c with childrenIds := toTopLoop (toInt32 index).toNat c.childrenIds }

/-- The C++ `Component::moveChildToBottom`.  The index is compared with
`(int)childrenIds.size() - 1`, and `int i = index` converts it to `int`.  The
loop runs fewer times than the list has entries, so the fuel is enough. -/
def moveChildToBottom (c : Component) (childId : QUuid) : Component :=
  let index := c.childrenIds.indexOf childId
  if index = c.childrenIds.length then c
  else if (index : Int) = toInt32 c.childrenIds.length - 1 then c
  else
    { c with
      childrenIds := toBottomLoop c.childrenIds.length (toInt32 index) c.childrenIds }

/-- The C++ `Component::setSmoothAll`. -/
def setSmoothAll (c : Component) (toSmoothAll : Rat) : Component :=
  let v := if toSmoothAll < 0 then 0 else if toSmoothAll > 1 then 1 else toSmoothAll
  { c with smoothAll := v }

/-- The C++ `Component::setSmoothSeam`. -/
def setSmoothSeam (c : Component) (toSmoothSeam : Rat) : Component :=
  let v := if toSmoothSeam < 0 then 0 else if toSmoothSeam > 1 then 1 else toSmoothSeam
  { c with smoothSeam := v }

/-- The uniqueness invariant: no child id is listed twice and the private set
holds exactly the listed ids. -/
def Inv (c : Component) : Prop :=
  c.childrenIds.Nodup ∧ c.childrenIds.toFinset = c.m_childrenIdSet

instance (c : Component) : Decidable (Inv c) := by
  unfold Inv; infer_instance

/-- One call of a member function that edits the children list. -/
inductive ChildOp where
  | addChild (childId : QUuid)
  | removeChild (childId : QUuid)
  | replaceChild (childId newId : QUuid)
  | moveChildUp (childId : QUuid)
  | moveChildDown (childId : QUuid)
  | moveChildToTop (childId : QUuid)
  | moveChildToBottom (childId : QUuid)
  deriving DecidableEq

/-- Runs one children-editing call. -/
def ChildOp.apply (c : Component) : ChildOp → Component
  | .addChild x => c.addChild x
  | .removeChild x => c.removeChild x
  | .replaceChild x n => c.replaceChild x n
  | .moveChildUp x => c.moveChildUp x
  | .moveChildDown x => c.moveChildDown x
  | .moveChildToTop x => c.moveChildToTop x
  | .moveChildToBottom x => c.moveChildToBottom x

/-- Runs a sequence of children-editing calls, first call first. -/
def runChildOps (c : Component) (ops : List ChildOp) : Component :=
  ops.foldl ChildOp.apply c

/-- One call of any state-changing member function of `Component`. -/
inductive MemberOp where
  | child (op : ChildOp)
  | setSmoothAll (v : Rat)
  | setSmoothSeam (v : Rat)

/-- Runs one member call. -/
def MemberOp.apply (c : Component) : MemberOp → Component
  | .child op => op.apply c
  | .setSmoothAll v => c.setSmoothAll v
  | .setSmoothSeam v => c.setSmoothSeam v

/-- Runs a sequence of member calls, first call first. -/
def runMemberOps (c : Component) (ops : List MemberOp) : Component :=
  ops.foldl MemberOp.apply c

/-- A component with the children 1, 2, 3, 4 added in this order. -/
def fourChildren : Component :=
  runChildOps init [.addChild 1, .addChild 2, .addChild 3, .addChild 4]

/-- A component with the `n` children 0, 1, ..., `n - 1` in this order. -/
def manyChildren (n : Nat) : Component :=
  { childrenIds := (List.range n).map QUuid.ofNat
    m_childrenIdSet := ((List.range n).map QUuid.ofNat).toFinset }

/-- A component constructed with a link to part 1, then given the child 9. -/
def linkedWithChild : Component :=
  runChildOps (create 7 5 "\x7b00000000-0000-0000-0000-000000000001\x7d" "partId") [.addChild 9]

end Component

/-! ## Positions -/

/-- The square of the distance between two positions (`QVector3D`, here with
rational coordinates). -/
def distSq (a b : Rat × Rat × Rat) : Rat :=
  (a.1 - b.1) * (a.1 - b.1) + (a.2.1 - b.2.1) * (a.2.1 - b.2.1)
    + (a.2.2 - b.2.2) * (a.2.2 - b.2.2)

/-- The mirror image of a position across the plane x = 0. -/
def xNegated (v : Rat × Rat × Rat) : Rat × Rat × Rat := (-v.1, v.2.1, v.2.2)

/-! ## The mesh generation pass

`src/meshgenerator.h` and `src/meshcombiner.h` declare the generator, its cache
and the combiner; their bodies are not part of this development.  `Method` is
taken from the header; the pass itself is modelled from the specification
(sections 3, 4.1, 4.3 and 7). -/

namespace MeshGenerator

/-- The C++ `MeshCombiner::Method` of `src/meshcombiner.h`. -/
inductive Method where
  | Union
  | Diff
  deriving DecidableEq

/-- The vertex and face data of a `MeshCombiner::Mesh`, as
`MeshCombiner::Mesh::fetch` hands it out. -/
structure Mesh where
  vertices : List (Rat × Rat × Rat)
  faces : List (List Nat)
  deriving DecidableEq

/-- The C++ `MeshCombiner::Mesh::isNull`: a mesh without any geometry, as the
default constructed `Mesh()` is. -/
def Mesh.isNull (m : Mesh) : Bool := m.vertices.isEmpty && m.faces.isEmpty

/-- A vertex position with the part id and the node id it traces to, an entry
of the C++ `outcomeNodeVertices` (`std::pair<QVector3D, std::pair<QUuid, QUuid>>`). -/
abbrev NodeVertex := (Rat × Rat × Rat) × (String × String)

/-- Modelled from the spec: the combination method of a component
(`combinemode.h` is missing), "union/subtract/none". -/
inductive CombineMode where
  | Union
  | Subtract
  | None
  deriving DecidableEq

/-- Modelled from the spec: "only two methods are geometrically meaningful at
the combiner level"; a component level method is normalised to one of them
before the combiner is invoked. -/
def CombineMode.toMethod : CombineMode → Method
  | .Subtract => .Diff
  | _ => .Union

/-- Modelled from the spec: what defines a part's geometry, "its defining
nodes/edges, radius, or cut-face settings" and whether it is flagged
"mirrored" (the snapshot classes are missing). -/
structure PartDef where
  nodesAndEdges : List String
  radius : Rat
  cutFace : String
  xMirrored : Bool
  deriving DecidableEq

/-- Modelled from the spec: a part of the snapshot, referenced by id. -/
structure PartSnapshot where
  id : String
  definition : PartDef
  deriving DecidableEq

/-- Modelled from the spec: the settings of a component that its dirty rule
names, "combine method/.../smoothing/cloth parameters". -/
structure ComponentSettings where
  combineMode : CombineMode
  smoothAll : Rat
  smoothSeam : Rat
  clothStiffness : Rat
  clothIteration : Nat
  deriving DecidableEq

/-- Modelled from the spec: a component of the snapshot tree, carrying either a
"link to a single part (leaf)" or its ordered children (internal node). -/
inductive ComponentNode where
  | part (id : String) (settings : ComponentSettings) (link : PartSnapshot)
  | group (id : String) (settings : ComponentSettings) (children : List ComponentNode)

/-- Modelled from the spec: what a component was combined from, the settings,
the linked part and the children list its dirty rule compares. -/
structure ComponentKey where
  settings : ComponentSettings
  linkToPartId : Option String
  childrenIds : List String
  deriving DecidableEq

namespace ComponentNode

/-- The identifier of a component. -/
def id : ComponentNode → String
  | .part i _ _ => i
  | .group i _ _ => i

/-- The settings, part link and children list of a component. -/
def key : ComponentNode → ComponentKey
  | .part _ s p => ⟨s, some p.id, []⟩
  | .group _ s kids => ⟨s, none, kids.map id⟩

/-- The combination method of a component. -/
def combineMode : ComponentNode → CombineMode
  | .part _ s _ => s.combineMode
  | .group _ s _ => s.combineMode

mutual
/-- Every component of a subtree, the root of the subtree first. -/
def nodes : ComponentNode → List ComponentNode
  | .part i s p => [.part i s p]
  | .group i s kids => .group i s kids :: nodesList kids
/-- Every component of a list of subtrees. -/
def nodesList : List ComponentNode → List ComponentNode
  | [] => []
  | t :: ts => nodes t ++ nodesList ts
end

mutual
/-- Every part linked from a subtree. -/
def parts : ComponentNode → List PartSnapshot
  | .part _ _ p => [p]
  | .group _ _ kids => partsList kids
/-- Every part linked from a list of subtrees. -/
def partsList : List ComponentNode → List PartSnapshot
  | [] => []
  | t :: ts => parts t ++ partsList ts
end

/-- The ids of the components of a subtree. -/
def componentIds (t : ComponentNode) : List String := t.nodes.map id

/-- The ids of the parts linked from a subtree. -/
def partIds (t : ComponentNode) : List String := t.parts.map PartSnapshot.id

/-- The part id and node id of a provenance entry are present in the tree: some
part of the tree has this id and this node among its defining nodes/edges. -/
def hasSource (t : ComponentNode) (source : String × String) : Prop :=
  ∃ q ∈ t.parts, q.id = source.1 ∧ source.2 ∈ q.definition.nodesAndEdges

instance (t : ComponentNode) (source : String × String) : Decidable (t.hasSource source) := by
  unfold hasSource; infer_instance

/-- The components whose subtree holds the part `p`: the component linking to
`p` and every ancestor of it up to the root. -/
def ancestorIds (t : ComponentNode) (p : String) : List String :=
  (t.nodes.filter fun s => decide (p ∈ s.partIds)).map id

end ComponentNode

/-- Modelled from the spec: the input snapshot, a component tree "keyed by
stable identifiers": no two components and no two parts share an id. -/
structure Snapshot where
  root : ComponentNode
  componentIds_nodup : root.componentIds.Nodup
  partIds_nodup : root.partIds.Nodup

/-- Modelled from the spec: the cached geometry for one part, "the last
successfully computed mesh", with the definition it was built from (the dirty
rule compares a part with "the last successful pass") and its per-vertex
provenance.  The preview and paint data of the C++ class are not read by any
property here. -/
structure GeneratedPart where
  builtFrom : PartDef
  mesh : Mesh
  outcomeNodeVertices : List NodeVertex
  deriving DecidableEq

/-- Modelled from the spec: the cached geometry for one component subtree (no
mesh when the subtree has no geometry), with what it was combined from and
with "provenance lists mirroring GeneratedPart's". -/
structure GeneratedComponent where
  builtFrom : ComponentKey
  mesh : Option Mesh
  outcomeNodeVertices : List NodeVertex
  deriving DecidableEq

/-- The C++ `GeneratedCacheContext`: the part and component namespaces of the
cache, keyed by id string.  The mirror lookup and the combined-pair scratch
map are not read by any property here. -/
structure GeneratedCacheContext where
  components : String → Option GeneratedComponent
  parts : String → Option GeneratedPart

namespace GeneratedCacheContext

/-- A cache without entries. -/
def empty : GeneratedCacheContext := ⟨fun _ => none, fun _ => none⟩

/-- Replaces the entry of a part. -/
def setPart (c : GeneratedCacheContext) (id : String) (g : GeneratedPart) :
    GeneratedCacheContext :=
  { c with parts := fun k => if k = id then some g else c.parts k }

/-- Replaces the entry of a component. -/
def setComponent (c : GeneratedCacheContext) (id : String) (g : GeneratedComponent) :
    GeneratedCacheContext :=
  { c with components := fun k => if k = id then some g else c.components k }

/-- The provenance list cached for a part, empty when there is no entry. -/
def partNodeVertices (c : GeneratedCacheContext) (id : String) : List NodeVertex :=
  ((c.parts id).map GeneratedPart.outcomeNodeVertices).getD []

/-- The provenance list cached for a component, empty when there is no entry. -/
def componentNodeVertices (c : GeneratedCacheContext) (id : String) : List NodeVertex :=
  ((c.components id).map GeneratedComponent.outcomeNodeVertices).getD []

end GeneratedCacheContext

/-- Modelled from the spec: the two external capabilities a pass calls.  The
Stroke-to-Part Builder turns a part into "a raw vertex/face mesh plus
per-vertex provenance" (`build` and `nodeVertices`: the position and the node
id of each traced vertex); `combine` is "the underlying geometric kernel" of
the Boolean Mesh Combiner.  `none` is a failure (a part that cannot be built,
a null combination). -/
structure Kernel where
  build : PartDef → Option Mesh
  combine : Mesh → Mesh → Method → Option Mesh
  nodeVertices : PartDef → List ((Rat × Rat × Rat) × String)

/-- Modelled from the spec: the body of `MeshGenerator::makeXmirror` is
missing.  "Reflect across the X axis": every vertex gets its x coordinate
negated, and the winding of every face is turned around. -/
def makeXmirror (sourceVertices : List (Rat × Rat × Rat)) (sourceFaces : List (List Nat)) :
    List (Rat × Rat × Rat) × List (List Nat) :=
  (sourceVertices.map xNegated, sourceFaces.map List.reverse)

/-- Modelled from the spec: a mirrored part "adds a second, x-mirrored copy
joined with the non-mirrored copy": the two halves in a single mesh, the
vertices of the copy after those of the original. -/
def joinXmirrored (m : Mesh) : Mesh :=
  let mirrored := makeXmirror m.vertices m.faces
  ⟨m.vertices ++ mirrored.1,
    m.faces ++ mirrored.2.map fun face => face.map fun i => i + m.vertices.length⟩

/-- Modelled from the spec: the mesh of a part as built, "on mirrored parts,
build once, reflect across the X axis, and join the two halves into a single
part mesh". -/
def partMesh (d : PartDef) (built : Mesh) : Mesh :=
  if d.xMirrored then joinXmirrored built else built

/-- Modelled from the spec: the per-vertex provenance of a part mesh, the
builder's node of each vertex under the id of the part; the mirrored copy
traces to the same nodes. -/
def partNodeVertices (K : Kernel) (p : PartSnapshot) : List NodeVertex :=
  let own := (K.nodeVertices p.definition).map fun x => (x.1, (p.id, x.2))
  if p.definition.xMirrored then
    own ++ own.map fun x => (xNegated x.1, x.2)
  else own

namespace MeshCombiner

/-- Modelled from the spec: the body of `MeshCombiner::combine` is missing.
"combine(A, empty, subtract) returns a mesh equal to A"; every other pair is
handed to the geometric kernel, and the result is null "only when the
underlying geometric kernel cannot produce any result". -/
def combine (K : Kernel) (firstMesh secondMesh : Mesh) (method : Method) : Option Mesh :=
  if method = Method.Diff ∧ secondMesh.isNull = true then some firstMesh
  else K.combine firstMesh secondMesh method

end MeshCombiner

/-- Modelled from the spec: the body of `MeshGenerator::checkIsPartDirty` is
missing.  "A part is dirty if its defining nodes/edges, radius, or cut-face
settings differ from the last successful pass, or if it has never been
built". -/
def checkIsPartDirty (cache : GeneratedCacheContext) (p : PartSnapshot) : Bool :=
  match cache.parts p.id with
  | none => true
  | some g => g.builtFrom != p.definition

/-- Modelled from the spec: a component's own change, "its combine
method/children list/smoothing/cloth parameters changed" since it was last
combined, or it was never combined. -/
def isComponentChanged (cache : GeneratedCacheContext) (t : ComponentNode) : Bool :=
  match cache.components t.id with
  | none => true
  | some g => g.builtFrom != t.key

mutual
/-- Modelled from the spec: the body of `MeshGenerator::checkIsComponentDirty`
is missing.  A component is dirty if it changed itself "or if any descendant
part/component is dirty". -/
def checkIsComponentDirty (cache : GeneratedCacheContext) : ComponentNode → Bool
  | .part i s p => isComponentChanged cache (.part i s p) || checkIsPartDirty cache p
  | .group i s kids =>
    isComponentChanged cache (.group i s kids) || anyComponentDirty cache kids
/-- Whether some subtree of the list is dirty. -/
def anyComponentDirty (cache : GeneratedCacheContext) : List ComponentNode → Bool
  | [] => false
  | t :: ts => checkIsComponentDirty cache t || anyComponentDirty cache ts
end

/-- Modelled from the spec: the member `m_dirtyComponentIds` after
`checkDirtyFlags`, the ids of the dirty components of the tree. -/
def dirtyComponentIds (cache : GeneratedCacheContext) (root : ComponentNode) : Finset String :=
  ((root.nodes.filter (checkIsComponentDirty cache)).map ComponentNode.id).toFinset

/-- Modelled from the spec: the member `m_dirtyPartIds` after
`checkDirtyFlags`, the ids of the dirty parts of the tree. -/
def dirtyPartIds (cache : GeneratedCacheContext) (root : ComponentNode) : Finset String :=
  ((root.parts.filter (checkIsPartDirty cache)).map PartSnapshot.id).toFinset

/-- Modelled from the spec: the body of `MeshGenerator::checkDirtyFlags` is
missing.  The dirty component ids and the dirty part ids of a tree. -/
def checkDirtyFlags (cache : GeneratedCacheContext) (root : ComponentNode) :
    Finset String × Finset String :=
  (dirtyComponentIds cache root, dirtyPartIds cache root)

/-- Modelled from the spec: what one step of a pass hands back, the cache after
it, the mesh of the subtree (none when it has no geometry), the ids of the
parts and components it rebuilt, the ids whose rebuild failed, and the
per-vertex provenance of the mesh. -/
structure Generated where
  cache : GeneratedCacheContext
  mesh : Option Mesh
  rebuiltPartIds : List String
  rebuiltComponentIds : List String
  failedIds : List String
  outcomeNodeVertices : List NodeVertex

/-- Modelled from the spec: the body of `MeshGenerator::combinePartMesh` is
missing.  A dirty part is built by the builder; on success the result
"replaces any prior cached value", on failure "ancestors fall back to the last
cached geometry for that id if present, otherwise treat the part as empty".
"On mirrored parts, build once, reflect across the X axis, and join the two
halves into a single part mesh".  A part that is not dirty is served from the
cache. -/
def combinePartMesh (K : Kernel) (dirtyParts : Finset String) (cache : GeneratedCacheContext)
    (p : PartSnapshot) : Generated :=
  if p.id ∈ dirtyParts then
    match K.build p.definition with
    | some built =>
      ⟨cache.setPart p.id ⟨p.definition, partMesh p.definition built, partNodeVertices K p⟩,
        some (partMesh p.definition built), [p.id], [], [], partNodeVertices K p⟩
    | none =>
      ⟨cache, (cache.parts p.id).map GeneratedPart.mesh, [p.id], [], [p.id],
        cache.partNodeVertices p.id⟩
  else
    ⟨cache, (cache.parts p.id).map GeneratedPart.mesh, [], [], [], cache.partNodeVertices p.id⟩

/-- Modelled from the spec: the body of `MeshGenerator::combineMultipleMeshes`
is missing.  "The first child seeds the accumulator; subsequent children are
merged in via union or subtract against the running accumulator"; when the
combiner returns null "the accumulator falls back to its pre-combination
state for that operand".  A child without geometry is passed over.  Returns
the accumulator and whether some combination failed. -/
def combineMultipleMeshes (K : Kernel) :
    Option Mesh → List (Option Mesh × CombineMode) → Option Mesh × Bool
  | acc, [] => (acc, false)
  | acc, (none, _) :: rest => combineMultipleMeshes K acc rest
  | none, (some m, _) :: rest => combineMultipleMeshes K (some m) rest
  | some a, (some m, mode) :: rest =>
    match MeshCombiner.combine K a m mode.toMethod with
    | some r => combineMultipleMeshes K (some r) rest
    | none => ((combineMultipleMeshes K (some a) rest).1, true)

/-- The combination in the words of the spec, one child at a time: a child
without geometry is passed over, "the first child seeds the accumulator", a
later child is "merged in via union or subtract against the running
accumulator" with its own method, and a null combination leaves the
accumulator as it was and is noted. -/
def combineStep (K : Kernel) (state : Option Mesh × Bool) (child : Option Mesh × CombineMode) :
    Option Mesh × Bool :=
  match state.1, child.1 with
  | acc, none => (acc, state.2)
  | none, some m => (some m, state.2)
  | some a, some m =>
    match MeshCombiner.combine K a m child.2.toMethod with
    | some r => (some r, state.2)
    | none => (some a, true)

/-- Modelled from the spec: what the children of a component hand back, the
cache after them, their meshes with their combination methods in child order,
the rebuilt and failed ids, and their provenance lists one after the other. -/
structure GeneratedChildren where
  cache : GeneratedCacheContext
  meshes : List (Option Mesh × CombineMode)
  rebuiltPartIds : List String
  rebuiltComponentIds : List String
  failedIds : List String
  outcomeNodeVertices : List NodeVertex

mutual
/-- Modelled from the spec: the body of `MeshGenerator::combineComponentMesh`
is missing.  A component that is not dirty is served from the cache; a dirty
one is rebuilt from its part or, children before parents, from its children
combined in child order.  On success the result "replaces any prior cached
value under the same id"; on failure "the previous cached value, if any, is
retained and reused by ancestors". -/
def combineComponentMesh (K : Kernel) (dirtyComponents dirtyParts : Finset String) :
    GeneratedCacheContext → ComponentNode → Generated
  | cache, .part i s p =>
    if i ∈ dirtyComponents then
      let r := combinePartMesh K dirtyParts cache p
      ⟨r.cache.setComponent i ⟨(ComponentNode.part i s p).key, r.mesh, r.outcomeNodeVertices⟩,
        r.mesh, r.rebuiltPartIds, [i], r.failedIds, r.outcomeNodeVertices⟩
    else
      ⟨cache, (cache.components i).bind GeneratedComponent.mesh, [], [], [],
        cache.componentNodeVertices i⟩
  | cache, .group i s kids =>
    if i ∈ dirtyComponents then
      let r := combineChildren K dirtyComponents dirtyParts cache kids
      let combined := combineMultipleMeshes K none r.meshes
      if combined.2 then
        ⟨r.cache,
          match r.cache.components i with
          | some g => g.mesh
          | none => combined.1,
          r.rebuiltPartIds, i :: r.rebuiltComponentIds, i :: r.failedIds,
          match r.cache.components i with
          | some g => g.outcomeNodeVertices
          | none => r.outcomeNodeVertices⟩
      else
        ⟨r.cache.setComponent i
            ⟨(ComponentNode.group i s kids).key, combined.1, r.outcomeNodeVertices⟩,
          combined.1, r.rebuiltPartIds, i :: r.rebuiltComponentIds, r.failedIds,
          r.outcomeNodeVertices⟩
    else
      ⟨cache, (cache.components i).bind GeneratedComponent.mesh, [], [], [],
        cache.componentNodeVertices i⟩
/-- The children of a component, processed in child order, each on the cache
its elder siblings left. -/
def combineChildren (K : Kernel) (dirtyComponents dirtyParts : Finset String) :
    GeneratedCacheContext → List ComponentNode → GeneratedChildren
  | cache, [] => ⟨cache, [], [], [], [], []⟩
  | cache, t :: ts =>
    let r := combineComponentMesh K dirtyComponents dirtyParts cache t
    let rs := combineChildren K dirtyComponents dirtyParts r.cache ts
    ⟨rs.cache, (r.mesh, t.combineMode) :: rs.meshes, r.rebuiltPartIds ++ rs.rebuiltPartIds,
      r.rebuiltComponentIds ++ rs.rebuiltComponentIds, r.failedIds ++ rs.failedIds,
      r.outcomeNodeVertices ++ rs.outcomeNodeVertices⟩
end

/-- Modelled from the spec: the body of `MeshGenerator::generate` is missing.
One generation pass.  The cache is the one given by
`setGeneratedCacheContext`, or a fresh empty one ("if no cache is supplied,
every element is treated as dirty"); the dirty sets are computed first, then
the tree is combined bottom-up from the root. -/
def generate (K : Kernel) (cacheContext : Option GeneratedCacheContext) (snapshot : Snapshot) :
    Generated :=
  let cache := cacheContext.getD GeneratedCacheContext.empty
  let dirty := checkDirtyFlags cache snapshot.root
  combineComponentMesh K dirty.1 dirty.2 cache snapshot.root

/-! ### Sample inputs -/

/-- Union with no smoothing and no cloth. -/
def plainSettings : ComponentSettings := ⟨.Union, 0, 0, 0, 0⟩

/-- A tree `root [a, g [b], c]` whose leaves link the parts `pa`, `pb`, `pc`;
`r` is the radius of `pb`. -/
def sampleTree (r : Rat) : ComponentNode :=
  .group "root" plainSettings
    [.part "a" plainSettings ⟨"pa", ⟨["n1", "n2"], 1, "", false⟩⟩,
     .group "g" plainSettings [.part "b" plainSettings ⟨"pb", ⟨["n3"], r, "", false⟩⟩],
     .part "c" plainSettings ⟨"pc", ⟨["n4"], 1, "", false⟩⟩]

/-- The sample tree with radius 2 on part `pb`. -/
def sampleSnapshot : Snapshot := ⟨sampleTree 2, by decide, by decide⟩

/-- The sample tree with radius 3 on part `pb`. -/
def changedSnapshot : Snapshot := ⟨sampleTree 3, by decide, by decide⟩

/-- A kernel that never fails: a part becomes one vertex at its radius, traced
to each node of the part, and a combination keeps the vertices of both
operands. -/
def sampleKernel : Kernel :=
  ⟨fun d => some ⟨[(d.radius, 0, 0)], []⟩,
    fun a b _ => some ⟨a.vertices ++ b.vertices, []⟩,
    fun d => d.nodesAndEdges.map fun n => ((d.radius, 0, 0), n)⟩

/-- A tree `root [g [b1, b2], c]` whose leaves link the parts `pb1`, `pb2`,
`pc`; `r1` is the radius of `pb1` and `rc` the radius of `pc`. -/
def pairTree (r1 rc : Rat) : ComponentNode :=
  .group "root" plainSettings
    [.group "g" plainSettings
      [.part "b1" plainSettings ⟨"pb1", ⟨["n1"], r1, "", false⟩⟩,
       .part "b2" plainSettings ⟨"pb2", ⟨["n2"], 5, "", false⟩⟩],
     .part "c" plainSettings ⟨"pc", ⟨["n3"], rc, "", false⟩⟩]

/-- The pair tree with radius 1 on `pb1` and on `pc`. -/
def firstPairSnapshot : Snapshot := ⟨pairTree 1 1, by decide, by decide⟩

/-- The pair tree after the radius of `pb1` was changed to 7; `pc` is as it
was. -/
def editedPairSnapshot : Snapshot := ⟨pairTree 7 1, by decide, by decide⟩

/-- The sample kernel with a geometric kernel that returns null for one pair
of operands, the mesh of `pb1` at radius 7 with the mesh of `pb2`. -/
def pairFailingKernel : Kernel :=
  ⟨fun d => some ⟨[(d.radius, 0, 0)], []⟩,
    fun a b _ =>
      if a = ⟨[(7, 0, 0)], []⟩ ∧ b = ⟨[(5, 0, 0)], []⟩ then none
      else some ⟨a.vertices ++ b.vertices, []⟩,
    fun d => d.nodesAndEdges.map fun n => ((d.radius, 0, 0), n)⟩

/-- A tree `root [b]` whose leaf links the part `pb` with the nodes `ns`. -/
def chainTree (ns : List String) : ComponentNode :=
  .group "root" plainSettings [.part "b" plainSettings ⟨"pb", ⟨ns, 1, "", false⟩⟩]

/-- The chain tree with the nodes `n3` and `n5` on part `pb`. -/
def longChainSnapshot : Snapshot := ⟨chainTree ["n3", "n5"], by decide, by decide⟩

/-- The chain tree after node `n5` was removed from part `pb`. -/
def shortChainSnapshot : Snapshot := ⟨chainTree ["n3"], by decide, by decide⟩

/-- The sample kernel with a builder that fails on a degenerate node chain, a
part with fewer than two nodes. -/
def chainKernel : Kernel :=
  ⟨fun d => if d.nodesAndEdges.length < 2 then none else some ⟨[(d.radius, 0, 0)], []⟩,
    fun a b _ => some ⟨a.vertices ++ b.vertices, []⟩,
    fun d => d.nodesAndEdges.map fun n => ((d.radius, 0, 0), n)⟩

/-- A part flagged as mirrored. -/
def mirroredPart : PartSnapshot := ⟨"pm", ⟨["n1", "n2"], 3, "", true⟩⟩

/-- A kernel whose builder fails on every part. -/
def failingKernel : Kernel :=
  ⟨fun _ => none, fun a b _ => some ⟨a.vertices ++ b.vertices, []⟩, fun _ => []⟩

end MeshGenerator

/-! ## The remesher (src/remesher.h)

The header declares the class; `remesher.cpp` is not part of this development,
so the member functions are modelled from section 4.4 of the specification. -/

/-- The C++ `class Remesher` of `src/remesher.h`, with its seven members. -/
structure Remesher where
  m_vertices : List (Rat × Rat × Rat) := []
  m_triangles : List (List Nat) := []
  m_remeshedVertices : List (Rat × Rat × Rat) := []
  m_remeshedFaces : List (List Nat) := []
  m_remeshedVertexSources : List (QUuid × QUuid) := []
  m_nodes : List ((Rat × Rat × Rat) × Rat) := []
  m_sourceIds : List (QUuid × QUuid) := []
  deriving DecidableEq

namespace Remesher

/-- The C++ `Remesher()`: every vector is empty. -/
def init : Remesher := {}

/-- Modelled from the spec: the body of `Remesher::setMesh` is missing.  It
keeps the input mesh. -/
def setMesh (r : Remesher) (vertices : List (Rat × Rat × Rat)) (triangles : List (List Nat)) :
    Remesher :=
  { r with m_vertices := vertices, m_triangles := triangles }

/-- Modelled from the spec: the body of `Remesher::setNodes` is missing.  It
keeps the "skeleton node positions/radii with provenance ids". -/
def setNodes (r : Remesher) (nodes : List ((Rat × Rat × Rat) × Rat))
    (sourceIds : List (QUuid × QUuid)) : Remesher :=
  { r with m_nodes := nodes, m_sourceIds := sourceIds }

/-- Modelled from the spec: the search for "the nearest input node" from
position `index` on; `best` is the index of the nearest node so far and
`bestDistance` its squared distance. -/
def nearestFrom (v : Rat × Rat × Rat) :
    Nat → Rat → Nat → List ((Rat × Rat × Rat) × Rat) → Nat
  | best, _, _, [] => best
  | best, bestDistance, index, node :: rest =>
    if distSq v node.1 < bestDistance then nearestFrom v index (distSq v node.1) (index + 1) rest
    else nearestFrom v best bestDistance (index + 1) rest

/-- Modelled from the spec: the index of "the nearest input node" of a
position, the first one among equally near nodes; 0 when there is no node. -/
def nearestNodeIndex (v : Rat × Rat × Rat) (nodes : List ((Rat × Rat × Rat) × Rat)) : Nat :=
  match nodes with
  | [] => 0
  | node :: rest => nearestFrom v 0 (distSq v node.1) 1 rest

/-- Modelled from the spec: the body of `Remesher::resolveSources` is missing.
"A provenance array aligned 1:1 with the new vertices, each entry resolved to
the nearest input node's provenance id"; a node without a provenance id gives
the default constructed pair of null uuids. -/
def resolveSources (r : Remesher) : Remesher :=
  { r with
    m_remeshedVertexSources := r.m_remeshedVertices.map fun v =>
      r.m_sourceIds.getD (nearestNodeIndex v r.m_nodes) (QUuid.null, QUuid.null) }

/-- Modelled from the spec: the body of `Remesher::remesh` is missing.  The
remeshing algorithm itself is "a black box with a defined contract", here the
parameter `algorithm`, which yields the new vertices and faces or fails.  "A
failed remesh is reported by leaving output empty": the three output vectors
are cleared, whatever an earlier call left in them; after a successful remesh
the sources are resolved. -/
def remesh
    (algorithm : List (Rat × Rat × Rat) → List (List Nat) → Rat →
      Option (List (Rat × Rat × Rat) × List (List Nat)))
    (r : Remesher) (targetVertexMultiplyFactor : Rat) : Remesher :=
  match algorithm r.m_vertices r.m_triangles targetVertexMultiplyFactor with
  | none =>
    { r with m_remeshedVertices := [], m_remeshedFaces := [], m_remeshedVertexSources := [] }
  | some out => resolveSources { r with m_remeshedVertices := out.1, m_remeshedFaces := out.2 }

/-- The C++ `Remesher::getRemeshedVertices`. -/
def getRemeshedVertices (r : Remesher) : List (Rat × Rat × Rat) := r.m_remeshedVertices

/-- The C++ `Remesher::getRemeshedFaces`. -/
def getRemeshedFaces (r : Remesher) : List (List Nat) := r.m_remeshedFaces

/-- The C++ `Remesher::getRemeshedVertexSources`. -/
def getRemeshedVertexSources (r : Remesher) : List (QUuid × QUuid) := r.m_remeshedVertexSources

/-- A remeshing algorithm that keeps the mesh as it is. -/
def keepAlgorithm : List (Rat × Rat × Rat) → List (List Nat) → Rat →
    Option (List (Rat × Rat × Rat) × List (List Nat)) :=
  fun vertices triangles _ => some (vertices, triangles)

/-- A remeshing algorithm that always fails. -/
def failAlgorithm : List (Rat × Rat × Rat) → List (List Nat) → Rat →
    Option (List (Rat × Rat × Rat) × List (List Nat)) :=
  fun _ _ _ => none

/-- A triangle. -/
def triangleVertices : List (Rat × Rat × Rat) := [(0, 0, 0), (4, 0, 0), (0, 4, 0)]

/-- Two nodes, at the origin and at (4, 0, 0). -/
def twoNodes : List ((Rat × Rat × Rat) × Rat) := [((0, 0, 0), 1), ((4, 0, 0), 1)]

/-- The provenance ids of the two nodes. -/
def twoSourceIds : List (QUuid × QUuid) := [(1, 11), (1, 12)]

end Remesher

/-! ## The scheduling of generation passes (src/document.h)

The header declares `generateMesh`, `meshReady` and the members they use;
`document.cpp` is not part of this development, so the two slots are modelled
from section 5 of the specification. -/

/-- The members of the C++ `class Document` that schedule mesh generation.  The
in-flight `MeshGenerator` is held by the id given to it with `setId` (no
generator, `nullptr`, is `none`), the result mesh by the id of the pass that
produced it.  `started` is not a member: it records the ids given to the
passes started so far, oldest first.  The 64 bit counters are unbounded here:
no run starts `2^64` passes. -/
structure Document where
  m_isResultMeshObsolete : Bool := false
  m_meshGenerator : Option Nat := none
  m_resultMesh : Option Nat := none
  m_meshGenerationId : Nat := 0
  m_nextMeshGenerationId : Nat := 0
  started : List Nat := []
  deriving DecidableEq

namespace Document

/-- A document before any generation. -/
def init : Document := {}

/-- Modelled from the spec: the body of `Document::generateMesh` is missing.
"Only one generation pass runs at a time": while a pass is in flight the
request "is recorded" in the obsolete flag; otherwise a pass is started and
"assigned a monotonically increasing generation id". -/
def generateMesh (d : Document) : Document :=
  match d.m_meshGenerator with
  | some _ => { d with m_isResultMeshObsolete := true }
  | none =>
    { d with
      m_isResultMeshObsolete := false
      m_meshGenerator := some d.m_nextMeshGenerationId
      m_nextMeshGenerationId := d.m_nextMeshGenerationId + 1
      started := d.started ++ [d.m_nextMeshGenerationId] }

/-- Modelled from the spec: the body of `Document::meshReady` is missing.  The
slot takes no argument: the pass that signals completion is the one in flight,
and its id is the one given to it with `setId`.  When a mutation was recorded
meanwhile, "a new pass is scheduled to start immediately after the current one
finishes" and is assigned the next id.  "The caller discards results whose id
is stale by the time they complete": the result of the finished pass replaces
the result mesh only when its id is still the most recently assigned one; "a
superseded pass is allowed to run to completion but its output is dropped".
Without a pass in flight nothing signals completion. -/
def meshReady (d : Document) : Document :=
  match d.m_meshGenerator with
  | none => d
  | some finishedId =>
    let next : Document :=
      if d.m_isResultMeshObsolete then generateMesh { d with m_meshGenerator := none }
      else { d with m_meshGenerator := none }
    if finishedId + 1 = next.m_nextMeshGenerationId then
      { next with m_resultMesh := some finishedId, m_meshGenerationId := finishedId }
    else next

/-- What happens to a document: a mutation of the tree asks for a generation,
or the pass in flight finishes. -/
inductive Event where
  | mutation
  | passFinished
  deriving DecidableEq

/-- One event. -/
def step (d : Document) : Event → Document
  | .mutation => d.generateMesh
  | .passFinished => d.meshReady

/-- A sequence of events, first event first. -/
def run (d : Document) (events : List Event) : Document :=
  events.foldl step d

end Document

/-! ## Motion clips and motion previews (src/document.h) -/

/-- The C++ `enum class MotionClipType`. -/
inductive MotionClipType where
  | Pose
  | Interpolation
  | Motion
  | ProceduralAnimation
  deriving DecidableEq

/-- The four conversions between text and the enumerations `InterpolationType`
and `ProceduralAnimation`.  The enumerations and the conversions are declared
in headers outside this development, so they are the parameters `ι`, `π` and
the fields of this record. -/
structure ClipConversions (ι π : Type) where
  interpolationTypeFromString : String → ι
  interpolationTypeToString : ι → String
  proceduralAnimationFromString : String → π
  proceduralAnimationToString : π → String

/-- The C++ `class MotionClip`. -/
structure MotionClip (ι π : Type) where
  duration : Rat
  clipType : MotionClipType
  linkToId : QUuid
  interpolationType : ι
  proceduralAnimation : π

namespace MotionClip

variable {ι π : Type}

/-- The C++ `MotionClip()`.  The members `interpolationType` and
`proceduralAnimation` have no initialiser: `i0` and `p0` are the values they
happen to hold. -/
def init (i0 : ι) (p0 : π) : MotionClip ι π :=
  { duration := 0
    clipType := MotionClipType.Pose
    linkToId := QUuid.null
    interpolationType := i0
    proceduralAnimation := p0 }

/-- The C++ `MotionClip(const QString &linkData, const QString &linkDataType)`. -/
def create (conv : ClipConversions ι π) (i0 : ι) (p0 : π)
    (linkData linkDataType : String) : MotionClip ι π :=
  if "poseId" = linkDataType then
    { init i0 p0 with
      clipType := MotionClipType.Pose
      linkToId := QUuid.ofString linkData }
  else if "InterpolationType" = linkDataType then
    { init i0 p0 with
      clipType := MotionClipType.Interpolation
      interpolationType := conv.interpolationTypeFromString linkData }
  else if "ProceduralAnimation" = linkDataType then
    { init i0 p0 with
      clipType := MotionClipType.ProceduralAnimation
      proceduralAnimation := conv.proceduralAnimationFromString linkData }
  else if "motionId" = linkDataType then
    { init i0 p0 with
      clipType := MotionClipType.Motion
      linkToId := QUuid.ofString linkData }
  else init i0 p0

/-- The C++ `MotionClip::linkDataType`.  The four tests cover the enumeration,
so the closing `return "poseId"` of the source is never reached. -/
def linkDataType (c : MotionClip ι π) : String :=
  match c.clipType with
  | MotionClipType.Pose => "poseId"
  | MotionClipType.Interpolation => "InterpolationType"
  | MotionClipType.ProceduralAnimation => "ProceduralAnimation"
  | MotionClipType.Motion => "motionId"

/-- The C++ `MotionClip::linkData`. -/
def linkData (conv : ClipConversions ι π) (c : MotionClip ι π) : String :=
  match c.clipType with
  | MotionClipType.Pose => QUuid.toString c.linkToId
  | MotionClipType.Interpolation => conv.interpolationTypeToString c.interpolationType
  | MotionClipType.ProceduralAnimation => conv.proceduralAnimationToString c.proceduralAnimation
  | MotionClipType.Motion => QUuid.toString c.linkToId

end MotionClip

/-- The members of the C++ `class Motion` that `takePreviewMesh` reads.  A
preview mesh is a `MeshLoader`, declared outside this development: the
parameter `μ`.  The vector holds pointers to meshes; here it holds the meshes
pointed to. -/
structure Motion (μ : Type) where
  id : QUuid := QUuid.null
  name : String := ""
  dirty : Bool := true
  m_previewMeshs : List (Rat × μ) := []

namespace Motion

variable {μ : Type}

/-- The local `middle` of `Motion::takePreviewMesh` for a vector of `size`
entries: `std::max((int)m_previewMeshs.size() / 2 - 1, (int)0)`, with the
division of C++, which rounds towards zero. -/
def middle (size : Nat) : Int :=
  max (Int.tdiv (toInt32 size) 2 - 1) 0

/-- The C++ `Motion::takePreviewMesh`: `nullptr` is `none`, the copy made by
`new MeshLoader(...)` is the mesh copied.  An index outside the vector, which
the source would read without a check, is `none` too. -/
def takePreviewMesh (m : Motion μ) : Option μ :=
  if m.m_previewMeshs.isEmpty then none
  else (m.m_previewMeshs[(middle m.m_previewMeshs.length).toNat]?).map Prod.snd

end Motion

/-! ## The pose document (src/posedocument.cpp)

`posedocument.h`, `skeletondocument.h` and `rigger.h` are outside this
development.  The classes they declare appear here with the members that
`posedocument.cpp` reads or writes; what the file calls and does not define is
a field of `PoseExternals`.  Signals (`emit ...`) change no state and are left
out. -/

/-- The C++ `enum class SkeletonSide`, with the three enumerators the source
names. -/
inductive SkeletonSide where
  | None
  | Left
  | Right
  deriving DecidableEq

/-- A `QVector3D`; `QVector3D()` is the origin. -/
structure QVector3D where
  x : Rat := 0
  y : Rat := 0
  z : Rat := 0
  deriving DecidableEq

namespace QVector3D

/-- The C++ `v *= f`. -/
def scale (v : QVector3D) (f : Rat) : QVector3D := ⟨v.x * f, v.y * f, v.z * f⟩

/-- The C++ `v += w`. -/
def add (v w : QVector3D) : QVector3D := ⟨v.x + w.x, v.y + w.y, v.z + w.z⟩

/-- The C++ `v - w`. -/
def sub (v w : QVector3D) : QVector3D := ⟨v.x - w.x, v.y - w.y, v.z - w.z⟩

end QVector3D

/-- The members of a `RiggerBone` that the pose document uses. -/
structure RiggerBone where
  name : String := ""
  headPosition : QVector3D := {}
  tailPosition : QVector3D := {}
  children : List Int := []
  deriving DecidableEq

/-- The members of a `SkeletonNode` that the pose document uses.  The setters
`setRadius`, `setX`, `setY`, `setZ` are taken to store their argument and the
getters to return it; no property below reads these four members. -/
structure SkeletonNode where
  id : QUuid := QUuid.null
  partId : QUuid := QUuid.null
  name : String := ""
  radius : Rat := 0
  x : Rat := 0
  y : Rat := 0
  z : Rat := 0
  edgeIds : List QUuid := []
  deriving DecidableEq

/-- The members of a `SkeletonEdge` that the pose document uses. -/
structure SkeletonEdge where
  id : QUuid := QUuid.null
  partId : QUuid := QUuid.null
  nodeIds : List QUuid := []
  deriving DecidableEq

/-- The members of a `SkeletonPart` that the pose document uses. -/
structure SkeletonPart where
  id : QUuid := QUuid.null
  visible : Bool
  nodeIds : List QUuid := []
  deriving DecidableEq

/-- A `std::map`, as the partial function from its keys to its values. -/
abbrev StdMap (κ α : Type) := κ → Option α

namespace StdMap

variable {κ α : Type} [DecidableEq κ]

/-- The map without entries. -/
def empty : StdMap κ α := fun _ => none

/-- The map after `m[k] = v`. -/
def set (m : StdMap κ α) (k : κ) (v : α) : StdMap κ α :=
  fun j => if j = k then some v else m j

/-- The value of the expression `m[k]`, where `fresh` is a value-initialised
`α`. -/
def get (m : StdMap κ α) (k : κ) (fresh : α) : α := (m k).getD fresh

/-- The map after the expression `m[k]` was evaluated: a key that was missing
is now bound to `fresh`. -/
def touch (m : StdMap κ α) (k : κ) (fresh : α) : StdMap κ α := set m k (get m k fresh)

end StdMap

/-- The pose parameters, `std::map<QString, std::map<QString, QString>>`. -/
abbrev Parameters := StdMap String (StdMap String String)

/-- The C++ `struct PoseHistoryItem`. -/
structure PoseHistoryItem where
  parameters : Parameters

/-- What `posedocument.cpp` calls and does not define. -/
structure PoseExternals where
  /-- The result of the call of `QUuid::createUuid()` that `n` calls went
  before. -/
  createUuid : Nat → QUuid
  /-- The C++ `SkeletonSideFromBoneName`. -/
  sideFromBoneName : String → SkeletonSide
  /-- The member `visible` of a value-initialised `SkeletonPart`. -/
  partVisible : Bool
  /-- The C++ `QString::toFloat`. -/
  toFloat : String → Rat
  /-- The C++ `QString::number`. -/
  number : Rat → String
  /-- The C++ `QVector3D::distanceToPoint`. -/
  distanceToPoint : QVector3D → QVector3D → Rat
  /-- The C++ `QVector3D::normalized`. -/
  normalized : QVector3D → QVector3D
  /-- The C++ `valueOfKeyInMapOrEmpty` of `util.h`. -/
  valueOfKeyInMapOrEmpty : StdMap String String → String → String

/-- The members of the C++ `class PoseDocument` that `posedocument.cpp` uses.
`uuidsCreated` is not a member: it counts the calls of `QUuid::createUuid()`
made so far.  The back of a `std::deque` is the end of the list. -/
structure PoseDocument where
  nodeMap : StdMap QUuid SkeletonNode := StdMap.empty
  edgeMap : StdMap QUuid SkeletonEdge := StdMap.empty
  partMap : StdMap QUuid SkeletonPart := StdMap.empty
  m_otherIds : Finset QUuid := ∅
  m_boneNameToIdsMap : StdMap String (QUuid × QUuid) := StdMap.empty
  m_partIdMap : StdMap SkeletonSide QUuid := StdMap.empty
  m_hiddenSides : Finset SkeletonSide := ∅
  m_riggerBones : List RiggerBone := []
  m_otherFramesParameters : List Parameters := []
  m_undoItems : List PoseHistoryItem := []
  m_redoItems : List PoseHistoryItem := []
  uuidsCreated : Nat := 0

/-- The C++ `QString::startsWith`. -/
def startsWith (s start : String) : Bool := start.data.isPrefixOf s.data

namespace PoseDocument

/-- The C++ `PoseDocument::m_nodeRadius`. -/
def m_nodeRadius : Rat := 0.01

/-- The C++ `PoseDocument::m_hideRootAndVirtual`. -/
def m_hideRootAndVirtual : Bool := true

/-- The C++ `PoseDocument::m_outcomeScaleFactor`. -/
def m_outcomeScaleFactor : Rat := 0.5

/-- The C++ `PoseDocument::fromOutcomeX`. -/
def fromOutcomeX (x : Rat) : Rat := x * m_outcomeScaleFactor + 0.5

/-- The C++ `PoseDocument::toOutcomeX`. -/
def toOutcomeX (x : Rat) : Rat := (x - 0.5) / m_outcomeScaleFactor

/-- The C++ `PoseDocument::fromOutcomeY`. -/
def fromOutcomeY (y : Rat) : Rat := -y * m_outcomeScaleFactor + 0.5

/-- The C++ `PoseDocument::toOutcomeY`. -/
def toOutcomeY (y : Rat) : Rat := (0.5 - y) / m_outcomeScaleFactor

/-- The C++ `PoseDocument::fromOutcomeZ`. -/
def fromOutcomeZ (z : Rat) : Rat := -z * m_outcomeScaleFactor + 1

/-- The C++ `PoseDocument::toOutcomeZ`. -/
def toOutcomeZ (z : Rat) : Rat := (1.0 - z) / m_outcomeScaleFactor

/-- A pose document without content. -/
def init : PoseDocument := {}

/-- The C++ `PoseDocument::isSideVisible`. -/
def isSideVisible (d : PoseDocument) (side : SkeletonSide) : Bool :=
  decide (side ∉ d.m_hiddenSides)

/-- The C++ `PoseDocument::setSideVisiableState`. -/
def setSideVisiableState (env : PoseExternals) (d : PoseDocument) (side : SkeletonSide)
    (visible : Bool) : PoseDocument :=
  if d.isSideVisible side = visible then d
  else
    let partId := StdMap.get d.m_partIdMap side QUuid.null
    let part := StdMap.get d.partMap partId { visible := env.partVisible }
    { d with
      m_hiddenSides := if visible then d.m_hiddenSides.erase side else insert side d.m_hiddenSides
      m_partIdMap := StdMap.touch d.m_partIdMap side QUuid.null
      partMap := StdMap.set d.partMap partId { part with visible := visible } }

/-! ### Making nodes and edges from bones -/

/-- The value of the expression `(*m_partIdMap)[side]`.  Every call in the
source passes the member `m_partIdMap` for the parameter of that name. -/
def partIdOfSide (d : PoseDocument) (side : SkeletonSide) : QUuid :=
  StdMap.get d.m_partIdMap side QUuid.null

/-- The document after `(*m_partIdMap)[side]` was evaluated. -/
def touchPartIdOfSide (d : PoseDocument) (side : SkeletonSide) : PoseDocument :=
  { d with m_partIdMap := StdMap.touch d.m_partIdMap side QUuid.null }

/-- The document after one more call of `QUuid::createUuid()`. -/
def countUuid (d : PoseDocument) : PoseDocument :=
  { d with uuidsCreated := d.uuidsCreated + 1 }

/-- The C++ `partMap[partId].nodeIds.push_back(nodeId)`. -/
def pushNodeId (env : PoseExternals) (d : PoseDocument) (partId nodeId : QUuid) :
    PoseDocument :=
  { d with
    partMap := StdMap.set d.partMap partId
      { StdMap.get d.partMap partId { visible := env.partVisible } with
        nodeIds := (StdMap.get d.partMap partId { visible := env.partVisible }).nodeIds
          ++ [nodeId] } }

/-- The C++ `nodeMap[node.id] = node`. -/
def setNode (d : PoseDocument) (node : SkeletonNode) : PoseDocument :=
  { d with nodeMap := StdMap.set d.nodeMap node.id node }

/-- The C++ `edgeMap[edge.id] = edge`. -/
def setEdge (d : PoseDocument) (edge : SkeletonEdge) : PoseDocument :=
  { d with edgeMap := StdMap.set d.edgeMap edge.id edge }

/-- The C++ `nodeMap[nodeId].edgeIds.push_back(edgeId)`. -/
def pushEdgeId (d : PoseDocument) (nodeId edgeId : QUuid) : PoseDocument :=
  { d with
    nodeMap := StdMap.set d.nodeMap nodeId
      { StdMap.get d.nodeMap nodeId {} with
        edgeIds := (StdMap.get d.nodeMap nodeId {}).edgeIds ++ [edgeId] } }

/-- The C++ `nodeMap[nodeId].setRadius(radius)`. -/
def setNodeRadius (d : PoseDocument) (nodeId : QUuid) (radius : Rat) : PoseDocument :=
  { d with
    nodeMap := StdMap.set d.nodeMap nodeId
      { StdMap.get d.nodeMap nodeId {} with radius := radius } }

/-- The lambda `addPartIdOfSide` of `parametersToNodes`. -/
def addPartIdOfSide (env : PoseExternals) (d : PoseDocument) (side : SkeletonSide) :
    PoseDocument :=
  if (d.m_partIdMap side).isSome then d
  else
    { d.countUuid with
      partMap := StdMap.set d.partMap (env.createUuid d.uuidsCreated)
        { StdMap.get d.partMap (env.createUuid d.uuidsCreated) { visible := env.partVisible } with
          id := env.createUuid d.uuidsCreated
          visible := decide (side ∉ d.m_hiddenSides) }
      m_partIdMap := StdMap.set d.m_partIdMap side (env.createUuid d.uuidsCreated) }

/-- The block of `parametersToNodes` that makes a `SkeletonNode` on `side`
at the canvas position of `position` and stores it, as it stands at the lines
361 to 370, 383 to 392, 431 to 440 and 455 to 463: the document after it and
the node made. -/
def addNode (env : PoseExternals) (d : PoseDocument) (side : SkeletonSide) (radius : Rat)
    (position : QVector3D) (name : String) : PoseDocument × SkeletonNode :=
  let node : SkeletonNode :=
    { partId := d.partIdOfSide side
      id := env.createUuid d.uuidsCreated
      radius := radius
      x := fromOutcomeX position.x
      y := fromOutcomeY position.y
      z := fromOutcomeZ position.z
      name := name }
  ((((d.touchPartIdOfSide side).countUuid).pushNodeId env node.partId node.id).setNode node,
    node)

/-- The locals of `parametersToNodes` next to the document it works on. -/
structure NodeBuild where
  doc : PoseDocument
  boneNameToIdsMap : StdMap String (QUuid × QUuid)
  newAddedNodeIds : Finset QUuid := ∅
  newAddedEdgeIds : Finset QUuid := ∅
  boneIndexToHeadNodeIdMap : StdMap Int QUuid := StdMap.empty

/-- The bone `(*rigBones)[index]` for an `int` index.  The source reads
outside the vector when `index` is no position of it; here that yields a
value-initialised bone. -/
def boneAt (rigBones : List RiggerBone) (index : Int) : RiggerBone :=
  if 0 ≤ index then rigBones.getD index.toNat {} else {}

/-- The positions the three loops over `rigBones` visit, in order. -/
def boneIndices (rigBones : List RiggerBone) : List Nat :=
  (List.range rigBones.length).drop (if m_hideRootAndVirtual then 1 else 0)

/-- The local `edgePairs` of `parametersToNodes`. -/
def edgePairs (rigBones : List RiggerBone) : List (Int × Int) :=
  (boneIndices rigBones).flatMap fun i =>
    (rigBones.getD i {}).children.map fun child => ((i : Int), child)

/-- The lookup of the head node of the bone `index` in the loop over the edge
pairs, which makes the node when the bone has none and is not virtual (lines
357 to 378 with the suffix `"Start"`, lines 379 to 400 with none): the state
after it and `firstNodeId`, respectively `secondNodeId`. -/
def headNode (env : PoseExternals) (rigBones : List RiggerBone) (b : NodeBuild)
    (index : Int) (side : SkeletonSide) (suffix : String) : NodeBuild × QUuid :=
  match b.boneIndexToHeadNodeIdMap index with
  | some found => (b, found)
  | none =>
    if !startsWith (boneAt rigBones index).name "Virtual_" || !m_hideRootAndVirtual then
      let made := addNode env b.doc side m_nodeRadius (boneAt rigBones index).headPosition
        ((boneAt rigBones index).name ++ suffix)
      ({ b with
          doc := made.1
          newAddedNodeIds := insert made.2.id b.newAddedNodeIds
          boneIndexToHeadNodeIdMap := StdMap.set b.boneIndexToHeadNodeIdMap index made.2.id },
        made.2.id)
    else (b, QUuid.null)

/-- The lines 411 to 419: the edge between two head nodes. -/
def addEdge (env : PoseExternals) (b : NodeBuild) (side : SkeletonSide)
    (firstNodeId secondNodeId : QUuid) : NodeBuild :=
  let edge : SkeletonEdge :=
    { partId := b.doc.partIdOfSide side
      id := env.createUuid b.doc.uuidsCreated
      nodeIds := [firstNodeId, secondNodeId] }
  { b with
    doc := (((((b.doc.touchPartIdOfSide side).countUuid).setEdge edge).pushEdgeId
      firstNodeId edge.id).pushEdgeId secondNodeId edge.id)
    newAddedEdgeIds := insert edge.id b.newAddedEdgeIds }

/-- One round of the loop over the edge pairs (lines 353 to 420). -/
def addEdgePair (env : PoseExternals) (rigBones : List RiggerBone) (b : NodeBuild)
    (edgePair : Int × Int) : NodeBuild :=
  let firstNodeSide := env.sideFromBoneName (boneAt rigBones edgePair.1).name
  let secondNodeSide := env.sideFromBoneName (boneAt rigBones edgePair.2).name
  let first := headNode env rigBones b edgePair.1 firstNodeSide "Start"
  let second := headNode env rigBones first.1 edgePair.2 secondNodeSide ""
  if first.2.isNull || second.2.isNull then second.1
  else if firstNodeSide ≠ secondNodeSide then second.1
  else addEdge env second.1 firstNodeSide first.2 second.2

/-- One round of the loop that gives a head node to each leaf bone without
one (lines 422 to 444). -/
def addLeafHead (env : PoseExternals) (rigBones : List RiggerBone) (b : NodeBuild)
    (i : Nat) : NodeBuild :=
  if (b.boneIndexToHeadNodeIdMap (i : Int)).isSome then b
  else if !(rigBones.getD i {}).children.isEmpty then b
  else if !startsWith (rigBones.getD i {}).name "Virtual_" || !m_hideRootAndVirtual then
    let made := addNode env b.doc (env.sideFromBoneName (rigBones.getD i {}).name)
      m_nodeRadius (rigBones.getD i {}).headPosition ""
    { b with
      doc := made.1
      newAddedNodeIds := insert made.2.id b.newAddedNodeIds
      boneIndexToHeadNodeIdMap := StdMap.set b.boneIndexToHeadNodeIdMap (i : Int) made.2.id }
  else b

/-- The lines 451 to 476: the tail node of the leaf bone `i` and the edge from
its head node to it. -/
def addLeafTail (env : PoseExternals) (rigBones : List RiggerBone) (b : NodeBuild)
    (i : Nat) : NodeBuild :=
  let side := env.sideFromBoneName (rigBones.getD i {}).name
  let firstNodeId := StdMap.get b.boneIndexToHeadNodeIdMap (i : Int) QUuid.null
  let made := addNode env b.doc side (m_nodeRadius / 2) (rigBones.getD i {}).tailPosition ""
  let edge : SkeletonEdge :=
    { partId := made.1.partIdOfSide side
      id := env.createUuid made.1.uuidsCreated
      nodeIds := [firstNodeId, made.2.id] }
  { b with
    doc := ((((((made.1.touchPartIdOfSide side).countUuid).pushNodeId env made.2.partId
      made.2.id).setEdge edge).pushEdgeId firstNodeId edge.id).pushEdgeId made.2.id edge.id)
    boneNameToIdsMap :=
      StdMap.set b.boneNameToIdsMap (rigBones.getD i {}).name (firstNodeId, made.2.id)
    newAddedNodeIds := insert made.2.id b.newAddedNodeIds
    newAddedEdgeIds := insert edge.id b.newAddedEdgeIds
    boneIndexToHeadNodeIdMap := StdMap.touch b.boneIndexToHeadNodeIdMap (i : Int) QUuid.null }

/-- One round of the last loop over the bones (lines 446 to 488). -/
def addBoneIds (env : PoseExternals) (rigBones : List RiggerBone) (b : NodeBuild)
    (i : Nat) : NodeBuild :=
  if m_hideRootAndVirtual && startsWith (rigBones.getD i {}).name "Virtual_" then b
  else if (rigBones.getD i {}).children.isEmpty then addLeafTail env rigBones b i
  else if (b.boneIndexToHeadNodeIdMap (i : Int)).isNone then b
  else
    { b with
      boneNameToIdsMap := (rigBones.getD i {}).children.foldl
        (fun names child =>
          if (b.boneIndexToHeadNodeIdMap child).isNone then names
          else StdMap.set names (rigBones.getD i {}).name
            (StdMap.get b.boneIndexToHeadNodeIdMap (i : Int) QUuid.null,
              StdMap.get b.boneIndexToHeadNodeIdMap child QUuid.null))
        b.boneNameToIdsMap }

/-- The state of `parametersToNodes` before its loops: the three calls of
`addPartIdOfSide` are made, the locals are empty. -/
def startBuild (env : PoseExternals) (d : PoseDocument)
    (boneNameToIdsMap : StdMap String (QUuid × QUuid)) : NodeBuild :=
  { doc := addPartIdOfSide env
      (addPartIdOfSide env (addPartIdOfSide env d SkeletonSide.Left) SkeletonSide.None)
      SkeletonSide.Right
    boneNameToIdsMap := boneNameToIdsMap }

/-- The state after the loop over the edge pairs (line 420). -/
def edgesBuilt (env : PoseExternals) (d : PoseDocument) (rigBones : List RiggerBone)
    (boneNameToIdsMap : StdMap String (QUuid × QUuid)) : NodeBuild :=
  (edgePairs rigBones).foldl (addEdgePair env rigBones) (startBuild env d boneNameToIdsMap)

/-- The state after the loop over the leaf bones without a head node (line
444). -/
def leafHeadsBuilt (env : PoseExternals) (d : PoseDocument) (rigBones : List RiggerBone)
    (boneNameToIdsMap : StdMap String (QUuid × QUuid)) : NodeBuild :=
  (boneIndices rigBones).foldl (addLeafHead env rigBones)
    (edgesBuilt env d rigBones boneNameToIdsMap)

/-- The state after the last loop over the bones (line 488). -/
def allBuilt (env : PoseExternals) (d : PoseDocument) (rigBones : List RiggerBone)
    (boneNameToIdsMap : StdMap String (QUuid × QUuid)) : NodeBuild :=
  (boneIndices rigBones).foldl (addBoneIds env rigBones)
    (leafHeadsBuilt env d rigBones boneNameToIdsMap)

/-- The lines 490 to 500: the radius of the head node of the root bone, and
the ids made for another frame. -/
def finishBuild (b : NodeBuild) (isOther : Bool) : PoseDocument :=
  let rooted :=
    match b.boneIndexToHeadNodeIdMap 0 with
    | some rootNodeId => b.doc.setNodeRadius rootNodeId (m_nodeRadius * 2)
    | none => b.doc
  if isOther then
    { rooted with m_otherIds := (rooted.m_otherIds ∪ b.newAddedNodeIds) ∪ b.newAddedEdgeIds }
  else rooted

/-- The C++ `PoseDocument::parametersToNodes`: the document after the call and
the map `*boneNameToIdsMap` after it.  A null `rigBones` does what an empty
vector does. -/
def parametersToNodes (env : PoseExternals) (d : PoseDocument) (rigBones : List RiggerBone)
    (boneNameToIdsMap : StdMap String (QUuid × QUuid)) (isOther : Bool) :
    PoseDocument × StdMap String (QUuid × QUuid) :=
  if rigBones.isEmpty then (d, boneNameToIdsMap)
  else
    (finishBuild (allBuilt env d rigBones boneNameToIdsMap) isOther,
      (allBuilt env d rigBones boneNameToIdsMap).boneNameToIdsMap)

/-! ### Parameters and the history -/

/-- The C++ `PoseDocument::toParameters`: the map `parameters` after the call.
The loop over `m_boneNameToIdsMap` writes the entry of each bone name once, so
the map after it is given entry by entry. -/
def toParameters (env : PoseExternals) (d : PoseDocument) (parameters : Parameters)
    (limitNodeIds : Finset QUuid) : Parameters :=
  fun boneName =>
    match d.m_boneNameToIdsMap boneName with
    | none => parameters boneName
    | some boneNodeIdPair =>
      match d.nodeMap boneNodeIdPair.1, d.nodeMap boneNodeIdPair.2 with
      | some firstNode, some secondNode =>
        if limitNodeIds = ∅ ∨ boneNodeIdPair.1 ∈ limitNodeIds
            ∨ boneNodeIdPair.2 ∈ limitNodeIds then
          some (((((((StdMap.get parameters boneName StdMap.empty).set
            "fromX" (env.number (toOutcomeX firstNode.x))).set
            "fromY" (env.number (toOutcomeY firstNode.y))).set
            "fromZ" (env.number (toOutcomeZ firstNode.z))).set
            "toX" (env.number (toOutcomeX secondNode.x))).set
            "toY" (env.number (toOutcomeY secondNode.y))).set
            "toZ" (env.number (toOutcomeZ secondNode.z)))
        else parameters boneName
      | _, _ => parameters boneName

/-- The C++ `PoseDocument::firstSpinePositionAndLengthFromParameters`: the
values left in `*length` and `*position`. -/
def firstSpinePositionAndLengthFromParameters (env : PoseExternals)
    (parameters : Parameters) : Rat × QVector3D :=
  match parameters "Spine1" with
  | none => (0, ⟨0, 0, 0⟩)
  | some map =>
    (env.distanceToPoint
        ⟨env.toFloat (env.valueOfKeyInMapOrEmpty map "fromX"),
          env.toFloat (env.valueOfKeyInMapOrEmpty map "fromY"),
          env.toFloat (env.valueOfKeyInMapOrEmpty map "fromZ")⟩
        ⟨env.toFloat (env.valueOfKeyInMapOrEmpty map "toX"),
          env.toFloat (env.valueOfKeyInMapOrEmpty map "toY"),
          env.toFloat (env.valueOfKeyInMapOrEmpty map "toZ")⟩,
      ⟨env.toFloat (env.valueOfKeyInMapOrEmpty map "fromX"),
        env.toFloat (env.valueOfKeyInMapOrEmpty map "fromY"),
        env.toFloat (env.valueOfKeyInMapOrEmpty map "fromZ")⟩)

/-- The C++ `PoseDocument::updateBonesFromParameters`: the vector `*bones`
after the call.  The body does not read the direction of the neck. -/
def updateBonesFromParameters (env : PoseExternals) (bones : List RiggerBone)
    (parameters : Parameters) (firstSpineBoneLength : Rat)
    (firstSpineBonePosition : QVector3D) (_neckJoint1BoneDirection : QVector3D) :
    List RiggerBone :=
  let spine := firstSpinePositionAndLengthFromParameters env parameters
  let scaled : Bool := decide (spine.1 > 0 ∧ firstSpineBoneLength > 0)
  let boneScaleFactor : Rat := if scaled then spine.1 / firstSpineBoneLength else 1
  let firstSpineBonePositionOffset : QVector3D :=
    if scaled then spine.2.sub firstSpineBonePosition else {}
  bones.map fun bone =>
    match parameters bone.name with
    | none =>
      { bone with
        headPosition := (bone.headPosition.scale boneScaleFactor).add firstSpineBonePositionOffset
        tailPosition := (bone.tailPosition.scale boneScaleFactor).add firstSpineBonePositionOffset }
    | some map =>
      let headed : RiggerBone :=
        if (map "fromX").isSome || (map "fromY").isSome || (map "fromZ").isSome then
          { bone with
            headPosition :=
              ⟨env.toFloat (env.valueOfKeyInMapOrEmpty map "fromX"),
                env.toFloat (env.valueOfKeyInMapOrEmpty map "fromY"),
                env.toFloat (env.valueOfKeyInMapOrEmpty map "fromZ")⟩ }
        else bone
      if (map "toX").isSome || (map "toY").isSome || (map "toZ").isSome then
        { headed with
          tailPosition :=
            ⟨env.toFloat (env.valueOfKeyInMapOrEmpty map "toX"),
              env.toFloat (env.valueOfKeyInMapOrEmpty map "toY"),
              env.toFloat (env.valueOfKeyInMapOrEmpty map "toZ")⟩ }
      else headed

/-- The C++ `PoseDocument::resetWithoutNotifingParametersChanged`. -/
def resetWithoutNotifingParametersChanged (d : PoseDocument) : PoseDocument :=
  { d with
    nodeMap := StdMap.empty
    edgeMap := StdMap.empty
    partMap := StdMap.empty
    m_otherIds := ∅
    m_boneNameToIdsMap := StdMap.empty
    m_partIdMap := StdMap.empty }

/-- The first loop of `fromParameters` (lines 273 to 283): the length and the
head of the bone `Spine1` and the direction of the bone `Neck_Joint1`. -/
def spineAndNeck (env : PoseExternals) (rigBones : List RiggerBone) :
    Rat × QVector3D × QVector3D :=
  rigBones.foldl
    (fun found bone =>
      if "Spine1" = bone.name then
        (env.distanceToPoint bone.headPosition bone.tailPosition, bone.headPosition, found.2.2)
      else if "Neck_Joint1" = bone.name then
        (found.1, found.2.1, env.normalized (bone.tailPosition.sub bone.headPosition))
      else found)
    (0, {}, ⟨0, 1, 0⟩)

/-- The C++ `PoseDocument::fromParameters`.  A null `rigBones` does what an
empty vector does. -/
def fromParameters (env : PoseExternals) (d : PoseDocument) (rigBones : List RiggerBone)
    (parameters : Parameters) : PoseDocument :=
  if rigBones.isEmpty then { d with m_riggerBones := [] }
  else
    let found := spineAndNeck env rigBones
    let bones := updateBonesFromParameters env rigBones parameters found.1 found.2.1 found.2.2
    let cleared := ({ d with m_riggerBones := rigBones }).resetWithoutNotifingParametersChanged
    let others := cleared.m_otherFramesParameters.foldl
      (fun doc otherParameters =>
        (parametersToNodes env doc
          (updateBonesFromParameters env rigBones otherParameters found.1 found.2.1 found.2.2)
          StdMap.empty true).1)
      cleared
    let made := parametersToNodes env others bones others.m_boneNameToIdsMap false
    { made.1 with m_boneNameToIdsMap := made.2 }

/-- The C++ `PoseDocument::saveHistoryItem`. -/
def saveHistoryItem (env : PoseExternals) (d : PoseDocument) : PoseDocument :=
  { d with m_undoItems := d.m_undoItems ++ [⟨toParameters env d StdMap.empty ∅⟩] }

/-- The C++ `PoseDocument::undoable`. -/
def undoable (d : PoseDocument) : Bool := decide (d.m_undoItems.length ≥ 2)

/-- The C++ `PoseDocument::redoable`. -/
def redoable (d : PoseDocument) : Bool := !d.m_redoItems.isEmpty

/-- The C++ `PoseDocument::undo`.  After the guard the deque holds two items
or more, so `back()` has an item to return at both places. -/
def undo (env : PoseExternals) (d : PoseDocument) : PoseDocument :=
  if !d.undoable then d
  else
    match d.m_undoItems.getLast?, d.m_undoItems.dropLast.getLast? with
    | some moved, some item =>
      fromParameters env
        { d with
          m_redoItems := d.m_redoItems ++ [moved]
          m_undoItems := d.m_undoItems.dropLast }
        d.m_riggerBones item.parameters
    | _, _ => d

/-- The C++ `PoseDocument::redo`. -/
def redo (env : PoseExternals) (d : PoseDocument) : PoseDocument :=
  match d.m_redoItems.getLast? with
  | none => d
  | some item =>
    { fromParameters env { d with m_undoItems := d.m_undoItems ++ [item] }
        d.m_riggerBones item.parameters with
      m_redoItems :=
        (fromParameters env { d with m_undoItems := d.m_undoItems ++ [item] }
          d.m_riggerBones item.parameters).m_redoItems.dropLast }

/-- The C++ `PoseDocument::clearHistories`. -/
def clearHistories (d : PoseDocument) : PoseDocument :=
  { d with m_undoItems := [], m_redoItems := [] }

/-- A call of one of the four member functions that act on the history. -/
inductive HistoryCall where
  | saveHistoryItem
  | undo
  | redo
  | clearHistories
  deriving DecidableEq

/-- The document after one call. -/
def call (env : PoseExternals) (d : PoseDocument) : HistoryCall → PoseDocument
  | HistoryCall.saveHistoryItem => d.saveHistoryItem env
  | HistoryCall.undo => d.undo env
  | HistoryCall.redo => d.redo env
  | HistoryCall.clearHistories => d.clearHistories

/-- The document after a sequence of calls, first call first. -/
def calls (env : PoseExternals) (d : PoseDocument) (cs : List HistoryCall) : PoseDocument :=
  cs.foldl (call env) d

/-! ### Properties of bone lists, uuids and edges -/

/-- Every child index of every bone is a position of the bone list. -/
def validChildren (rigBones : List RiggerBone) : Prop :=
  ∀ bone ∈ rigBones, ∀ child ∈ bone.children, 0 ≤ child ∧ child < rigBones.length

instance (rigBones : List RiggerBone) : Decidable (validChildren rigBones) := by
  unfold validChildren; infer_instance

/-- The calls of `QUuid::createUuid()` from the call number `first` up to,
and without, the call number `last` return uuids that are not null and differ
from each other. -/
def FreshUuids (env : PoseExternals) (first last : Nat) : Prop :=
  ∀ k, k < last → first ≤ k →
    env.createUuid k ≠ QUuid.null ∧
      ∀ j, j < k → first ≤ j → env.createUuid j ≠ env.createUuid k

instance (env : PoseExternals) (first last : Nat) : Decidable (FreshUuids env first last) := by
  unfold FreshUuids; infer_instance

/-- The edge `edgeId` of the document is well formed: it is in `edgeMap`, it
has two end nodes, neither id is null, both nodes are in `nodeMap` and on the
part of the edge, and both list the edge among their `edgeIds`. -/
def wellFormedEdge (d : PoseDocument) (edgeId : QUuid) : Bool :=
  match d.edgeMap edgeId with
  | none => false
  | some edge =>
    match edge.nodeIds with
    | [first, second] =>
      match d.nodeMap first, d.nodeMap second with
      | some firstNode, some secondNode =>
        !first.isNull && !second.isNull
          && firstNode.partId == edge.partId && secondNode.partId == edge.partId
          && firstNode.edgeIds.contains edgeId && secondNode.edgeIds.contains edgeId
      | _, _ => false
    | _ => false

/-- The uuid `u` was returned by one of the calls of `QUuid::createUuid()`
from the call number `first` on that the document has counted. -/
def MadeSince (env : PoseExternals) (first : Nat) (d : PoseDocument) (u : QUuid) : Prop :=
  ∃ k, first ≤ k ∧ k < d.uuidsCreated ∧ env.createUuid k = u

/-- The document `d'` continues `d`: no uuid was given back, the edges made
since the call number `first` are as they were, and the nodes made since then
are on the part they were on and list the edges they listed. -/
structure Continues (env : PoseExternals) (first : Nat) (d d' : PoseDocument) : Prop where
  count : d.uuidsCreated ≤ d'.uuidsCreated
  edges : ∀ e, MadeSince env first d e → d'.edgeMap e = d.edgeMap e
  nodes : ∀ u node, MadeSince env first d u → d.nodeMap u = some node →
    ∃ node', d'.nodeMap u = some node' ∧ node'.partId = node.partId
      ∧ ∀ e ∈ node.edgeIds, e ∈ node'.edgeIds

/-- The edge `e` was made since the call number `first` between two nodes made
since then, and it is well formed. -/
def EdgeMade (env : PoseExternals) (first : Nat) (d : PoseDocument) (e : QUuid) : Prop :=
  MadeSince env first d e ∧
    ∃ edge u v nodeU nodeV,
      d.edgeMap e = some edge ∧ edge.nodeIds = [u, v] ∧ u ≠ QUuid.null ∧ v ≠ QUuid.null
        ∧ MadeSince env first d u ∧ MadeSince env first d v
        ∧ d.nodeMap u = some nodeU ∧ d.nodeMap v = some nodeV
        ∧ nodeU.partId = edge.partId ∧ nodeV.partId = edge.partId
        ∧ e ∈ nodeU.edgeIds ∧ e ∈ nodeV.edgeIds

/-- The node `u` was made since the call number `first`, is stored, and is on
the part `partId`. -/
def NodeMade (env : PoseExternals) (first : Nat) (d : PoseDocument) (partId u : QUuid) :
    Prop :=
  u ≠ QUuid.null ∧ MadeSince env first d u ∧
    ∃ node, d.nodeMap u = some node ∧ node.partId = partId

/-- What holds of the state of `parametersToNodes` between two rounds of its
loops: each side has its part id, each head node is on the part of the side of
its bone as `NodeMade` says, and each edge made so far is as `EdgeMade` says. -/
structure BuildInv (env : PoseExternals) (rigBones : List RiggerBone) (first : Nat)
    (partIds : SkeletonSide → QUuid) (b : NodeBuild) : Prop where
  count : first ≤ b.doc.uuidsCreated
  parts : ∀ side, b.doc.m_partIdMap side = some (partIds side)
  heads : ∀ index u, b.boneIndexToHeadNodeIdMap index = some u →
    NodeMade env first b.doc (partIds (env.sideFromBoneName (boneAt rigBones index).name)) u
  edges : ∀ e ∈ b.newAddedEdgeIds, EdgeMade env first b.doc e

/-- Every leaf bone that is visited and not virtual has a head node. -/
def LeafHeads (rigBones : List RiggerBone) (b : NodeBuild) : Prop :=
  ∀ i ∈ boneIndices rigBones, (rigBones.getD i {}).children.isEmpty = true →
    startsWith (rigBones.getD i {}).name "Virtual_" = false →
      (b.boneIndexToHeadNodeIdMap (i : Int)).isSome = true

/-- The two stacks of the history. -/
def histories (d : PoseDocument) : List PoseHistoryItem × List PoseHistoryItem :=
  (d.m_undoItems, d.m_redoItems)

/-! ### Sample inputs -/

/-- Externals to run the pose document with: the uuids are `1, 2, 3, ...`,
the side is read off the start of the bone name. -/
def sampleExternals : PoseExternals :=
  { createUuid := fun n => ⟨(n + 1) % 2 ^ 128, Nat.mod_lt _ (Nat.two_pow_pos 128)⟩
    sideFromBoneName := fun name =>
      if startsWith name "Left" then SkeletonSide.Left
      else if startsWith name "Right" then SkeletonSide.Right
      else SkeletonSide.None
    partVisible := true
    toFloat := fun _ => 0
    number := fun _ => ""
    distanceToPoint := fun _ _ => 0
    normalized := fun v => v
    valueOfKeyInMapOrEmpty := fun map key => (map key).getD "" }

/-- A root bone and one leaf bone. -/
def leafBones : List RiggerBone :=
  [{ name := "Body", children := [1] }, { name := "Spine" }]

/-- A root, a spine with a neck and a virtual bone below it. -/
def spineBones : List RiggerBone :=
  [{ name := "Body", children := [1] },
    { name := "Spine", children := [2, 3] },
    { name := "Neck" },
    { name := "Virtual_Tail" }]

/-- A history item without parameters. -/
def emptyItem : PoseHistoryItem := ⟨StdMap.empty⟩

/-- A history item with parameters for the bone `Spine`. -/
def spineItem : PoseHistoryItem :=
  ⟨StdMap.set StdMap.empty "Spine" (StdMap.set StdMap.empty "fromX" "1")⟩

/-- A document with two items to undo. -/
def twoItems : PoseDocument :=
  { m_undoItems := [emptyItem, spineItem], m_riggerBones := leafBones }

end PoseDocument

end Dust3d


namespace Dust3d

namespace Component

/-! ## List lemmas behind the children operations -/

theorem indexOf_append_cons {x : QUuid} {a b : List QUuid} (h : x ∉ a) :
    (a ++ x :: b).indexOf x = a.length := by
  induction a with
  | nil => simp
  | cons y a ih =>
    have hy : y ≠ x := fun e => h (by simp [e])
    have hx : x ∉ a := fun e => h (by simp [e])
    simp [List.indexOf_cons, hy, ih hx]

theorem swapAt_append_pair (a b : List QUuid) (y x : QUuid) :
    swapAt (a ++ y :: x :: b) a.length (a.length + 1) = a ++ x :: y :: b := by
  have h1 : (a ++ y :: x :: b)[a.length]? = some y := by
    rw [List.getElem?_append_right (by omega)]; simp
  have h2 : (a ++ y :: x :: b)[a.length + 1]? = some x := by
    rw [List.getElem?_append_right (by omega)]; simp
  simp only [swapAt, h1, h2]
  rw [List.set_append_right _ _ (by omega), List.set_append_right _ _ (by simp)]
  simp

theorem toTopLoop_append (a : List QUuid) :
    ∀ (x : QUuid) (b : List QUuid), toTopLoop a.length (a ++ x :: b) = x :: (a ++ b) := by
  induction a using List.reverseRecOn with
  | nil => intro x b; simp [toTopLoop]
  | append_singleton a y ih =>
    intro x b
    have h := swapAt_append_pair a b y x
    simp only [List.length_append, List.length_singleton, toTopLoop, List.append_assoc,
      List.singleton_append]
    rw [h, ih x (y :: b)]

theorem toInt32_of_lt {n : Nat} (h : n < 2 ^ 31) : toInt32 n = (n : Int) := by
  have h2 : n % 2 ^ 32 = n := Nat.mod_eq_of_lt (by omega)
  unfold toInt32
  rw [h2, if_pos h]

theorem toInt32_le_self (n : Nat) : toInt32 n ≤ (n : Int) := by
  have h2 : n % 2 ^ 32 ≤ n := Nat.mod_le _ _
  unfold toInt32
  split_ifs <;> omega

theorem toBottomLoop_append (b : List QUuid) :
    ∀ (fuel : Nat) (a : List QUuid) (x : QUuid), b.length ≤ fuel →
      (a ++ x :: b).length < 2 ^ 31 →
      toBottomLoop fuel (a.length : Int) (a ++ x :: b) = a ++ b ++ [x] := by
  induction b with
  | nil =>
    intro fuel a x _ hlen
    cases fuel with
    | zero => simp [toBottomLoop]
    | succ f =>
      have : ¬ ((a.length : Int) ≤ toInt32 (a ++ [x]).length - 2) := by
        rw [toInt32_of_lt hlen]
        simp only [List.length_append, List.length_singleton]; push_cast; omega
      simp only [toBottomLoop, this, if_false]; simp
  | cons y b ih =>
    intro fuel a x hf hlen
    cases fuel with
    | zero => simp at hf
    | succ f =>
      have hc : (a.length : Int) ≤ toInt32 (a ++ x :: y :: b).length - 2 := by
        rw [toInt32_of_lt hlen]
        simp only [List.length_append, List.length_cons]; push_cast; omega
      have h0 : (0 : Int) ≤ (a.length : Int) := Int.natCast_nonneg _
      have h := swapAt_append_pair a b x y
      have ih2 := ih f (a ++ [y]) x (by simpa using hf) (by simpa using hlen)
      simp only [toBottomLoop, hc, h0, if_true, Int.toNat_natCast, h]
      simpa using ih2

theorem getElem?_swapAt (l : List QUuid) (i j k : Nat) (hi : i < l.length)
    (hj : j < l.length) :
    (swapAt l i j)[k]? = if k = j then l[i]? else if k = i then l[j]? else l[k]? := by
  have h1 : l[i]? = some l[i] := List.getElem?_eq_getElem hi
  have h2 : l[j]? = some l[j] := List.getElem?_eq_getElem hj
  simp only [swapAt, h1, h2, List.getElem?_set, List.length_set]
  by_cases hkj : k = j
  · subst hkj; simp [hj]
  · by_cases hki : k = i
    · subst hki; simp [hkj, hi, Ne.symm hkj]
    · simp [hkj, hki, Ne.symm hkj, Ne.symm hki]

theorem length_swapAt (l : List QUuid) (i j : Nat) : (swapAt l i j).length = l.length := by
  unfold swapAt; split <;> simp

theorem getElem?_swapAt_of_ne (l : List QUuid) (i j k : Nat) (hki : k ≠ i) (hkj : k ≠ j) :
    (swapAt l i j)[k]? = l[k]? := by
  unfold swapAt
  split
  · rw [List.getElem?_set_ne (Ne.symm hkj), List.getElem?_set_ne (Ne.symm hki)]
  · rfl

theorem swapAt_succ_perm : ∀ (l : List QUuid) (i : Nat), (swapAt l i (i + 1)).Perm l
  | [], i => by simp [swapAt]
  | [x], 0 => by simp [swapAt]
  | x :: y :: l, 0 => by
    simp only [swapAt, List.getElem?_cons_zero, List.getElem?_cons_succ, List.set_cons_zero,
      List.set_cons_succ]
    exact List.Perm.swap _ _ _
  | x :: l, i + 1 => by
    have ih := swapAt_succ_perm l i
    have h : swapAt (x :: l) (i + 1) (i + 1 + 1) = x :: swapAt l i (i + 1) := by
      simp only [swapAt, List.getElem?_cons_succ]
      split <;> simp_all [List.set_cons_succ]
    rw [h]
    exact List.Perm.cons x ih

theorem toTopLoop_perm : ∀ (n : Nat) (l : List QUuid), (toTopLoop n l).Perm l
  | 0, l => by simp [toTopLoop]
  | n + 1, l => by
    simp only [toTopLoop]
    exact (toTopLoop_perm n _).trans (swapAt_succ_perm l n)

theorem toBottomLoop_perm : ∀ (fuel : Nat) (i : Int) (l : List QUuid),
    (toBottomLoop fuel i l).Perm l
  | 0, i, l => by simp [toBottomLoop]
  | fuel + 1, i, l => by
    simp only [toBottomLoop]
    split_ifs
    · exact (toBottomLoop_perm fuel _ _).trans (swapAt_succ_perm l _)
    · exact List.Perm.refl _
    · exact List.Perm.refl _

/-- More fuel than the length of the list does not change the result of the
loop of `moveChildToBottom`. -/
theorem toBottomLoop_succ_fuel : ∀ (fuel : Nat) (i : Int) (l : List QUuid),
    (toInt32 l.length - 1 - i).toNat ≤ fuel →
    toBottomLoop (fuel + 1) i l = toBottomLoop fuel i l
  | 0, i, l => by
    intro h
    have : ¬ (i ≤ toInt32 l.length - 2) := by omega
    simp [toBottomLoop, this]
  | fuel + 1, i, l => by
    intro h
    rw [toBottomLoop]
    conv_rhs => rw [toBottomLoop]
    split_ifs with h1 h2
    · refine toBottomLoop_succ_fuel fuel (i + 1) _ ?_
      rw [length_swapAt]
      omega
    · rfl
    · rfl

theorem toBottomLoop_of_not_le (fuel : Nat) (i : Int) (l : List QUuid)
    (h : ¬ (i ≤ toInt32 l.length - 2)) : toBottomLoop fuel i l = l := by
  cases fuel with
  | zero => rfl
  | succ f => simp [toBottomLoop, h]

theorem toBottomLoop_of_neg (fuel : Nat) (i : Int) (l : List QUuid) (h : i < 0) :
    toBottomLoop fuel i l = l := by
  cases fuel with
  | zero => rfl
  | succ f =>
    have : ¬ (0 ≤ i) := by omega
    simp [toBottomLoop, this]

/-- The fuel `moveChildToBottom` gives the loop is enough: with any more the
result is the same. -/
theorem toBottomLoop_fuel (k : Nat) (i : Int) (l : List QUuid) :
    toBottomLoop (l.length + k) i l = toBottomLoop l.length i l := by
  by_cases hi : 0 ≤ i
  · induction k with
    | zero => rfl
    | succ k ih =>
      rw [← ih]
      refine toBottomLoop_succ_fuel (l.length + k) i l ?_
      have := toInt32_le_self l.length
      omega
  · rw [toBottomLoop_of_neg _ i l (by omega), toBottomLoop_of_neg _ i l (by omega)]

/-! ### The children list after each call, on a list split at the child -/

section Split

variable {c : Component} {a b : List QUuid} {x : QUuid}

theorem removeChild_split (h : c.childrenIds = a ++ x :: b) (hx : x ∉ a)
    (hs : x ∈ c.m_childrenIdSet) :
    (c.removeChild x).childrenIds = a ++ b ∧
      (c.removeChild x).m_childrenIdSet = c.m_childrenIdSet.erase x := by
  have hi : c.childrenIds.indexOf x = a.length := by rw [h]; exact indexOf_append_cons hx
  have hne : a.length ≠ c.childrenIds.length := by rw [h]; simp
  simp only [removeChild, hs, not_true_eq_false, if_false, hi, ne_eq, hne, not_false_eq_true,
    if_true, and_true]
  rw [h, List.eraseIdx_append_of_length_le (le_refl _)]
  simp

theorem replaceChild_split (n : QUuid) (h : c.childrenIds = a ++ x :: b) (hx : x ∉ a)
    (hs : x ∈ c.m_childrenIdSet) (hn : n ∉ c.m_childrenIdSet) :
    (c.replaceChild x n).childrenIds = a ++ n :: b ∧
      (c.replaceChild x n).m_childrenIdSet = insert n (c.m_childrenIdSet.erase x) := by
  have hi : c.childrenIds.indexOf x = a.length := by rw [h]; exact indexOf_append_cons hx
  have hne : a.length ≠ c.childrenIds.length := by rw [h]; simp
  simp only [replaceChild, hs, hn, not_true_eq_false, if_false, hi, ne_eq, hne,
    not_false_eq_true, if_true, and_true]
  rw [h, List.set_append_right _ _ (le_refl _)]
  simp

theorem moveChildUp_head (h : c.childrenIds = x :: b) : c.moveChildUp x = c := by
  simp [moveChildUp, h]

theorem moveChildUp_split (y : QUuid) (h : c.childrenIds = a ++ y :: x :: b) (hx : x ∉ a)
    (hxy : x ≠ y) : (c.moveChildUp x).childrenIds = a ++ x :: y :: b := by
  have hx2 : x ∉ a ++ [y] := by simp [hx, hxy]
  have h2 : c.childrenIds = (a ++ [y]) ++ x :: b := by simp [h]
  have hi : c.childrenIds.indexOf x = a.length + 1 := by
    rw [h2, indexOf_append_cons hx2]; simp
  have hne : a.length + 1 ≠ c.childrenIds.length := by rw [h]; simp
  simp only [moveChildUp, hi, hne, if_false, Nat.add_one_ne_zero, Nat.add_sub_cancel]
  rw [h]; exact swapAt_append_pair a b y x

theorem moveChildDown_last (h : c.childrenIds = a ++ [x]) (hx : x ∉ a)
    (hlen : c.childrenIds.length < 2 ^ 31) : c.moveChildDown x = c := by
  have hi : c.childrenIds.indexOf x = a.length := by rw [h]; exact indexOf_append_cons hx
  have hl : c.childrenIds.length = a.length + 1 := by rw [h]; simp
  have hg : (a.length : Int) = toInt32 c.childrenIds.length - 1 := by
    rw [toInt32_of_lt hlen, hl]; push_cast; omega
  simp only [moveChildDown, hi, hg, if_true]
  split_ifs <;> rfl

theorem moveChildDown_split (y : QUuid) (h : c.childrenIds = a ++ x :: y :: b) (hx : x ∉ a)
    (hlen : c.childrenIds.length < 2 ^ 31) :
    (c.moveChildDown x).childrenIds = a ++ y :: x :: b := by
  have hi : c.childrenIds.indexOf x = a.length := by rw [h]; exact indexOf_append_cons hx
  have hl : c.childrenIds.length = a.length + (b.length + 2) := by rw [h]; simp
  have hne : a.length ≠ c.childrenIds.length := by omega
  have hne2 : ¬ ((a.length : Int) = toInt32 c.childrenIds.length - 1) := by
    rw [toInt32_of_lt hlen, hl]; push_cast; omega
  simp only [moveChildDown, hi, hne, hne2, if_false]
  rw [h]; exact swapAt_append_pair a b x y

theorem moveChildToTop_split (h : c.childrenIds = a ++ x :: b) (hx : x ∉ a)
    (hlt : a.length < 2 ^ 31) : (c.moveChildToTop x).childrenIds = x :: (a ++ b) := by
  have hi : c.childrenIds.indexOf x = a.length := by rw [h]; exact indexOf_append_cons hx
  have hne : a.length ≠ c.childrenIds.length := by rw [h]; simp
  simp only [moveChildToTop, hi, hne, if_false]
  by_cases h0 : a.length = 0
  · have : a = [] := List.length_eq_zero.mp h0
    subst this; simp [h]
  · simp only [h0, if_false, toInt32_of_lt hlt, Int.toNat_natCast]
    rw [h]; exact toTopLoop_append a x b

theorem moveChildToBottom_split (h : c.childrenIds = a ++ x :: b) (hx : x ∉ a)
    (hlen : c.childrenIds.length < 2 ^ 31) :
    (c.moveChildToBottom x).childrenIds = a ++ b ++ [x] := by
  have hi : c.childrenIds.indexOf x = a.length := by rw [h]; exact indexOf_append_cons hx
  have hl : c.childrenIds.length = a.length + (b.length + 1) := by rw [h]; simp
  have hne : a.length ≠ c.childrenIds.length := by omega
  simp only [moveChildToBottom, hi, hne, if_false]
  by_cases h0 : (a.length : Int) = toInt32 c.childrenIds.length - 1
  · have hb : b = [] := by
      apply List.length_eq_zero.mp
      rw [toInt32_of_lt hlen, hl] at h0; push_cast at h0; omega
    subst hb; rw [if_pos h0]; simpa using h
  · rw [if_neg h0, toInt32_of_lt (by omega : a.length < 2 ^ 31)]
    rw [h] at hlen ⊢
    exact toBottomLoop_append b _ a x (by simp; omega) hlen

end Split

/-! ### Calls on an id that is not a child -/

theorem moveChildUp_of_not_mem (c : Component) (x : QUuid) (h : x ∉ c.childrenIds) :
    c.moveChildUp x = c := by
  simp [moveChildUp, List.indexOf_eq_length.mpr h]

theorem moveChildDown_of_not_mem (c : Component) (x : QUuid) (h : x ∉ c.childrenIds) :
    c.moveChildDown x = c := by
  simp [moveChildDown, List.indexOf_eq_length.mpr h]

theorem moveChildToTop_of_not_mem (c : Component) (x : QUuid) (h : x ∉ c.childrenIds) :
    c.moveChildToTop x = c := by
  simp [moveChildToTop, List.indexOf_eq_length.mpr h]

theorem moveChildToBottom_of_not_mem (c : Component) (x : QUuid) (h : x ∉ c.childrenIds) :
    c.moveChildToBottom x = c := by
  simp [moveChildToBottom, List.indexOf_eq_length.mpr h]

/-! ### Every move permutes the children list and leaves the set alone -/

theorem moveChildUp_perm (c : Component) (x : QUuid) :
    (c.moveChildUp x).childrenIds.Perm c.childrenIds := by
  by_cases hm : x ∈ c.childrenIds
  · obtain ⟨a, b, h, hx⟩ := List.eq_append_cons_of_mem hm
    rcases List.eq_nil_or_concat a with rfl | ⟨a2, y, rfl⟩
    · rw [moveChildUp_head (by simpa using h)]
    · have hx2 : x ∉ a2 := fun e => hx (by simp [e])
      have hxy : x ≠ y := fun e => hx (by simp [e])
      have h2 : c.childrenIds = a2 ++ y :: x :: b := by simp [h]
      rw [moveChildUp_split y h2 hx2 hxy, h2]
      exact List.Perm.append_left _ (List.Perm.swap _ _ _)
  · rw [moveChildUp_of_not_mem c x hm]

theorem moveChildDown_perm (c : Component) (x : QUuid) :
    (c.moveChildDown x).childrenIds.Perm c.childrenIds := by
  unfold moveChildDown
  simp only
  split_ifs
  · exact List.Perm.refl _
  · exact List.Perm.refl _
  · exact swapAt_succ_perm _ _

theorem moveChildToTop_perm (c : Component) (x : QUuid) :
    (c.moveChildToTop x).childrenIds.Perm c.childrenIds := by
  unfold moveChildToTop
  simp only
  split_ifs
  · exact List.Perm.refl _
  · exact List.Perm.refl _
  · exact toTopLoop_perm _ _

theorem moveChildToBottom_perm (c : Component) (x : QUuid) :
    (c.moveChildToBottom x).childrenIds.Perm c.childrenIds := by
  unfold moveChildToBottom
  simp only
  split_ifs
  · exact List.Perm.refl _
  · exact List.Perm.refl _
  · exact toBottomLoop_perm _ _ _

/-! ### Long children lists -/

theorem ofNat_inj {a b : Nat} (ha : a < 2 ^ 128) (hb : b < 2 ^ 128)
    (h : QUuid.ofNat a = QUuid.ofNat b) : a = b := by
  have h2 := congrArg Fin.val h
  simp only [QUuid.ofNat] at h2
  rwa [Nat.mod_eq_of_lt ha, Nat.mod_eq_of_lt hb] at h2

theorem manyChildren_length (n : Nat) : (manyChildren n).childrenIds.length = n := by
  simp only [manyChildren, List.length_map, List.length_range]

theorem manyChildren_nodup (n : Nat) (hn : n ≤ 2 ^ 128) : (manyChildren n).childrenIds.Nodup := by
  refine (List.nodup_range n).map_on (fun a ha b hb h => ?_)
  have h1 := List.mem_range.mp ha
  have h2 := List.mem_range.mp hb
  exact ofNat_inj (by omega) (by omega) h

theorem manyChildren_getElem? (n i : Nat) (hi : i < n) :
    (manyChildren n).childrenIds[i]? = some (QUuid.ofNat i) := by
  simp only [manyChildren, List.getElem?_map, List.getElem?_range hi, Option.map_some']

theorem indexOf_of_getElem? {l : List QUuid} (hnd : l.Nodup) {i : Nat} {x : QUuid}
    (h : l[i]? = some x) : l.indexOf x = i ∧ i < l.length := by
  obtain ⟨hi, he⟩ := List.getElem?_eq_some.mp h
  exact ⟨he ▸ List.indexOf_getElem hnd i hi, hi⟩

theorem manyChildren_indexOf (n i : Nat) (hn : n ≤ 2 ^ 128) (hi : i < n) :
    (manyChildren n).childrenIds.indexOf (QUuid.ofNat i) = i :=
  (indexOf_of_getElem? (manyChildren_nodup n hn) (manyChildren_getElem? n i hi)).1

theorem manyChildren_mem (n i : Nat) (hi : i < n) :
    QUuid.ofNat i ∈ (manyChildren n).childrenIds := by
  obtain ⟨h, e⟩ := List.getElem?_eq_some.mp (manyChildren_getElem? n i hi)
  exact e ▸ List.getElem_mem h

theorem manyChildren_getLast? (n : Nat) (hn : 0 < n) :
    (manyChildren n).childrenIds.getLast? = some (QUuid.ofNat (n - 1)) := by
  rw [List.getLast?_eq_getElem?, manyChildren_length]
  exact manyChildren_getElem? n (n - 1) (by omega)

theorem ne_cons_of_head {l m : List QUuid} {x y : QUuid} (h : l[0]? = some y) (hxy : y ≠ x) :
    l ≠ x :: m := by
  rintro rfl
  simp at h
  exact hxy h.symm

theorem ne_concat_of_last {l m : List QUuid} {x y : QUuid} (h : l.getLast? = some y)
    (hxy : y ≠ x) : l ≠ m ++ [x] := by
  rintro rfl
  simp at h
  exact hxy h.symm

theorem moveChildDown_of_guard (c : Component) (x : QUuid)
    (h : ((c.childrenIds.indexOf x : Nat) : Int) = toInt32 c.childrenIds.length - 1) :
    c.moveChildDown x = c := by
  unfold moveChildDown
  simp only [h, if_true]
  split_ifs <;> rfl

theorem moveChildToTop_of_not_pos (c : Component) (x : QUuid)
    (h : toInt32 (c.childrenIds.indexOf x) ≤ 0) :
    (c.moveChildToTop x).childrenIds = c.childrenIds := by
  unfold moveChildToTop
  simp only
  split_ifs
  · rfl
  · rfl
  · rw [Int.toNat_eq_zero.mpr h]
    rfl

theorem moveChildToBottom_of_not_le (c : Component) (x : QUuid)
    (h : ¬ (toInt32 (c.childrenIds.indexOf x) ≤ toInt32 c.childrenIds.length - 2)) :
    (c.moveChildToBottom x).childrenIds = c.childrenIds := by
  unfold moveChildToBottom
  simp only
  split_ifs
  · rfl
  · rfl
  · exact toBottomLoop_of_not_le _ _ _ h

theorem toInt32_two_pow_31 : toInt32 (2 ^ 31) = -2 ^ 31 := by
  norm_num [toInt32]

theorem toInt32_long_down : toInt32 (2 ^ 32 + 5) = 5 := by
  norm_num [toInt32]

theorem toInt32_long_bottom : toInt32 (2 ^ 31 + 2) = -2 ^ 31 + 2 := by
  norm_num [toInt32]

theorem toInt32_zero : toInt32 0 = 0 := by
  norm_num [toInt32]

theorem moveChildUp_set (c : Component) (x : QUuid) :
    (c.moveChildUp x).m_childrenIdSet = c.m_childrenIdSet := by
  unfold moveChildUp; simp only; split_ifs <;> rfl

theorem moveChildDown_set (c : Component) (x : QUuid) :
    (c.moveChildDown x).m_childrenIdSet = c.m_childrenIdSet := by
  unfold moveChildDown; simp only; split_ifs <;> rfl

theorem moveChildToTop_set (c : Component) (x : QUuid) :
    (c.moveChildToTop x).m_childrenIdSet = c.m_childrenIdSet := by
  unfold moveChildToTop; simp only; split_ifs <;> rfl

theorem moveChildToBottom_set (c : Component) (x : QUuid) :
    (c.moveChildToBottom x).m_childrenIdSet = c.m_childrenIdSet := by
  unfold moveChildToBottom; simp only; split_ifs <;> rfl

/-! ### The uniqueness invariant is kept by every call -/

theorem Inv.mem_set_iff {c : Component} (h : Inv c) (x : QUuid) :
    x ∈ c.m_childrenIdSet ↔ x ∈ c.childrenIds := by
  rw [← h.2, List.mem_toFinset]

theorem inv_of_perm {c d : Component} (h : Inv c) (hp : d.childrenIds.Perm c.childrenIds)
    (hs : d.m_childrenIdSet = c.m_childrenIdSet) : Inv d :=
  ⟨hp.nodup_iff.mpr h.1, by rw [hs, ← h.2]; exact List.toFinset_eq_of_perm _ _ hp⟩

theorem inv_addChild {c : Component} (h : Inv c) (x : QUuid) : Inv (c.addChild x) := by
  unfold addChild
  split_ifs with hx
  · exact h
  · have hx2 : x ∉ c.childrenIds := fun e => hx ((h.mem_set_iff x).mpr e)
    refine ⟨?_, ?_⟩
    · exact List.Nodup.append h.1 (List.nodup_singleton x) (by simpa using hx2)
    · ext y
      simp only [List.toFinset_append, List.toFinset_cons, List.toFinset_nil, Finset.mem_union,
        List.mem_toFinset, Finset.mem_insert, Finset.mem_singleton, h.mem_set_iff]
      tauto

theorem inv_removeChild {c : Component} (h : Inv c) (x : QUuid) : Inv (c.removeChild x) := by
  by_cases hs : x ∈ c.m_childrenIdSet
  · obtain ⟨a, b, hl, hx⟩ := List.eq_append_cons_of_mem ((h.mem_set_iff x).mp hs)
    obtain ⟨h1, h2⟩ := removeChild_split hl hx hs
    have hnd : (a ++ x :: b).Nodup := hl ▸ h.1
    have hxb : x ∉ b := by
      intro e
      have := List.nodup_append.mp hnd
      exact (List.nodup_cons.mp this.2.1).1 e
    refine ⟨?_, ?_⟩
    · rw [h1]
      exact (List.nodup_middle.mp hnd |> List.nodup_cons.mp).2
    · rw [h1, h2, ← h.2, hl]
      ext y
      simp only [List.toFinset_append, List.toFinset_cons, Finset.mem_union, List.mem_toFinset,
        Finset.mem_erase, Finset.mem_insert]
      constructor
      · rintro (e | e)
        · exact ⟨fun e2 => hx (e2 ▸ e), Or.inl e⟩
        · exact ⟨fun e2 => hxb (e2 ▸ e), Or.inr (Or.inr e)⟩
      · rintro ⟨e1, e2 | e2 | e2⟩
        · exact Or.inl e2
        · exact absurd e2 e1
        · exact Or.inr e2
  · simp only [removeChild, hs, not_false_eq_true, if_true]; exact h

theorem inv_replaceChild {c : Component} (h : Inv c) (x n : QUuid) :
    Inv (c.replaceChild x n) := by
  by_cases hs : x ∈ c.m_childrenIdSet
  · by_cases hn : n ∈ c.m_childrenIdSet
    · simp only [replaceChild, hs, hn, not_true_eq_false, if_false, if_true]; exact h
    · obtain ⟨a, b, hl, hx⟩ := List.eq_append_cons_of_mem ((h.mem_set_iff x).mp hs)
      obtain ⟨h1, h2⟩ := replaceChild_split n hl hx hs hn
      have hnd : (a ++ x :: b).Nodup := hl ▸ h.1
      have hnl : n ∉ a ++ x :: b := hl ▸ fun e => hn ((h.mem_set_iff n).mpr e)
      have hna : n ∉ a := fun e => hnl (by simp [e])
      have hnb : n ∉ b := fun e => hnl (by simp [e])
      have hxb : x ∉ b := by
        intro e
        have := List.nodup_append.mp hnd
        exact (List.nodup_cons.mp this.2.1).1 e
      have hab : (a ++ b).Nodup := (List.nodup_middle.mp hnd |> List.nodup_cons.mp).2
      refine ⟨?_, ?_⟩
      · rw [h1]
        exact List.nodup_middle.mpr (List.nodup_cons.mpr ⟨by simp [hna, hnb], hab⟩)
      · rw [h1, h2, ← h.2, hl]
        ext y
        simp only [List.toFinset_append, List.toFinset_cons, Finset.mem_union,
          List.mem_toFinset, Finset.mem_erase, Finset.mem_insert]
        constructor
        · rintro (e | e | e)
          · exact Or.inr ⟨fun e2 => hx (e2 ▸ e), Or.inl e⟩
          · exact Or.inl e
          · exact Or.inr ⟨fun e2 => hxb (e2 ▸ e), Or.inr (Or.inr e)⟩
        · rintro (e | ⟨e1, e2 | e2 | e2⟩)
          · exact Or.inr (Or.inl e)
          · exact Or.inl e2
          · exact absurd e2 e1
          · exact Or.inr (Or.inr e2)
  · simp only [replaceChild, hs, not_false_eq_true, if_true]; exact h

theorem inv_apply {c : Component} (h : Inv c) (op : ChildOp) : Inv (op.apply c) := by
  cases op with
  | addChild x => exact inv_addChild h x
  | removeChild x => exact inv_removeChild h x
  | replaceChild x n => exact inv_replaceChild h x n
  | moveChildUp x => exact inv_of_perm h (moveChildUp_perm c x) (moveChildUp_set c x)
  | moveChildDown x => exact inv_of_perm h (moveChildDown_perm c x) (moveChildDown_set c x)
  | moveChildToTop x => exact inv_of_perm h (moveChildToTop_perm c x) (moveChildToTop_set c x)
  | moveChildToBottom x =>
    exact inv_of_perm h (moveChildToBottom_perm c x) (moveChildToBottom_set c x)

theorem inv_runChildOps (ops : List ChildOp) :
    ∀ {c : Component}, Inv c → Inv (runChildOps c ops) := by
  induction ops with
  | nil => intro c h; exact h
  | cons op ops ih => intro c h; exact ih (inv_apply h op)

theorem inv_init : Inv init := by
  simp [Inv, init]

theorem create_children (fresh withId : QUuid) (linkData linkDataType : String) :
    (create fresh withId linkData linkDataType).childrenIds = [] ∧
      (create fresh withId linkData linkDataType).m_childrenIdSet = ∅ := by
  unfold create; simp only; split_ifs <;> exact ⟨rfl, rfl⟩

theorem inv_create (fresh withId : QUuid) (linkData linkDataType : String) :
    Inv (create fresh withId linkData linkDataType) := by
  obtain ⟨h1, h2⟩ := create_children fresh withId linkData linkDataType
  simp [Inv, h1, h2]

/-! ## The claims on the children list -/

/-- C1: starting from a newly constructed component (either constructor), after
any finite sequence of addChild, removeChild, replaceChild and move calls with
arbitrary ids, `childrenIds` lists no id twice and the set of its ids equals
the private `m_childrenIdSet`. -/
theorem children_unique_after_any_calls (ops : List ChildOp) :
    ((runChildOps init ops).childrenIds.Nodup ∧
      (runChildOps init ops).childrenIds.toFinset = (runChildOps init ops).m_childrenIdSet) ∧
    ∀ (fresh withId : QUuid) (linkData linkDataType : String),
      (runChildOps (create fresh withId linkData linkDataType) ops).childrenIds.Nodup ∧
      (runChildOps (create fresh withId linkData linkDataType) ops).childrenIds.toFinset =
        (runChildOps (create fresh withId linkData linkDataType) ops).m_childrenIdSet :=
  ⟨inv_runChildOps ops inv_init, fun fresh withId linkData linkDataType =>
    inv_runChildOps ops (inv_create fresh withId linkData linkDataType)⟩

/-- C2: on a component satisfying the uniqueness invariant, `addChild(x)` with
`x` not yet a child appends `x` at the end, every existing child keeping its
index; with `x` already a child it leaves `childrenIds` unchanged. -/
theorem addChild_appends (c : Component) (x : QUuid) (h : Inv c) :
    (x ∉ c.childrenIds →
      (c.addChild x).childrenIds = c.childrenIds ++ [x] ∧
      ∀ i : Nat, i < c.childrenIds.length →
        (c.addChild x).childrenIds[i]? = c.childrenIds[i]?) ∧
    (x ∈ c.childrenIds → (c.addChild x).childrenIds = c.childrenIds) := by
  constructor
  · intro hx
    have hs : x ∉ c.m_childrenIdSet := fun e => hx ((h.mem_set_iff x).mp e)
    have he : (c.addChild x).childrenIds = c.childrenIds ++ [x] := by
      simp [addChild, hs]
    refine ⟨he, fun i hi => ?_⟩
    rw [he, List.getElem?_append_left hi]
  · intro hx
    have hs : x ∈ c.m_childrenIdSet := (h.mem_set_iff x).mpr hx
    simp [addChild, hs]

/-- The append and the early return of `addChild` on the four-children sample. -/
theorem addChild_appends_witness :
    Inv fourChildren ∧ (fourChildren.addChild 5).childrenIds = [1, 2, 3, 4, 5] ∧
      (fourChildren.addChild 2).childrenIds = [1, 2, 3, 4] :=
  ⟨by decide, ((addChild_appends fourChildren 5 (by decide)).1 (by decide)).1,
    (addChild_appends fourChildren 2 (by decide)).2 (by decide)⟩

/-- C3: on a component satisfying the uniqueness invariant, after
`removeChild(x)` the id `x` does not occur in `childrenIds`, which is the old
list with `x` filtered out; if `x` was not a child the list is unchanged. -/
theorem removeChild_filters (c : Component) (x : QUuid) (h : Inv c) :
    x ∉ (c.removeChild x).childrenIds ∧
    (c.removeChild x).childrenIds = c.childrenIds.filter (fun y => y != x) ∧
    (x ∉ c.childrenIds → (c.removeChild x).childrenIds = c.childrenIds) := by
  have key : (c.removeChild x).childrenIds = c.childrenIds.filter (fun y => y != x) := by
    by_cases hm : x ∈ c.childrenIds
    · obtain ⟨a, b, hl, hx⟩ := List.eq_append_cons_of_mem hm
      rw [(removeChild_split hl hx ((h.mem_set_iff x).mpr hm)).1,
        ← List.Nodup.erase_eq_filter h.1, hl, List.erase_append_right _ hx]
      simp
    · have hs : x ∉ c.m_childrenIdSet := fun e => hm ((h.mem_set_iff x).mp e)
      simp only [removeChild, hs, not_false_eq_true, if_true]
      symm
      rw [List.filter_eq_self]
      intro y hy
      simpa using fun e : y = x => hm (e ▸ hy)
  refine ⟨?_, key, ?_⟩
  · rw [key]; simp
  · intro hm
    have hs : x ∉ c.m_childrenIdSet := fun e => hm ((h.mem_set_iff x).mp e)
    simp [removeChild, hs]

/-- Removing child 2 of the four-children sample. -/
theorem removeChild_filters_witness :
    Inv fourChildren ∧ (fourChildren.removeChild 2).childrenIds = [1, 3, 4] :=
  ⟨by decide, (removeChild_filters fourChildren 2 (by decide)).2.1⟩

/-- C4, as stated, fails on long lists, where the conversions to `int` lose the
index or the size.  With 2^31 + 1 children, `int i = index` turns the index
2^31 of the last child into -2^31, the loop of `moveChildToTop` is not entered
and the child stays last.  With 2^31 + 2 children, `(int)childrenIds.size()` is
negative, the loop of `moveChildToBottom` is not entered and the first child
stays first. -/
theorem moveChildToEnd_fails_on_long_list :
    ((manyChildren (2 ^ 31 + 1)).childrenIds.Nodup ∧
      QUuid.ofNat (2 ^ 31) ∈ (manyChildren (2 ^ 31 + 1)).childrenIds ∧
      ((manyChildren (2 ^ 31 + 1)).moveChildToTop (QUuid.ofNat (2 ^ 31))).childrenIds
        = (manyChildren (2 ^ 31 + 1)).childrenIds ∧
      ((manyChildren (2 ^ 31 + 1)).moveChildToTop (QUuid.ofNat (2 ^ 31))).childrenIds ≠
        QUuid.ofNat (2 ^ 31) ::
          (manyChildren (2 ^ 31 + 1)).childrenIds.filter
            (fun y => y != QUuid.ofNat (2 ^ 31))) ∧
    ((manyChildren (2 ^ 31 + 2)).childrenIds.Nodup ∧
      QUuid.ofNat 0 ∈ (manyChildren (2 ^ 31 + 2)).childrenIds ∧
      ((manyChildren (2 ^ 31 + 2)).moveChildToBottom (QUuid.ofNat 0)).childrenIds
        = (manyChildren (2 ^ 31 + 2)).childrenIds ∧
      ((manyChildren (2 ^ 31 + 2)).moveChildToBottom (QUuid.ofNat 0)).childrenIds ≠
        (manyChildren (2 ^ 31 + 2)).childrenIds.filter (fun y => y != QUuid.ofNat 0)
          ++ [QUuid.ofNat 0]) := by
  have htop : ((manyChildren (2 ^ 31 + 1)).moveChildToTop (QUuid.ofNat (2 ^ 31))).childrenIds
      = (manyChildren (2 ^ 31 + 1)).childrenIds := by
    apply moveChildToTop_of_not_pos
    rw [manyChildren_indexOf _ _ (by norm_num) (by norm_num), toInt32_two_pow_31]
    norm_num
  have hbottom : ((manyChildren (2 ^ 31 + 2)).moveChildToBottom (QUuid.ofNat 0)).childrenIds
      = (manyChildren (2 ^ 31 + 2)).childrenIds := by
    apply moveChildToBottom_of_not_le
    rw [manyChildren_indexOf _ _ (by norm_num) (by norm_num), manyChildren_length,
      toInt32_long_bottom, toInt32_zero]
    norm_num
  refine ⟨⟨manyChildren_nodup _ (by norm_num), manyChildren_mem _ _ (by norm_num), htop, ?_⟩,
    manyChildren_nodup _ (by norm_num), manyChildren_mem _ _ (by norm_num), hbottom, ?_⟩
  · rw [htop]
    refine ne_cons_of_head (manyChildren_getElem? _ 0 (by norm_num)) (fun e => ?_)
    have := ofNat_inj (by norm_num) (by norm_num) e
    norm_num at this
  · rw [hbottom]
    refine ne_concat_of_last (manyChildren_getLast? _ (by norm_num)) (fun e => ?_)
    have := ofNat_inj (by norm_num) (by norm_num) e
    norm_num at this

/-- C4, amended: on a component whose `childrenIds` is duplicate-free, for a
child `x` at an index below 2^31 `moveChildToTop(x)` yields `x` followed by the
old list with `x` removed, and with fewer than 2^31 children
`moveChildToBottom(x)` yields the old list with `x` removed followed by `x`;
for an id that is not a child both calls leave `childrenIds` unchanged. -/
theorem moveChildToEnd_keeps_order (c : Component) (x : QUuid) (hnd : c.childrenIds.Nodup) :
    (x ∈ c.childrenIds →
      (c.childrenIds.indexOf x < 2 ^ 31 →
        (c.moveChildToTop x).childrenIds = x :: c.childrenIds.filter (fun y => y != x)) ∧
      (c.childrenIds.length < 2 ^ 31 →
        (c.moveChildToBottom x).childrenIds
          = c.childrenIds.filter (fun y => y != x) ++ [x])) ∧
    (x ∉ c.childrenIds →
      (c.moveChildToTop x).childrenIds = c.childrenIds ∧
      (c.moveChildToBottom x).childrenIds = c.childrenIds) := by
  constructor
  · intro hm
    obtain ⟨a, b, hl, hx⟩ := List.eq_append_cons_of_mem hm
    have hf : c.childrenIds.filter (fun y => y != x) = a ++ b := by
      rw [← List.Nodup.erase_eq_filter hnd, hl, List.erase_append_right _ hx]
      simp
    have hi : c.childrenIds.indexOf x = a.length := by rw [hl]; exact indexOf_append_cons hx
    rw [hf, hi]
    exact ⟨fun hlt => moveChildToTop_split hl hx hlt,
      fun hlen => moveChildToBottom_split hl hx hlen⟩
  · intro hm
    rw [moveChildToTop_of_not_mem c x hm, moveChildToBottom_of_not_mem c x hm]
    exact ⟨rfl, rfl⟩

/-- Moving child 3 to the top and child 2 to the bottom of the sample. -/
theorem moveChildToEnd_keeps_order_witness :
    fourChildren.childrenIds.Nodup ∧
      (fourChildren.moveChildToTop 3).childrenIds = [3, 1, 2, 4] ∧
      (fourChildren.moveChildToBottom 2).childrenIds = [1, 3, 4, 2] :=
  ⟨by decide,
    ((moveChildToEnd_keeps_order fourChildren 3 (by decide)).1 (by decide)).1 (by decide),
    ((moveChildToEnd_keeps_order fourChildren 2 (by decide)).1 (by decide)).2 (by decide)⟩

/-- C5, as stated, fails on long lists: with 2^32 + 5 children,
`(int)childrenIds.size() - 1` is 4, so `moveChildDown` on the child at index 4
takes it for the last child and returns without a swap, although index 5
exists. -/
theorem moveChildDown_skips_swap_on_long_list :
    (manyChildren (2 ^ 32 + 5)).childrenIds.Nodup ∧
    (manyChildren (2 ^ 32 + 5)).childrenIds[4]? = some (QUuid.ofNat 4) ∧
    4 + 1 < (manyChildren (2 ^ 32 + 5)).childrenIds.length ∧
    (manyChildren (2 ^ 32 + 5)).moveChildDown (QUuid.ofNat 4) = manyChildren (2 ^ 32 + 5) ∧
    ((manyChildren (2 ^ 32 + 5)).moveChildDown (QUuid.ofNat 4)).childrenIds[4 + 1]?
      ≠ some (QUuid.ofNat 4) := by
  have hdown : (manyChildren (2 ^ 32 + 5)).moveChildDown (QUuid.ofNat 4)
      = manyChildren (2 ^ 32 + 5) := by
    apply moveChildDown_of_guard
    rw [manyChildren_indexOf _ _ (by norm_num) (by norm_num), manyChildren_length,
      toInt32_long_down]
    norm_num
  refine ⟨manyChildren_nodup _ (by norm_num), manyChildren_getElem? _ _ (by norm_num), ?_,
    hdown, ?_⟩
  · rw [manyChildren_length]; norm_num
  · rw [hdown, manyChildren_getElem? _ _ (by norm_num)]
    intro e
    have := ofNat_inj (by norm_num) (by norm_num) (Option.some.inj e)
    norm_num at this

/-- C5, amended: on a component whose `childrenIds` is duplicate-free, with the
child `x` at index `i`: `moveChildUp(x)` exchanges the entries at `i - 1` and
`i` when `i > 0` and changes nothing when `i = 0`; with fewer than 2^31
children `moveChildDown(x)` exchanges the entries at `i` and `i + 1` when `i`
is not the last index and changes nothing when it is; whatever the number
of children, every index other than the two keeps its id.  For an id that is
not a child (so also on an empty list) both calls change nothing, and in every
case the result is a permutation of the old list. -/
theorem moveChild_step_swaps_neighbours (c : Component) (x : QUuid)
    (hnd : c.childrenIds.Nodup) :
    (∀ i : Nat, c.childrenIds[i]? = some x →
      (0 < i →
        (c.moveChildUp x).childrenIds[i - 1]? = some x ∧
        (c.moveChildUp x).childrenIds[i]? = c.childrenIds[i - 1]? ∧
        ∀ j : Nat, j ≠ i - 1 → j ≠ i →
          (c.moveChildUp x).childrenIds[j]? = c.childrenIds[j]?) ∧
      (i = 0 → c.moveChildUp x = c) ∧
      (c.childrenIds.length < 2 ^ 31 → i + 1 < c.childrenIds.length →
        (c.moveChildDown x).childrenIds[i + 1]? = some x ∧
        (c.moveChildDown x).childrenIds[i]? = c.childrenIds[i + 1]? ∧
        ∀ j : Nat, j ≠ i → j ≠ i + 1 →
          (c.moveChildDown x).childrenIds[j]? = c.childrenIds[j]?) ∧
      (c.childrenIds.length < 2 ^ 31 → i + 1 = c.childrenIds.length →
        c.moveChildDown x = c) ∧
      (∀ j : Nat, j ≠ i → j ≠ i + 1 →
        (c.moveChildDown x).childrenIds[j]? = c.childrenIds[j]?)) ∧
    (x ∉ c.childrenIds → c.moveChildUp x = c ∧ c.moveChildDown x = c) ∧
    (c.moveChildUp x).childrenIds.Perm c.childrenIds ∧
    (c.moveChildDown x).childrenIds.Perm c.childrenIds := by
  refine ⟨fun i hi => ?_, fun hm => ⟨moveChildUp_of_not_mem c x hm,
    moveChildDown_of_not_mem c x hm⟩, moveChildUp_perm c x, moveChildDown_perm c x⟩
  obtain ⟨hidx, hlt⟩ := indexOf_of_getElem? hnd hi
  have hne : i ≠ c.childrenIds.length := by omega
  refine ⟨fun h0 => ?_, fun h0 => ?_, fun hlen h1 => ?_, fun hlen h1 => ?_,
    fun j hj1 hj2 => ?_⟩
  · have hup : (c.moveChildUp x).childrenIds = swapAt c.childrenIds (i - 1) i := by
      have : i ≠ 0 := by omega
      simp [moveChildUp, hidx, hne, this]
    have hg := fun k => getElem?_swapAt c.childrenIds (i - 1) i k (by omega) hlt
    rw [hup]
    refine ⟨?_, ?_, fun j hj1 hj2 => ?_⟩
    · rw [hg]
      have : i - 1 ≠ i := by omega
      simp [this, hi]
    · rw [hg]; simp
    · rw [hg]; simp [hj1, hj2]
  · simp [moveChildUp, hidx, h0]
  · have hdown : (c.moveChildDown x).childrenIds = swapAt c.childrenIds i (i + 1) := by
      have : ¬ ((i : Int) = toInt32 c.childrenIds.length - 1) := by
        rw [toInt32_of_lt hlen]; omega
      simp only [moveChildDown, hidx, hne, this, if_false]
    have hg := fun k => getElem?_swapAt c.childrenIds i (i + 1) k hlt h1
    rw [hdown]
    refine ⟨?_, ?_, fun j hj1 hj2 => ?_⟩
    · rw [hg]; simp [hi]
    · rw [hg]; simp
    · rw [hg]; simp [hj1, hj2]
  · apply moveChildDown_of_guard
    rw [hidx, toInt32_of_lt hlen]; omega
  · unfold moveChildDown
    simp only [hidx]
    split_ifs
    · rfl
    · rfl
    · exact getElem?_swapAt_of_ne c.childrenIds i (i + 1) j hj1 hj2

/-- Moving child 3 (index 2) of the sample one step up and one step down. -/
theorem moveChild_step_swaps_neighbours_witness :
    fourChildren.childrenIds.Nodup ∧
      (fourChildren.moveChildUp 3).childrenIds[1]? = some 3 ∧
      (fourChildren.moveChildUp 3).childrenIds[2]? = fourChildren.childrenIds[1]? ∧
      (fourChildren.moveChildDown 3).childrenIds[3]? = some 3 :=
  ⟨by decide,
    (((moveChild_step_swaps_neighbours fourChildren 3 (by decide)).1 2 (by decide)).1
      (by decide)).1,
    (((moveChild_step_swaps_neighbours fourChildren 3 (by decide)).1 2 (by decide)).1
      (by decide)).2.1,
    (((moveChild_step_swaps_neighbours fourChildren 3 (by decide)).1 2 (by decide)).2.2.1
      (by decide) (by decide)).1⟩

/-- C6: on a component satisfying the uniqueness invariant, `replaceChild(x, n)`
changes nothing when `x` is not a child or when `n` is already a child
(`n = x` included); otherwise the new `childrenIds` has the old length, holds
`n` exactly at the index where `x` was, is unchanged at every other index, and
the uniqueness invariant still holds. -/
theorem replaceChild_in_place (c : Component) (x n : QUuid) (h : Inv c) :
    (x ∉ c.childrenIds ∨ n ∈ c.childrenIds → c.replaceChild x n = c) ∧
    (x ∈ c.childrenIds → n ∉ c.childrenIds →
      (c.replaceChild x n).childrenIds.length = c.childrenIds.length ∧
      (∀ i : Nat,
        (c.replaceChild x n).childrenIds[i]? = some n ↔ c.childrenIds[i]? = some x) ∧
      (∀ i : Nat, c.childrenIds[i]? ≠ some x →
        (c.replaceChild x n).childrenIds[i]? = c.childrenIds[i]?)) ∧
    Inv (c.replaceChild x n) := by
  refine ⟨?_, ?_, inv_replaceChild h x n⟩
  · rintro (hx | hn)
    · have hs : x ∉ c.m_childrenIdSet := fun e => hx ((h.mem_set_iff x).mp e)
      simp [replaceChild, hs]
    · have hs : n ∈ c.m_childrenIdSet := (h.mem_set_iff n).mpr hn
      simp [replaceChild, hs]
  · intro hx hn
    have hsx : x ∈ c.m_childrenIdSet := (h.mem_set_iff x).mpr hx
    have hsn : n ∉ c.m_childrenIdSet := fun e => hn ((h.mem_set_iff n).mp e)
    have hlt : c.childrenIds.indexOf x < c.childrenIds.length := List.indexOf_lt_length.mpr hx
    have hr : (c.replaceChild x n).childrenIds =
        c.childrenIds.set (c.childrenIds.indexOf x) n := by
      simp [replaceChild, hsx, hsn, Nat.ne_of_lt hlt]
    have hat : c.childrenIds[c.childrenIds.indexOf x]? = some x := by
      rw [List.getElem?_eq_getElem hlt, List.getElem_indexOf hlt]
    rw [hr]
    refine ⟨by simp, fun i => ?_, fun i hi => ?_⟩
    · rw [List.getElem?_set]
      by_cases hi : c.childrenIds.indexOf x = i
      · subst hi; simp [hlt, hat]
      · simp only [hi, if_false]
        constructor
        · intro e
          obtain ⟨hlt2, he⟩ := List.getElem?_eq_some.mp e
          exact absurd (he ▸ List.getElem_mem _) hn
        · intro e
          exact absurd (indexOf_of_getElem? h.1 e).1 hi
    · rw [List.getElem?_set]
      have : c.childrenIds.indexOf x ≠ i := fun e => hi (e ▸ hat)
      simp [this]

/-- Replacing child 2 of the sample by a new id and by an existing child. -/
theorem replaceChild_in_place_witness :
    Inv fourChildren ∧ (fourChildren.replaceChild 2 8).childrenIds.length = 4 ∧
      fourChildren.replaceChild 2 3 = fourChildren :=
  ⟨by decide, ((replaceChild_in_place fourChildren 2 8 (by decide)).2.1
      (by decide) (by decide)).1,
    (replaceChild_in_place fourChildren 2 3 (by decide)).1 (Or.inr (by decide))⟩

/-! ## Part link, children and the dirty flag -/

theorem apply_linkToPartId (c : Component) (op : ChildOp) :
    (op.apply c).linkToPartId = c.linkToPartId := by
  cases op <;> simp only [ChildOp.apply, addChild, removeChild, replaceChild, moveChildUp,
    moveChildDown, moveChildToTop, moveChildToBottom] <;> split_ifs <;> rfl

theorem runChildOps_linkToPartId (ops : List ChildOp) :
    ∀ c : Component, (runChildOps c ops).linkToPartId = c.linkToPartId := by
  induction ops with
  | nil => intro c; rfl
  | cons op ops ih =>
    intro c
    exact (ih (op.apply c)).trans (apply_linkToPartId c op)

theorem create_linkToPartId (fresh withId : QUuid) (linkData linkDataType : String) :
    (create fresh withId linkData linkDataType).linkToPartId =
      if ¬ linkData.isEmpty ∧ "partId" = linkDataType then QUuid.ofString linkData
      else QUuid.null := by
  unfold create
  by_cases h1 : linkData.isEmpty <;> by_cases h2 : "partId" = linkDataType <;> simp [h1, h2]

/-- C7, as stated, fails: a component constructed with a part link and then
given a child by `addChild` has a non-null `linkToPartId` and a non-empty
`childrenIds` at once. -/
theorem part_link_and_children_coexist :
    linkedWithChild.linkToPartId.isNull = false ∧ linkedWithChild.childrenIds ≠ [] := by
  decide

/-- C7, amended: both constructors yield a component without children, and the
children operations never change `linkToPartId`: in every reachable state it
is the value fixed at construction, which is the uuid read from `linkData`
when `linkData` is non-empty and `linkDataType` is "partId", and null
otherwise (always null after the default constructor). -/
theorem part_link_fixed_at_construction (ops : List ChildOp) (fresh withId : QUuid)
    (linkData linkDataType : String) :
    init.childrenIds = [] ∧
    (create fresh withId linkData linkDataType).childrenIds = [] ∧
    (runChildOps init ops).linkToPartId = QUuid.null ∧
    (runChildOps (create fresh withId linkData linkDataType) ops).linkToPartId =
      (if ¬ linkData.isEmpty ∧ "partId" = linkDataType then QUuid.ofString linkData
       else QUuid.null) :=
  ⟨rfl, (create_children fresh withId linkData linkDataType).1,
    runChildOps_linkToPartId ops init,
    (runChildOps_linkToPartId ops _).trans
      (create_linkToPartId fresh withId linkData linkDataType)⟩

theorem childOp_dirty (c : Component) (op : ChildOp) : (op.apply c).dirty = c.dirty := by
  cases op <;> simp only [ChildOp.apply, addChild, removeChild, replaceChild, moveChildUp,
    moveChildDown, moveChildToTop, moveChildToBottom] <;> split_ifs <;> rfl

theorem memberOp_dirty (c : Component) (op : MemberOp) : (op.apply c).dirty = c.dirty := by
  cases op with
  | child op => exact childOp_dirty c op
  | setSmoothAll v => rfl
  | setSmoothSeam v => rfl

theorem runMemberOps_dirty (ops : List MemberOp) :
    ∀ c : Component, (runMemberOps c ops).dirty = c.dirty := by
  induction ops with
  | nil => intro c; rfl
  | cons op ops ih =>
    intro c
    exact (ih (op.apply c)).trans (memberOp_dirty c op)

theorem create_dirty (fresh withId : QUuid) (linkData linkDataType : String) :
    (create fresh withId linkData linkDataType).dirty = true := by
  unfold create; simp only; split_ifs <;> rfl

/-- C8: a component built by either constructor has `dirty = true`, no member
operation (addChild, removeChild, replaceChild, the four moves, setSmoothAll,
setSmoothSeam) changes `dirty`, and so `dirty` is still true after any sequence
of member calls on a new component. -/
theorem dirty_never_cleared_by_component (ops : List MemberOp) (c : Component)
    (op : MemberOp) (fresh withId : QUuid) (linkData linkDataType : String) :
    init.dirty = true ∧
    (create fresh withId linkData linkDataType).dirty = true ∧
    (op.apply c).dirty = c.dirty ∧
    (runMemberOps init ops).dirty = true ∧
    (runMemberOps (create fresh withId linkData linkDataType) ops).dirty = true :=
  ⟨rfl, create_dirty fresh withId linkData linkDataType, memberOp_dirty c op,
    runMemberOps_dirty ops init,
    (runMemberOps_dirty ops _).trans (create_dirty fresh withId linkData linkDataType)⟩

/-! ## The part link and its text form -/

theorem hexVal_hexChar (d : Nat) (h : d < 16) : hexVal (hexChar d) = some d := by
  interval_cases d <;> decide

theorem hexDigits_has_width (width : Nat) :
    ∀ value : Nat, (hexDigits width value).length = width := by
  induction width with
  | zero => intro value; rfl
  | succ k hk =>
    intro value
    rw [hexDigits, List.length_append, hk (value / 16)]
    rfl

theorem hexValue_snoc (body : List Char) (last : Char) :
    hexValue (body ++ [last]) =
      (hexValue body).bind fun a => (hexVal last).map fun d => a * 16 + d := by
  unfold hexValue
  rw [List.foldl_append]
  rfl

theorem hexValue_reads_back (width : Nat) :
    ∀ value : Nat, hexValue (hexDigits width value) = some (value % 16 ^ width) := by
  induction width with
  | zero => intro value; simp [hexDigits, hexValue, Nat.mod_one]
  | succ w ih =>
    intro n
    rw [hexDigits, hexValue_snoc, ih, hexVal_hexChar _ (Nat.mod_lt _ (by norm_num))]
    simp only [Option.some_bind, Option.map_some']
    congr 1
    rw [pow_succ, Nat.mul_comm (16 ^ w) 16, Nat.mod_mul]
    ring

theorem unlayout_layout (ds : List Char) (h : ds.length = 32) :
    QUuid.unlayout (QUuid.layout ds) = some ds := by
  iterate 32 (rcases ds with _ | ⟨_, ds⟩; · simp at h)
  rcases ds with _ | ⟨_, ds⟩
  · simp [QUuid.unlayout, QUuid.layout]
  · simp at h

theorem ofString_toString (u : QUuid) : QUuid.ofString (QUuid.toString u) = u := by
  have h1 := unlayout_layout (hexDigits 32 u.val) (hexDigits_has_width 32 u.val)
  have h2 := hexValue_reads_back 32 u.val
  have h3 : u.val % 16 ^ 32 = u.val := Nat.mod_eq_of_lt (by
    have := u.isLt
    norm_num at this ⊢
    exact this)
  simp only [QUuid.ofString, QUuid.toString, h1, Option.some_bind, h2, h3]
  simp

theorem toString_ne_empty (u : QUuid) : (QUuid.toString u).isEmpty = false := by
  cases h : (QUuid.toString u).isEmpty
  · rfl
  · have he : QUuid.toString u = "" := (String.isEmpty_iff _).mp h
    have hd : QUuid.layout (hexDigits 32 u.val) = [] := congrArg String.data he
    unfold QUuid.layout at hd
    exact (List.append_ne_nil_of_right_ne_nil _ (List.cons_ne_nil _ _) hd).elim

theorem create_id (fresh withId : QUuid) (linkData linkDataType : String) :
    (create fresh withId linkData linkDataType).id = if withId.isNull then fresh else withId := by
  unfold create; simp only; split_ifs <;> rfl

/-- C20, as stated, fails: a default constructed component has the null id, and
the constructor called with a null id assigns a fresh uuid (here 7), so the
copy built from its id and link strings has another id. -/
theorem copy_of_null_id_gets_fresh_id :
    (create 7 init.id init.linkData init.linkDataType).id ≠ init.id := by
  decide

/-- C20, amended: `Component(c.id, c.linkData(), c.linkDataType())` has the same
`linkToPartId` as `c`, and the same id when `c.id` is not null (for a null id
the constructor takes a fresh uuid); when `c` has no part link, `linkData()`
and `linkDataType()` are both empty; and a constructor call whose `linkData`
is empty or whose `linkDataType` is not "partId" yields no part link. -/
theorem link_round_trip (c : Component) (fresh withId : QUuid) (linkData linkDataType : String) :
    (create fresh c.id c.linkData c.linkDataType).linkToPartId = c.linkToPartId ∧
    (create fresh c.id c.linkData c.linkDataType).id = (if c.id.isNull then fresh else c.id) ∧
    (c.linkToPartId.isNull = true → c.linkData = "" ∧ c.linkDataType = "") ∧
    (linkData.isEmpty = true ∨ linkDataType ≠ "partId" →
      (create fresh withId linkData linkDataType).linkToPartId = QUuid.null) := by
  refine ⟨?_, create_id _ _ _ _, ?_, ?_⟩
  · rw [create_linkToPartId]
    by_cases h : c.linkToPartId.isNull = true
    · have hn : c.linkToPartId = QUuid.null := by simpa [QUuid.isNull] using h
      simp only [Component.linkData, Component.linkDataType, h, if_true]
      simp [hn]
    · have h2 : c.linkToPartId.isNull = false := by simpa using h
      simp [Component.linkData, Component.linkDataType, h2, toString_ne_empty,
        ofString_toString]
  · intro h
    simp [Component.linkData, Component.linkDataType, h]
  · intro h
    rw [create_linkToPartId]
    rcases h with h | h
    · simp [h]
    · have : ¬ ("partId" = linkDataType) := fun e => h e.symm
      simp [this]

end Component

end Dust3d

namespace Dust3d

namespace MeshGenerator

open ComponentNode

/-! ## The component tree of a snapshot -/

theorem mem_nodes_self (t : ComponentNode) : t ∈ t.nodes := by
  cases t <;> simp [nodes]

mutual
theorem nodes_closed : (t : ComponentNode) → ∀ s ∈ t.nodes,
    (∀ x ∈ s.nodes, x ∈ t.nodes) ∧ (∀ q ∈ s.parts, q ∈ t.parts)
  | .part i st p => by
    intro s hs
    simp only [nodes, List.mem_singleton] at hs
    subst hs
    exact ⟨fun x hx => hx, fun q hq => hq⟩
  | .group i st kids => by
    intro s hs
    simp only [nodes, List.mem_cons] at hs
    rcases hs with rfl | hs
    · exact ⟨fun x hx => hx, fun q hq => hq⟩
    · obtain ⟨h1, h2⟩ := nodesList_closed kids s hs
      refine ⟨fun x hx => ?_, fun q hq => ?_⟩
      · simp only [nodes, List.mem_cons]; exact Or.inr (h1 x hx)
      · simp only [parts]; exact h2 q hq
theorem nodesList_closed : (ts : List ComponentNode) → ∀ s ∈ nodesList ts,
    (∀ x ∈ s.nodes, x ∈ nodesList ts) ∧ (∀ q ∈ s.parts, q ∈ partsList ts)
  | [] => by
    intro s hs
    simp [nodesList] at hs
  | t :: ts => by
    intro s hs
    simp only [nodesList, List.mem_append] at hs
    rcases hs with hs | hs
    · obtain ⟨h1, h2⟩ := nodes_closed t s hs
      refine ⟨fun x hx => ?_, fun q hq => ?_⟩
      · simp only [nodesList, List.mem_append]; exact Or.inl (h1 x hx)
      · simp only [partsList, List.mem_append]; exact Or.inl (h2 q hq)
    · obtain ⟨h1, h2⟩ := nodesList_closed ts s hs
      refine ⟨fun x hx => ?_, fun q hq => ?_⟩
      · simp only [nodesList, List.mem_append]; exact Or.inr (h1 x hx)
      · simp only [partsList, List.mem_append]; exact Or.inr (h2 q hq)
end

/-! ## Dirty determination -/

mutual
theorem dirty_iff : (cache : GeneratedCacheContext) → (t : ComponentNode) →
    (checkIsComponentDirty cache t = false ↔
      (∀ s ∈ t.nodes, isComponentChanged cache s = false) ∧
        ∀ q ∈ t.parts, checkIsPartDirty cache q = false)
  | cache, .part i st p => by
    simp only [checkIsComponentDirty, nodes, parts, List.mem_singleton, forall_eq,
      Bool.or_eq_false_iff]
  | cache, .group i st kids => by
    have ih := anyDirty_iff cache kids
    simp only [checkIsComponentDirty, nodes, parts, List.mem_cons, forall_eq_or_imp,
      Bool.or_eq_false_iff, ih]
    tauto
theorem anyDirty_iff : (cache : GeneratedCacheContext) → (ts : List ComponentNode) →
    (anyComponentDirty cache ts = false ↔
      (∀ s ∈ nodesList ts, isComponentChanged cache s = false) ∧
        ∀ q ∈ partsList ts, checkIsPartDirty cache q = false)
  | cache, [] => by
    simp [anyComponentDirty, nodesList, partsList]
  | cache, t :: ts => by
    have ih1 := dirty_iff cache t
    have ih2 := anyDirty_iff cache ts
    simp only [anyComponentDirty, nodesList, partsList, List.mem_append, Bool.or_eq_false_iff,
      ih1, ih2]
    constructor
    · rintro ⟨⟨a, b⟩, c, d⟩
      exact ⟨fun s hs => hs.elim (a s) (c s), fun q hq => hq.elim (b q) (d q)⟩
    · rintro ⟨a, b⟩
      exact ⟨⟨fun s hs => a s (Or.inl hs), fun q hq => b q (Or.inl hq)⟩,
        fun s hs => a s (Or.inr hs), fun q hq => b q (Or.inr hq)⟩
end

theorem id_inj_of_nodup {α β : Type} (f : α → β) {l : List α} (h : (l.map f).Nodup)
    {x y : α} (hx : x ∈ l) (hy : y ∈ l) (e : f x = f y) : x = y :=
  List.inj_on_of_nodup_map h hx hy e

/-! ## What a pass rebuilds and which cache entries it writes -/

theorem combinePartMesh_rebuilt (K : Kernel) (dP : Finset String)
    (cache : GeneratedCacheContext) (p : PartSnapshot) :
    ∀ k ∈ (combinePartMesh K dP cache p).rebuiltPartIds, k ∈ dP := by
  intro k hk
  unfold combinePartMesh at hk
  split_ifs at hk with h
  · split at hk <;> simp only [List.mem_singleton] at hk <;> exact hk ▸ h
  · simp at hk

mutual
theorem combineComponentMesh_rebuilt (K : Kernel) (dC dP : Finset String) :
    (t : ComponentNode) → ∀ cache : GeneratedCacheContext,
    (∀ k ∈ (combineComponentMesh K dC dP cache t).rebuiltPartIds, k ∈ dP) ∧
      ∀ k ∈ (combineComponentMesh K dC dP cache t).rebuiltComponentIds, k ∈ dC
  | .part i st p => by
    intro cache
    simp only [combineComponentMesh]
    split_ifs with h
    · refine ⟨combinePartMesh_rebuilt K dP cache p, fun k hk => ?_⟩
      simp only [List.mem_singleton] at hk
      exact hk ▸ h
    · simp
  | .group i st kids => by
    intro cache
    have ih := combineChildren_rebuilt K dC dP kids cache
    simp only [combineComponentMesh]
    split_ifs with h h2
    · refine ⟨ih.1, fun k hk => ?_⟩
      simp only [List.mem_cons] at hk
      rcases hk with rfl | hk
      · exact h
      · exact ih.2 k hk
    · refine ⟨ih.1, fun k hk => ?_⟩
      simp only [List.mem_cons] at hk
      rcases hk with rfl | hk
      · exact h
      · exact ih.2 k hk
    · simp
theorem combineChildren_rebuilt (K : Kernel) (dC dP : Finset String) :
    (ts : List ComponentNode) → ∀ cache : GeneratedCacheContext,
    (∀ k ∈ (combineChildren K dC dP cache ts).rebuiltPartIds, k ∈ dP) ∧
      ∀ k ∈ (combineChildren K dC dP cache ts).rebuiltComponentIds, k ∈ dC
  | [] => by
    intro cache
    simp [combineChildren]
  | t :: ts => by
    intro cache
    have ih1 := combineComponentMesh_rebuilt K dC dP t cache
    have ih2 := combineChildren_rebuilt K dC dP ts
      (combineComponentMesh K dC dP cache t).cache
    simp only [combineChildren, List.mem_append]
    exact ⟨fun k hk => hk.elim (ih1.1 k) (ih2.1 k), fun k hk => hk.elim (ih1.2 k) (ih2.2 k)⟩
end

theorem combinePartMesh_frame (K : Kernel) (dP : Finset String)
    (cache : GeneratedCacheContext) (p : PartSnapshot) :
    (combinePartMesh K dP cache p).cache.components = cache.components ∧
      ∀ k, k ≠ p.id → (combinePartMesh K dP cache p).cache.parts k = cache.parts k := by
  unfold combinePartMesh
  split_ifs with h
  · split
    · refine ⟨rfl, fun k hk => ?_⟩
      simp [GeneratedCacheContext.setPart, hk]
    · exact ⟨rfl, fun _ _ => rfl⟩
  · exact ⟨rfl, fun _ _ => rfl⟩

mutual
theorem combineComponentMesh_frame (K : Kernel) (dC dP : Finset String) :
    (t : ComponentNode) → ∀ cache : GeneratedCacheContext,
    (∀ k, k ∉ t.componentIds →
      (combineComponentMesh K dC dP cache t).cache.components k = cache.components k) ∧
    ∀ k, k ∉ t.partIds →
      (combineComponentMesh K dC dP cache t).cache.parts k = cache.parts k
  | .part i st p => by
    intro cache
    obtain ⟨f1, f2⟩ := combinePartMesh_frame K dP cache p
    simp only [combineComponentMesh, componentIds, partIds, nodes, parts, List.map_cons,
      List.map_nil, List.mem_singleton, ComponentNode.id]
    split_ifs with h
    · refine ⟨fun k hk => ?_, fun k hk => ?_⟩
      · simp only [GeneratedCacheContext.setComponent, hk, if_false, f1]
      · simpa [GeneratedCacheContext.setComponent] using f2 k hk
    · exact ⟨fun _ _ => rfl, fun _ _ => rfl⟩
  | .group i st kids => by
    intro cache
    obtain ⟨f1, f2⟩ := combineChildren_frame K dC dP kids cache
    simp only [combineComponentMesh, componentIds, partIds, nodes, parts, List.map_cons,
      List.mem_cons, ComponentNode.id, not_or]
    split_ifs with h h2
    · exact ⟨fun k hk => f1 k hk.2, f2⟩
    · refine ⟨fun k hk => ?_, f2⟩
      simp only [GeneratedCacheContext.setComponent, hk.1, if_false]
      exact f1 k hk.2
    · exact ⟨fun _ _ => rfl, fun _ _ => rfl⟩
theorem combineChildren_frame (K : Kernel) (dC dP : Finset String) :
    (ts : List ComponentNode) → ∀ cache : GeneratedCacheContext,
    (∀ k, k ∉ (nodesList ts).map ComponentNode.id →
      (combineChildren K dC dP cache ts).cache.components k = cache.components k) ∧
    ∀ k, k ∉ (partsList ts).map PartSnapshot.id →
      (combineChildren K dC dP cache ts).cache.parts k = cache.parts k
  | [] => by
    intro cache
    simp [combineChildren]
  | t :: ts => by
    intro cache
    obtain ⟨a1, a2⟩ := combineComponentMesh_frame K dC dP t cache
    obtain ⟨b1, b2⟩ := combineChildren_frame K dC dP ts
      (combineComponentMesh K dC dP cache t).cache
    simp only [combineChildren, nodesList, partsList, List.map_append, List.mem_append, not_or]
    exact ⟨fun k hk => (b1 k hk.2).trans (a1 k hk.1), fun k hk => (b2 k hk.2).trans (a2 k hk.1)⟩
end

/-! ## The cache after a pass without failure -/

theorem isComponentChanged_congr {c d : GeneratedCacheContext} {t : ComponentNode}
    (h : c.components t.id = d.components t.id) :
    isComponentChanged c t = isComponentChanged d t := by
  simp only [isComponentChanged, h]

theorem checkIsPartDirty_congr {c d : GeneratedCacheContext} {p : PartSnapshot}
    (h : c.parts p.id = d.parts p.id) : checkIsPartDirty c p = checkIsPartDirty d p := by
  simp only [checkIsPartDirty, h]

theorem not_dirty_of_not_mem {dC : Finset String} {c0 : GeneratedCacheContext}
    {t : ComponentNode} (h : t.id ∈ dC ↔ checkIsComponentDirty c0 t = true) (hn : t.id ∉ dC) :
    checkIsComponentDirty c0 t = false := by
  cases hd : checkIsComponentDirty c0 t
  · rfl
  · exact absurd (h.mpr hd) hn

mutual
theorem combineComponentMesh_warm (K : Kernel) (dC dP : Finset String)
    (c0 : GeneratedCacheContext) : (t : ComponentNode) → ∀ c : GeneratedCacheContext,
    (∀ s ∈ t.nodes, (s.id ∈ dC ↔ checkIsComponentDirty c0 s = true)) →
    (∀ q ∈ t.parts, (q.id ∈ dP ↔ checkIsPartDirty c0 q = true)) →
    (∀ k ∈ t.componentIds, c.components k = c0.components k) →
    (∀ k ∈ t.partIds, c.parts k = c0.parts k) →
    t.componentIds.Nodup → t.partIds.Nodup →
    (combineComponentMesh K dC dP c t).failedIds = [] →
    ((∀ s ∈ t.nodes,
        isComponentChanged (combineComponentMesh K dC dP c t).cache s = false) ∧
      (∀ q ∈ t.parts, checkIsPartDirty (combineComponentMesh K dC dP c t).cache q = false)) ∧
    (combineComponentMesh K dC dP c t).mesh =
      ((combineComponentMesh K dC dP c t).cache.components t.id).bind GeneratedComponent.mesh
  | .part i st p => by
    intro c hdC hdP hc hp _ _ hok
    have hci : c.components i = c0.components i :=
      hc i (by simp [componentIds, nodes, ComponentNode.id])
    have hpi : c.parts p.id = c0.parts p.id := hp p.id (by simp [partIds, parts])
    have hdCi := hdC (.part i st p) (mem_nodes_self _)
    have hdPi := hdP p (by simp [parts])
    simp only [ComponentNode.id] at hdCi
    by_cases h : i ∈ dC
    · by_cases h2 : p.id ∈ dP
      · cases hb : K.build p.definition with
        | none => simp [combineComponentMesh, combinePartMesh, h, h2, hb] at hok
        | some m =>
          simp [combineComponentMesh, combinePartMesh, h, h2, hb, nodes, parts,
            isComponentChanged, checkIsPartDirty, GeneratedCacheContext.setComponent,
            GeneratedCacheContext.setPart, ComponentNode.id]
      · have hnd : checkIsPartDirty c p = false := by
          rw [checkIsPartDirty_congr hpi]
          cases hd : checkIsPartDirty c0 p
          · rfl
          · exact absurd (hdPi.mpr hd) h2
        simp [combineComponentMesh, combinePartMesh, h, h2, nodes, parts,
          isComponentChanged, GeneratedCacheContext.setComponent, ComponentNode.id]
        simpa [checkIsPartDirty] using hnd
    · have hnd := (dirty_iff c0 (.part i st p)).mp (not_dirty_of_not_mem hdCi h)
      simp only [nodes, parts, List.mem_singleton, forall_eq] at hnd
      simp only [combineComponentMesh, h, if_false, nodes, parts, List.mem_singleton, forall_eq,
        ComponentNode.id, and_true]
      refine ⟨?_, ?_⟩
      · rw [isComponentChanged_congr (d := c0) (by simpa [ComponentNode.id] using hci)]
        exact hnd.1
      · rw [checkIsPartDirty_congr hpi]; exact hnd.2
  | .group i st kids => by
    intro c hdC hdP hc hp hndC hndP hok
    have hci : c.components i = c0.components i :=
      hc i (by simp [componentIds, nodes, ComponentNode.id])
    have hdCi := hdC (.group i st kids) (mem_nodes_self _)
    simp only [ComponentNode.id] at hdCi
    by_cases h : i ∈ dC
    · have ih := combineChildren_warm K dC dP c0 kids c
        (fun s hs => hdC s (by simp [nodes, hs]))
        (fun q hq => hdP q (by simpa [parts] using hq))
        (fun k hk => hc k (by
          simp only [componentIds, nodes, List.map_cons, List.mem_cons]; exact Or.inr hk))
        (fun k hk => hp k (by simpa [partIds, parts] using hk))
        (by
          simp only [componentIds, nodes, List.map_cons, List.nodup_cons] at hndC
          exact hndC.2)
        (by simpa [partIds, parts] using hndP)
      have hi : i ∉ (nodesList kids).map ComponentNode.id := by
        simp only [componentIds, nodes, List.map_cons, List.nodup_cons, ComponentNode.id]
          at hndC
        exact hndC.1
      by_cases h2 : (combineMultipleMeshes K none
          (combineChildren K dC dP c kids).meshes).2 = true
      · simp [combineComponentMesh, h, h2] at hok
      · simp only [combineComponentMesh, h, h2, if_true, if_false, Bool.false_eq_true] at hok ⊢
        obtain ⟨w1, w2⟩ := ih hok
        refine ⟨⟨fun s hs => ?_, fun q hq => ?_⟩, ?_⟩
        · simp only [nodes, List.mem_cons] at hs
          rcases hs with rfl | hs
          · simp [isComponentChanged, GeneratedCacheContext.setComponent, ComponentNode.id]
          · have hne : s.id ≠ i := fun e => hi (e ▸ List.mem_map_of_mem _ hs)
            rw [← w1 s hs]
            apply isComponentChanged_congr
            simp [GeneratedCacheContext.setComponent, hne]
        · rw [← w2 q (by simpa [parts] using hq)]
          apply checkIsPartDirty_congr
          simp [GeneratedCacheContext.setComponent]
        · simp [GeneratedCacheContext.setComponent, ComponentNode.id]
    · have hnd := (dirty_iff c0 (.group i st kids)).mp (not_dirty_of_not_mem hdCi h)
      simp only [combineComponentMesh, h, if_false, ComponentNode.id, and_true]
      refine ⟨fun s hs => ?_, fun q hq => ?_⟩
      · rw [isComponentChanged_congr (d := c0) (hc s.id (List.mem_map_of_mem _ hs))]
        exact hnd.1 s hs
      · rw [checkIsPartDirty_congr (d := c0) (hp q.id (List.mem_map_of_mem _ hq))]
        exact hnd.2 q hq
theorem combineChildren_warm (K : Kernel) (dC dP : Finset String)
    (c0 : GeneratedCacheContext) : (ts : List ComponentNode) → ∀ c : GeneratedCacheContext,
    (∀ s ∈ nodesList ts, (s.id ∈ dC ↔ checkIsComponentDirty c0 s = true)) →
    (∀ q ∈ partsList ts, (q.id ∈ dP ↔ checkIsPartDirty c0 q = true)) →
    (∀ k ∈ (nodesList ts).map ComponentNode.id, c.components k = c0.components k) →
    (∀ k ∈ (partsList ts).map PartSnapshot.id, c.parts k = c0.parts k) →
    ((nodesList ts).map ComponentNode.id).Nodup →
    ((partsList ts).map PartSnapshot.id).Nodup →
    (combineChildren K dC dP c ts).failedIds = [] →
    (∀ s ∈ nodesList ts, isComponentChanged (combineChildren K dC dP c ts).cache s = false) ∧
      ∀ q ∈ partsList ts, checkIsPartDirty (combineChildren K dC dP c ts).cache q = false
  | [] => by
    intro c _ _ _ _ _ _ _
    simp [nodesList, partsList]
  | t :: ts => by
    intro c hdC hdP hc hp hndC hndP hok
    simp only [nodesList, partsList, List.map_append, List.mem_append] at hdC hdP hc hp
    simp only [nodesList, partsList, List.map_append] at hndC hndP
    obtain ⟨nC1, nC2, dCs⟩ := List.nodup_append.mp hndC
    obtain ⟨nP1, nP2, dPs⟩ := List.nodup_append.mp hndP
    simp only [combineChildren, List.append_eq_nil] at hok
    obtain ⟨fr1, fr2⟩ := combineComponentMesh_frame K dC dP t c
    obtain ⟨gr1, gr2⟩ :=
      combineChildren_frame K dC dP ts (combineComponentMesh K dC dP c t).cache
    obtain ⟨⟨w1, w2⟩, _⟩ := combineComponentMesh_warm K dC dP c0 t c
      (fun s hs => hdC s (Or.inl hs)) (fun q hq => hdP q (Or.inl hq))
      (fun k hk => hc k (Or.inl hk)) (fun k hk => hp k (Or.inl hk)) nC1 nP1 hok.1
    obtain ⟨v1, v2⟩ := combineChildren_warm K dC dP c0 ts
      (combineComponentMesh K dC dP c t).cache
      (fun s hs => hdC s (Or.inr hs)) (fun q hq => hdP q (Or.inr hq))
      (fun k hk => (fr1 k (fun e => dCs e hk)).trans (hc k (Or.inr hk)))
      (fun k hk => (fr2 k (fun e => dPs e hk)).trans (hp k (Or.inr hk))) nC2 nP2 hok.2
    simp only [combineChildren, nodesList, partsList, List.mem_append]
    refine ⟨fun s hs => ?_, fun q hq => ?_⟩
    · rcases hs with hs | hs
      · rw [← w1 s hs]
        exact isComponentChanged_congr
          (gr1 s.id (fun e => dCs (List.mem_map_of_mem _ hs) e))
      · exact v1 s hs
    · rcases hq with hq | hq
      · rw [← w2 q hq]
        exact checkIsPartDirty_congr
          (gr2 q.id (fun e => dPs (List.mem_map_of_mem _ hq) e))
      · exact v2 q hq
end

/-! ## The claims on the dirty set and on re-running a pass -/

theorem generate_some (K : Kernel) (cache : GeneratedCacheContext) (snapshot : Snapshot) :
    generate K (some cache) snapshot =
      combineComponentMesh K (dirtyComponentIds cache snapshot.root)
        (dirtyPartIds cache snapshot.root) cache snapshot.root := rfl

theorem mem_dirtyComponentIds_iff (cache : GeneratedCacheContext) (root : ComponentNode)
    (hnd : root.componentIds.Nodup) (s : ComponentNode) (hs : s ∈ root.nodes) :
    s.id ∈ dirtyComponentIds cache root ↔ checkIsComponentDirty cache s = true := by
  simp only [dirtyComponentIds, List.mem_toFinset, List.mem_map, List.mem_filter]
  constructor
  · rintro ⟨s2, ⟨h1, h2⟩, h3⟩
    have : s2 = s := id_inj_of_nodup ComponentNode.id hnd h1 hs h3
    exact this ▸ h2
  · intro h
    exact ⟨s, ⟨hs, h⟩, rfl⟩

theorem mem_dirtyPartIds_iff (cache : GeneratedCacheContext) (root : ComponentNode)
    (hnd : root.partIds.Nodup) (q : PartSnapshot) (hq : q ∈ root.parts) :
    q.id ∈ dirtyPartIds cache root ↔ checkIsPartDirty cache q = true := by
  simp only [dirtyPartIds, List.mem_toFinset, List.mem_map, List.mem_filter]
  constructor
  · rintro ⟨q2, ⟨h1, h2⟩, h3⟩
    have : q2 = q := id_inj_of_nodup PartSnapshot.id hnd h1 hq h3
    exact this ▸ h2
  · intro h
    exact ⟨q, ⟨hq, h⟩, rfl⟩

/-- C9 (on the pass modelled from the specification): for a snapshot and a
cache in which every component and every part but one part `p` is as the
cache last built it, and `p` is changed, the dirty part set is exactly `p`,
the dirty component set is exactly the component linking to `p` with all its
ancestors (the root among them), no component of a subtree without `p` is in
it, and a pass rebuilds only parts and components of the dirty sets. -/
theorem single_changed_part_dirties_ancestors (K : Kernel) (snapshot : Snapshot)
    (cache : GeneratedCacheContext) (p : PartSnapshot)
    (hp : p ∈ snapshot.root.parts)
    (hchanged : checkIsPartDirty cache p = true)
    (hparts : ∀ q ∈ snapshot.root.parts, q ≠ p → checkIsPartDirty cache q = false)
    (hcomps : ∀ s ∈ snapshot.root.nodes, isComponentChanged cache s = false) :
    dirtyPartIds cache snapshot.root = {p.id} ∧
    dirtyComponentIds cache snapshot.root = (snapshot.root.ancestorIds p.id).toFinset ∧
    snapshot.root.id ∈ dirtyComponentIds cache snapshot.root ∧
    (∀ s ∈ snapshot.root.nodes, p.id ∉ s.partIds →
      s.id ∉ dirtyComponentIds cache snapshot.root) ∧
    (∀ k ∈ (generate K (some cache) snapshot).rebuiltPartIds,
      k ∈ dirtyPartIds cache snapshot.root) ∧
    (∀ k ∈ (generate K (some cache) snapshot).rebuiltComponentIds,
      k ∈ dirtyComponentIds cache snapshot.root) := by
  have hkey : ∀ s ∈ snapshot.root.nodes,
      (checkIsComponentDirty cache s = true ↔ p.id ∈ s.partIds) := by
    intro s hs
    obtain ⟨hn, hq⟩ := nodes_closed snapshot.root s hs
    constructor
    · intro hd
      by_contra hnot
      have : checkIsComponentDirty cache s = false := by
        rw [dirty_iff]
        refine ⟨fun x hx => hcomps x (hn x hx), fun q hqs => hparts q (hq q hqs) ?_⟩
        rintro rfl
        exact hnot (List.mem_map_of_mem _ hqs)
      rw [this] at hd
      exact Bool.false_ne_true hd
    · intro hmem
      obtain ⟨q, hqs, hqid⟩ := List.mem_map.mp hmem
      have hqp : q = p :=
        id_inj_of_nodup PartSnapshot.id snapshot.partIds_nodup (hq q hqs) hp hqid
      cases hd : checkIsComponentDirty cache s
      · have := ((dirty_iff cache s).mp hd).2 q hqs
        rw [hqp, hchanged] at this
        exact absurd this (by decide)
      · rfl
  have hC : dirtyComponentIds cache snapshot.root =
      (snapshot.root.ancestorIds p.id).toFinset := by
    unfold dirtyComponentIds ancestorIds
    congr 2
    apply List.filter_congr
    intro s hs
    by_cases h : p.id ∈ s.partIds
    · simp [h, (hkey s hs).mpr h]
    · have : checkIsComponentDirty cache s = false := by
        cases hd : checkIsComponentDirty cache s
        · rfl
        · exact absurd ((hkey s hs).mp hd) h
      simp [h, this]
  refine ⟨?_, hC, ?_, ?_, ?_, ?_⟩
  · ext k
    simp only [dirtyPartIds, List.mem_toFinset, List.mem_map, List.mem_filter,
      Finset.mem_singleton]
    constructor
    · rintro ⟨q, ⟨h1, h2⟩, rfl⟩
      by_contra hne
      have hqp : q ≠ p := fun e => hne (e ▸ rfl)
      rw [hparts q h1 hqp] at h2
      exact Bool.false_ne_true h2
    · rintro rfl
      exact ⟨p, ⟨hp, hchanged⟩, rfl⟩
  · rw [mem_dirtyComponentIds_iff cache snapshot.root snapshot.componentIds_nodup _
      (mem_nodes_self _)]
    exact (hkey _ (mem_nodes_self _)).mpr (List.mem_map_of_mem _ hp)
  · intro s hs hnot hmem
    rw [mem_dirtyComponentIds_iff cache snapshot.root snapshot.componentIds_nodup s hs] at hmem
    exact hnot ((hkey s hs).mp hmem)
  · rw [generate_some]
    exact (combineComponentMesh_rebuilt K _ _ snapshot.root cache).1
  · rw [generate_some]
    exact (combineComponentMesh_rebuilt K _ _ snapshot.root cache).2

/-- After a full pass on the sample tree, changing the radius of part `pb`
dirties `pb` and the components `b`, `g` and `root`. -/
theorem single_changed_part_dirties_ancestors_witness :
    (⟨"pb", ⟨["n3"], 3, "", false⟩⟩ : PartSnapshot) ∈ changedSnapshot.root.parts ∧
    dirtyPartIds (generate sampleKernel none sampleSnapshot).cache changedSnapshot.root
      = {"pb"} ∧
    dirtyComponentIds (generate sampleKernel none sampleSnapshot).cache changedSnapshot.root
      = {"root", "g", "b"} :=
  ⟨by decide,
    (single_changed_part_dirties_ancestors sampleKernel changedSnapshot
      (generate sampleKernel none sampleSnapshot).cache ⟨"pb", ⟨["n3"], 3, "", false⟩⟩
      (by decide) (by decide) (by decide) (by decide)).1,
    (single_changed_part_dirties_ancestors sampleKernel changedSnapshot
      (generate sampleKernel none sampleSnapshot).cache ⟨"pb", ⟨["n3"], 3, "", false⟩⟩
      (by decide) (by decide) (by decide) (by decide)).2.1.trans (by decide)⟩

theorem combineComponentMesh_clean (K : Kernel) (cache : GeneratedCacheContext)
    (t : ComponentNode) :
    (combineComponentMesh K ∅ ∅ cache t).mesh =
        (cache.components t.id).bind GeneratedComponent.mesh ∧
      (combineComponentMesh K ∅ ∅ cache t).rebuiltPartIds = [] ∧
      (combineComponentMesh K ∅ ∅ cache t).rebuiltComponentIds = [] ∧
      (combineComponentMesh K ∅ ∅ cache t).failedIds = [] ∧
      (combineComponentMesh K ∅ ∅ cache t).cache.components = cache.components ∧
      (combineComponentMesh K ∅ ∅ cache t).cache.parts = cache.parts := by
  cases t <;> simp [combineComponentMesh, ComponentNode.id]

theorem combineComponentMesh_mesh_entry (K : Kernel) (dC dP : Finset String)
    (c : GeneratedCacheContext) (t : ComponentNode)
    (h : ((combineComponentMesh K dC dP c t).cache.components t.id).isSome = true) :
    (combineComponentMesh K dC dP c t).mesh =
      ((combineComponentMesh K dC dP c t).cache.components t.id).bind
        GeneratedComponent.mesh := by
  cases t with
  | part i st p =>
    simp only [combineComponentMesh, ComponentNode.id] at h ⊢
    split_ifs with hi
    · simp [GeneratedCacheContext.setComponent]
    · rfl
  | group i st kids =>
    simp only [combineComponentMesh, ComponentNode.id] at h ⊢
    split_ifs at h ⊢ with hi h2
    · simp only at h ⊢
      cases hg : (combineChildren K dC dP c kids).cache.components i with
      | none => rw [hg] at h; exact absurd h (by decide)
      | some g => rfl
    · simp [GeneratedCacheContext.setComponent]
    · rfl

theorem combineComponentMesh_rebuilds_self (K : Kernel) (dC dP : Finset String)
    (c : GeneratedCacheContext) (t : ComponentNode) (h : t.id ∈ dC) :
    t.id ∈ (combineComponentMesh K dC dP c t).rebuiltComponentIds := by
  cases t with
  | part i st p =>
    simp only [ComponentNode.id] at h
    simp [combineComponentMesh, h, ComponentNode.id]
  | group i st kids =>
    simp only [ComponentNode.id] at h
    simp only [combineComponentMesh, h, if_true, ComponentNode.id]
    split_ifs <;> simp

theorem combinePartMesh_keeps_failed (K : Kernel) (dP : Finset String)
    (cache : GeneratedCacheContext) (p : PartSnapshot) (k : String)
    (h : p.id = k → K.build p.definition = none) :
    (combinePartMesh K dP cache p).cache.parts k = cache.parts k := by
  unfold combinePartMesh
  split_ifs with hd
  · cases hb : K.build p.definition with
    | none => rfl
    | some m =>
      have hne : k ≠ p.id := fun e => by
        rw [h e.symm] at hb
        exact Option.noConfusion hb
      simp [GeneratedCacheContext.setPart, hne]
  · rfl

mutual
theorem combineComponentMesh_keeps_failed (K : Kernel) (dC dP : Finset String) (k : String) :
    (t : ComponentNode) → ∀ cache : GeneratedCacheContext,
    (∀ p ∈ t.parts, p.id = k → K.build p.definition = none) →
    (combineComponentMesh K dC dP cache t).cache.parts k = cache.parts k
  | .part i st p => by
    intro cache h
    have hp := combinePartMesh_keeps_failed K dP cache p k (h p (by simp [parts]))
    simp only [combineComponentMesh]
    split_ifs
    · simpa [GeneratedCacheContext.setComponent] using hp
    · rfl
  | .group i st kids => by
    intro cache h
    have ih := combineChildren_keeps_failed K dC dP k kids cache
      (fun p hp => h p (by simpa [parts] using hp))
    simp only [combineComponentMesh]
    split_ifs
    · exact ih
    · simpa [GeneratedCacheContext.setComponent] using ih
    · rfl
theorem combineChildren_keeps_failed (K : Kernel) (dC dP : Finset String) (k : String) :
    (ts : List ComponentNode) → ∀ cache : GeneratedCacheContext,
    (∀ p ∈ partsList ts, p.id = k → K.build p.definition = none) →
    (combineChildren K dC dP cache ts).cache.parts k = cache.parts k
  | [] => by
    intro cache _
    simp [combineChildren]
  | t :: ts => by
    intro cache h
    simp only [partsList, List.mem_append] at h
    have a := combineComponentMesh_keeps_failed K dC dP k t cache
      (fun p hp => h p (Or.inl hp))
    have b := combineChildren_keeps_failed K dC dP k ts
      (combineComponentMesh K dC dP cache t).cache (fun p hp => h p (Or.inr hp))
    simp only [combineChildren]
    exact b.trans a
end

mutual
theorem combineComponentMesh_rebuilds_part (K : Kernel) (dC dP : Finset String)
    (q : PartSnapshot) (hq : q.id ∈ dP) :
    (t : ComponentNode) → ∀ cache : GeneratedCacheContext,
    q ∈ t.parts → (∀ s ∈ t.nodes, q ∈ s.parts → s.id ∈ dC) →
    q.id ∈ (combineComponentMesh K dC dP cache t).rebuiltPartIds
  | .part i st p => by
    intro cache hmem hall
    have hi : i ∈ dC := hall _ (mem_nodes_self _) hmem
    simp only [parts, List.mem_singleton] at hmem
    subst hmem
    simp only [combineComponentMesh, hi, if_true, combinePartMesh, hq]
    split <;> simp
  | .group i st kids => by
    intro cache hmem hall
    have hi : i ∈ dC := hall _ (mem_nodes_self _) hmem
    have ih := combineChildren_rebuilds_part K dC dP q hq kids cache
      (by simpa [parts] using hmem) (fun s hs => hall s (by simp [nodes, hs]))
    simp only [combineComponentMesh, hi, if_true]
    split_ifs <;> exact ih
theorem combineChildren_rebuilds_part (K : Kernel) (dC dP : Finset String)
    (q : PartSnapshot) (hq : q.id ∈ dP) :
    (ts : List ComponentNode) → ∀ cache : GeneratedCacheContext,
    q ∈ partsList ts → (∀ s ∈ nodesList ts, q ∈ s.parts → s.id ∈ dC) →
    q.id ∈ (combineChildren K dC dP cache ts).rebuiltPartIds
  | [] => by
    intro cache hmem _
    simp [partsList] at hmem
  | t :: ts => by
    intro cache hmem hall
    simp only [partsList, List.mem_append] at hmem
    simp only [nodesList, List.mem_append] at hall
    simp only [combineChildren, List.mem_append]
    rcases hmem with hmem | hmem
    · exact Or.inl (combineComponentMesh_rebuilds_part K dC dP q hq t cache hmem
        (fun s hs => hall s (Or.inl hs)))
    · exact Or.inr (combineChildren_rebuilds_part K dC dP q hq ts _ hmem
        (fun s hs => hall s (Or.inr hs)))
end

theorem checkDirtyFlags_empty_iff (cache : GeneratedCacheContext) (snapshot : Snapshot) :
    checkDirtyFlags cache snapshot.root = (∅, ∅) ↔
      checkIsComponentDirty cache snapshot.root = false := by
  constructor
  · intro h
    have hC : dirtyComponentIds cache snapshot.root = ∅ := congrArg Prod.fst h
    cases hd : checkIsComponentDirty cache snapshot.root
    · rfl
    · have := (mem_dirtyComponentIds_iff cache snapshot.root snapshot.componentIds_nodup
        snapshot.root (mem_nodes_self _)).mpr hd
      rw [hC] at this
      exact absurd this (Finset.not_mem_empty _)
  · intro h
    obtain ⟨c1, c2⟩ := (dirty_iff cache snapshot.root).mp h
    have hC : snapshot.root.nodes.filter (checkIsComponentDirty cache) = [] := by
      rw [List.filter_eq_nil_iff]
      intro s hs
      obtain ⟨hn, hq⟩ := nodes_closed snapshot.root s hs
      have := (dirty_iff cache s).mpr ⟨fun x hx => c1 x (hn x hx), fun q hqs => c2 q (hq q hqs)⟩
      simp [this]
    have hP : snapshot.root.parts.filter (checkIsPartDirty cache) = [] := by
      rw [List.filter_eq_nil_iff]
      intro q hq
      simp [c2 q hq]
    simp [checkDirtyFlags, dirtyComponentIds, dirtyPartIds, hC, hP]

/-- C10, as stated, fails on the pass modelled from the specification.  A pass
on the chain tree leaves a warm cache; node `n5` is then removed from part
`pb`.  The first pass on the new snapshot runs with that cache, and the
builder fails on the degenerate chain, so `pb` keeps the entry built from the
old definition.  The second pass on the unchanged snapshot, with the cache
left by the first, yields the same final mesh but finds `pb` dirty again: it
invokes the builder on `pb` again and recombines `b` and the root. -/
theorem second_pass_rebuilds_after_failure :
    (generate chainKernel (some (generate chainKernel none longChainSnapshot).cache)
      shortChainSnapshot).failedIds = ["pb"] ∧
    (generate chainKernel
      (some (generate chainKernel (some (generate chainKernel none longChainSnapshot).cache)
        shortChainSnapshot).cache) shortChainSnapshot).mesh =
      (generate chainKernel (some (generate chainKernel none longChainSnapshot).cache)
        shortChainSnapshot).mesh ∧
    (generate chainKernel
      (some (generate chainKernel (some (generate chainKernel none longChainSnapshot).cache)
        shortChainSnapshot).cache) shortChainSnapshot).rebuiltPartIds = ["pb"] ∧
    (generate chainKernel
      (some (generate chainKernel (some (generate chainKernel none longChainSnapshot).cache)
        shortChainSnapshot).cache) shortChainSnapshot).rebuiltComponentIds = ["root", "b"] := by
  decide

/-- C10, amended (on the pass modelled from the specification): a second pass
on the unchanged snapshot with the cache left by the first rebuilds no part
and no component exactly when the first pass left nothing dirty, and then it
yields the same final mesh as the first pass; the first pass leaves nothing
dirty whenever no part build and no combination failed in it.  When it left
something dirty the second pass recombines at least the root.  A dirty part on
which the builder fails keeps the cache entry it had, is dirty again after the
pass, and is rebuilt by the second pass. -/
theorem second_pass_on_warm_cache (K : Kernel) (cacheContext : Option GeneratedCacheContext)
    (snapshot : Snapshot) :
    ((generate K cacheContext snapshot).failedIds = [] →
      checkDirtyFlags (generate K cacheContext snapshot).cache snapshot.root = (∅, ∅)) ∧
    (checkDirtyFlags (generate K cacheContext snapshot).cache snapshot.root = (∅, ∅) →
      (generate K (some (generate K cacheContext snapshot).cache) snapshot).mesh =
        (generate K cacheContext snapshot).mesh ∧
      (generate K (some (generate K cacheContext snapshot).cache) snapshot).rebuiltPartIds
        = [] ∧
      (generate K (some (generate K cacheContext snapshot).cache) snapshot).rebuiltComponentIds
        = [] ∧
      (generate K (some (generate K cacheContext snapshot).cache) snapshot).failedIds = []) ∧
    (checkDirtyFlags (generate K cacheContext snapshot).cache snapshot.root ≠ (∅, ∅) →
      snapshot.root.id ∈
        (generate K (some (generate K cacheContext snapshot).cache)
          snapshot).rebuiltComponentIds) ∧
    (∀ q ∈ snapshot.root.parts,
      checkIsPartDirty (cacheContext.getD GeneratedCacheContext.empty) q = true →
      K.build q.definition = none →
      (generate K cacheContext snapshot).cache.parts q.id
        = (cacheContext.getD GeneratedCacheContext.empty).parts q.id ∧
      checkIsPartDirty (generate K cacheContext snapshot).cache q = true ∧
      q.id ∈ (generate K (some (generate K cacheContext snapshot).cache)
        snapshot).rebuiltPartIds) := by
  have hgen : generate K cacheContext snapshot =
      generate K (some (cacheContext.getD GeneratedCacheContext.empty)) snapshot := rfl
  rw [hgen]
  generalize cacheContext.getD GeneratedCacheContext.empty = c0
  refine ⟨fun hok => ?_, fun hflags => ?_, fun hflags => ?_, fun q hq hdirty hfail => ?_⟩
  · rw [generate_some K c0] at hok ⊢
    obtain ⟨⟨w1, w2⟩, _⟩ := combineComponentMesh_warm K (dirtyComponentIds c0 snapshot.root)
      (dirtyPartIds c0 snapshot.root) c0 snapshot.root c0
      (mem_dirtyComponentIds_iff c0 snapshot.root snapshot.componentIds_nodup)
      (mem_dirtyPartIds_iff c0 snapshot.root snapshot.partIds_nodup)
      (fun _ _ => rfl) (fun _ _ => rfl) snapshot.componentIds_nodup snapshot.partIds_nodup hok
    exact (checkDirtyFlags_empty_iff _ snapshot).mpr ((dirty_iff _ _).mpr ⟨w1, w2⟩)
  · have hC : dirtyComponentIds (generate K (some c0) snapshot).cache snapshot.root = ∅ :=
      congrArg Prod.fst hflags
    have hP : dirtyPartIds (generate K (some c0) snapshot).cache snapshot.root = ∅ :=
      congrArg Prod.snd hflags
    have hroot := ((dirty_iff _ _).mp ((checkDirtyFlags_empty_iff _ snapshot).mp hflags)).1
      snapshot.root (mem_nodes_self _)
    have hsome : ((generate K (some c0) snapshot).cache.components snapshot.root.id).isSome
        = true := by
      cases hg : (generate K (some c0) snapshot).cache.components snapshot.root.id with
      | none => simp [isComponentChanged, hg] at hroot
      | some g => rfl
    obtain ⟨m1, m2, m3, m4, _⟩ :=
      combineComponentMesh_clean K (generate K (some c0) snapshot).cache snapshot.root
    rw [generate_some K (generate K (some c0) snapshot).cache, hC, hP]
    refine ⟨?_, m2, m3, m4⟩
    rw [m1]
    rw [generate_some K c0] at hsome ⊢
    exact (combineComponentMesh_mesh_entry K _ _ c0 snapshot.root hsome).symm
  · have hd : checkIsComponentDirty (generate K (some c0) snapshot).cache snapshot.root
        = true := by
      cases h : checkIsComponentDirty (generate K (some c0) snapshot).cache snapshot.root
      · exact absurd ((checkDirtyFlags_empty_iff _ snapshot).mpr h) hflags
      · rfl
    rw [generate_some K (generate K (some c0) snapshot).cache]
    exact combineComponentMesh_rebuilds_self K _ _ _ snapshot.root
      ((mem_dirtyComponentIds_iff _ snapshot.root snapshot.componentIds_nodup
        snapshot.root (mem_nodes_self _)).mpr hd)
  · have hkept : (generate K (some c0) snapshot).cache.parts q.id = c0.parts q.id := by
      rw [generate_some K c0]
      refine combineComponentMesh_keeps_failed K _ _ q.id snapshot.root c0 (fun p hp e => ?_)
      rw [id_inj_of_nodup PartSnapshot.id snapshot.partIds_nodup hp hq e]
      exact hfail
    have hd : checkIsPartDirty (generate K (some c0) snapshot).cache q = true := by
      rw [checkIsPartDirty_congr hkept]
      exact hdirty
    refine ⟨hkept, hd, ?_⟩
    rw [generate_some K (generate K (some c0) snapshot).cache]
    refine combineComponentMesh_rebuilds_part K _ _ q
      ((mem_dirtyPartIds_iff _ snapshot.root snapshot.partIds_nodup q hq).mpr hd)
      snapshot.root _ hq (fun s hs hqs => ?_)
    rw [mem_dirtyComponentIds_iff _ snapshot.root snapshot.componentIds_nodup s hs]
    cases h : checkIsComponentDirty (generate K (some c0) snapshot).cache s
    · have := ((dirty_iff _ s).mp h).2 q hqs
      rw [hd] at this
      exact absurd this (by decide)
    · rfl

/-- Two passes of the kernel that never fails on the sample tree rebuild
nothing the second time.  When the geometric kernel fails for the pair inside
`g` of the edited pair tree, `g` keeps its entry, nothing is dirty after the
pass, and the second pass rebuilds nothing.  When the builder fails on part
`pb` of the shortened chain, the second pass builds `pb` again. -/
theorem second_pass_on_warm_cache_witness :
    (generate sampleKernel (some (generate sampleKernel none sampleSnapshot).cache)
      sampleSnapshot).mesh = some ⟨[(1, 0, 0), (2, 0, 0), (1, 0, 0)], []⟩ ∧
    (generate sampleKernel (some (generate sampleKernel none sampleSnapshot).cache)
      sampleSnapshot).rebuiltComponentIds = [] ∧
    (generate pairFailingKernel (some (generate sampleKernel none firstPairSnapshot).cache)
      editedPairSnapshot).failedIds = ["g"] ∧
    (generate pairFailingKernel
      (some (generate pairFailingKernel
        (some (generate sampleKernel none firstPairSnapshot).cache) editedPairSnapshot).cache)
      editedPairSnapshot).rebuiltComponentIds = [] ∧
    "pb" ∈ (generate chainKernel
      (some (generate chainKernel (some (generate chainKernel none longChainSnapshot).cache)
        shortChainSnapshot).cache) shortChainSnapshot).rebuiltPartIds :=
  ⟨((second_pass_on_warm_cache sampleKernel none sampleSnapshot).2.1
      ((second_pass_on_warm_cache sampleKernel none sampleSnapshot).1 (by decide))).1.trans
      (by decide),
    ((second_pass_on_warm_cache sampleKernel none sampleSnapshot).2.1
      ((second_pass_on_warm_cache sampleKernel none sampleSnapshot).1 (by decide))).2.2.1,
    by decide,
    ((second_pass_on_warm_cache pairFailingKernel
      (some (generate sampleKernel none firstPairSnapshot).cache) editedPairSnapshot).2.1
      (by decide)).2.2.1,
    ((second_pass_on_warm_cache chainKernel
      (some (generate chainKernel none longChainSnapshot).cache) shortChainSnapshot).2.2.2
      ⟨"pb", ⟨["n3"], 1, "", false⟩⟩ (by decide) (by decide) (by decide)).2.2⟩

/-! ## Combination in child order -/

theorem foldl_combineStep (K : Kernel) (ms : List (Option Mesh × CombineMode)) :
    ∀ (acc : Option Mesh) (f : Bool),
      ms.foldl (combineStep K) (acc, f) =
        ((combineMultipleMeshes K acc ms).1, f || (combineMultipleMeshes K acc ms).2) := by
  induction ms with
  | nil => intro acc f; simp [combineMultipleMeshes]
  | cons x ms ih =>
    intro acc f
    obtain ⟨m, mode⟩ := x
    cases m with
    | none => simp [combineStep, combineMultipleMeshes, ih]
    | some m =>
      cases acc with
      | none => simp [combineStep, combineMultipleMeshes, ih]
      | some a =>
        cases h : MeshCombiner.combine K a m mode.toMethod with
        | none => simp [combineStep, combineMultipleMeshes, ih, h]
        | some r => simp [combineStep, combineMultipleMeshes, ih, h]

theorem combineChildren_modes (K : Kernel) (dC dP : Finset String) :
    ∀ (ts : List ComponentNode) (cache : GeneratedCacheContext),
      (combineChildren K dC dP cache ts).meshes.map Prod.snd = ts.map ComponentNode.combineMode
  | [], cache => by simp [combineChildren]
  | t :: ts, cache => by
    simp [combineChildren, combineChildren_modes K dC dP ts]

/-- C11 (on the pass modelled from the specification): for the child meshes
A, B, C with the methods union, union on B and C, whose two combinations
succeed, the multi-mesh combination yields combine(combine(A, B, union), C,
union) and notes no failure.  In general it is the left fold of the children
in child order: the first child with geometry seeds the accumulator and each
later one is combined into the running accumulator with its own method; and
the list a component hands to it holds its children in child order, each with
its own method. -/
theorem combination_is_left_fold (K : Kernel) (A B C AB R : Mesh) (modeA : CombineMode)
    (hAB : MeshCombiner.combine K A B Method.Union = some AB)
    (hR : MeshCombiner.combine K AB C Method.Union = some R) :
    combineMultipleMeshes K none
        [(some A, modeA), (some B, CombineMode.Union), (some C, CombineMode.Union)]
      = ((MeshCombiner.combine K A B Method.Union).bind fun ab =>
          MeshCombiner.combine K ab C Method.Union, false) ∧
    (∀ (acc : Option Mesh) (ms : List (Option Mesh × CombineMode)),
      combineMultipleMeshes K acc ms = ms.foldl (combineStep K) (acc, false)) ∧
    (∀ (dC dP : Finset String) (cache : GeneratedCacheContext) (kids : List ComponentNode),
      (combineChildren K dC dP cache kids).meshes.map Prod.snd =
        kids.map ComponentNode.combineMode) := by
  refine ⟨?_, fun acc ms => ?_,
    fun dC dP cache kids => combineChildren_modes K dC dP kids cache⟩
  · simp [combineMultipleMeshes, CombineMode.toMethod, hAB, hR]
  · rw [foldl_combineStep]; simp

/-- Three one-vertex meshes under the kernel that keeps the vertices of both
operands. -/
theorem combination_is_left_fold_witness :
    MeshCombiner.combine sampleKernel ⟨[(1, 0, 0)], []⟩ ⟨[(2, 0, 0)], []⟩ Method.Union
      = some ⟨[(1, 0, 0), (2, 0, 0)], []⟩ ∧
    combineMultipleMeshes sampleKernel none
        [(some ⟨[(1, 0, 0)], []⟩, CombineMode.Union),
          (some ⟨[(2, 0, 0)], []⟩, CombineMode.Union),
          (some ⟨[(3, 0, 0)], []⟩, CombineMode.Union)]
      = (some ⟨[(1, 0, 0), (2, 0, 0), (3, 0, 0)], []⟩, false) :=
  ⟨by decide,
    (combination_is_left_fold sampleKernel ⟨[(1, 0, 0)], []⟩ ⟨[(2, 0, 0)], []⟩
      ⟨[(3, 0, 0)], []⟩ ⟨[(1, 0, 0), (2, 0, 0)], []⟩ ⟨[(1, 0, 0), (2, 0, 0), (3, 0, 0)], []⟩ CombineMode.Union
      (by decide) (by decide)).1.trans (by decide)⟩

/-- C12 (on the combiner modelled from the specification): combining a mesh A
with an empty second operand by the subtract (Diff) method returns A itself,
whatever the geometric kernel would answer; in the multi-mesh combination the
accumulator is unchanged and no failure is noted, also for a child that has no
mesh at all. -/
theorem subtract_empty_is_identity (K : Kernel) (A E : Mesh) (hE : E.isNull = true) :
    MeshCombiner.combine K A E Method.Diff = some A ∧
    combineMultipleMeshes K (some A) [(some E, CombineMode.Subtract)] = (some A, false) ∧
    combineMultipleMeshes K (some A) [(none, CombineMode.Subtract)] = (some A, false) := by
  have h : MeshCombiner.combine K A E Method.Diff = some A := by
    simp [MeshCombiner.combine, hE]
  refine ⟨h, ?_, ?_⟩
  · simp [combineMultipleMeshes, CombineMode.toMethod, h]
  · simp [combineMultipleMeshes]

/-- Subtracting the mesh without vertices and faces under a kernel whose
combination would fail. -/
theorem subtract_empty_is_identity_witness :
    (⟨[], []⟩ : Mesh).isNull = true ∧
    MeshCombiner.combine ⟨fun _ => none, fun _ _ _ => none, fun _ => []⟩
      ⟨[(1, 0, 0)], [[0]]⟩ ⟨[], []⟩ Method.Diff = some ⟨[(1, 0, 0)], [[0]]⟩ :=
  ⟨by decide,
    (subtract_empty_is_identity ⟨fun _ => none, fun _ _ _ => none, fun _ => []⟩
      ⟨[(1, 0, 0)], [[0]]⟩ ⟨[], []⟩ (by decide)).1⟩

/-! ## A pass without a cache -/

theorem combinePartMesh_rebuiltPartIds (K : Kernel) (dP : Finset String)
    (cache : GeneratedCacheContext) (p : PartSnapshot) (h : p.id ∈ dP) :
    (combinePartMesh K dP cache p).rebuiltPartIds = [p.id] := by
  unfold combinePartMesh
  rw [if_pos h]
  split <;> rfl

mutual
theorem combineComponentMesh_all (K : Kernel) (dC dP : Finset String) :
    (t : ComponentNode) → ∀ cache : GeneratedCacheContext,
    (∀ s ∈ t.nodes, s.id ∈ dC) → (∀ q ∈ t.parts, q.id ∈ dP) →
    (combineComponentMesh K dC dP cache t).rebuiltComponentIds = t.componentIds ∧
      (combineComponentMesh K dC dP cache t).rebuiltPartIds = t.partIds
  | .part i st p => by
    intro cache hC hP
    have hi : i ∈ dC := hC _ (mem_nodes_self _)
    have hp : p.id ∈ dP := hP p (by simp [parts])
    simp [combineComponentMesh, hi, combinePartMesh_rebuiltPartIds K dP cache p hp,
      componentIds, partIds, nodes, parts, ComponentNode.id]
  | .group i st kids => by
    intro cache hC hP
    have hi : i ∈ dC := hC _ (mem_nodes_self _)
    obtain ⟨h1, h2⟩ := combineChildren_all K dC dP kids cache
      (fun s hs => hC s (by simp [nodes, hs])) (fun q hq => hP q (by simpa [parts] using hq))
    simp only [combineComponentMesh, hi, if_true, componentIds, partIds, nodes, parts,
      List.map_cons, ComponentNode.id]
    split_ifs <;> simp [h1, h2]
theorem combineChildren_all (K : Kernel) (dC dP : Finset String) :
    (ts : List ComponentNode) → ∀ cache : GeneratedCacheContext,
    (∀ s ∈ nodesList ts, s.id ∈ dC) → (∀ q ∈ partsList ts, q.id ∈ dP) →
    (combineChildren K dC dP cache ts).rebuiltComponentIds
        = (nodesList ts).map ComponentNode.id ∧
      (combineChildren K dC dP cache ts).rebuiltPartIds = (partsList ts).map PartSnapshot.id
  | [] => by
    intro cache _ _
    simp [combineChildren, nodesList, partsList]
  | t :: ts => by
    intro cache hC hP
    simp only [nodesList, partsList, List.mem_append] at hC hP
    obtain ⟨a1, a2⟩ := combineComponentMesh_all K dC dP t cache
      (fun s hs => hC s (Or.inl hs)) (fun q hq => hP q (Or.inl hq))
    obtain ⟨b1, b2⟩ := combineChildren_all K dC dP ts
      (combineComponentMesh K dC dP cache t).cache
      (fun s hs => hC s (Or.inr hs)) (fun q hq => hP q (Or.inr hq))
    simp [combineChildren, nodesList, partsList, List.map_append, a1, a2, b1, b2,
      componentIds, partIds]
end

theorem checkIsComponentDirty_empty (t : ComponentNode) :
    checkIsComponentDirty GeneratedCacheContext.empty t = true := by
  cases t <;>
    simp [checkIsComponentDirty, isComponentChanged, GeneratedCacheContext.empty]

theorem checkIsPartDirty_empty (p : PartSnapshot) :
    checkIsPartDirty GeneratedCacheContext.empty p = true := by
  simp [checkIsPartDirty, GeneratedCacheContext.empty]

/-- C15 (on the pass modelled from the specification): when `generate` runs
without a cache context, every component and every part of the snapshot is in
the dirty sets, and the pass rebuilds every component and every part, each
once, in tree order. -/
theorem no_cache_rebuilds_everything (K : Kernel) (snapshot : Snapshot) :
    checkDirtyFlags GeneratedCacheContext.empty snapshot.root
      = (snapshot.root.componentIds.toFinset, snapshot.root.partIds.toFinset) ∧
    (generate K none snapshot).rebuiltComponentIds = snapshot.root.componentIds ∧
    (generate K none snapshot).rebuiltPartIds = snapshot.root.partIds := by
  have hC : dirtyComponentIds GeneratedCacheContext.empty snapshot.root
      = snapshot.root.componentIds.toFinset := by
    unfold dirtyComponentIds componentIds
    congr 2
    rw [List.filter_eq_self]
    intro s _
    exact checkIsComponentDirty_empty s
  have hP : dirtyPartIds GeneratedCacheContext.empty snapshot.root
      = snapshot.root.partIds.toFinset := by
    unfold dirtyPartIds partIds
    congr 2
    rw [List.filter_eq_self]
    intro q _
    exact checkIsPartDirty_empty q
  have hgen : generate K none snapshot =
      combineComponentMesh K (dirtyComponentIds GeneratedCacheContext.empty snapshot.root)
        (dirtyPartIds GeneratedCacheContext.empty snapshot.root) GeneratedCacheContext.empty
        snapshot.root := rfl
  refine ⟨by simp [checkDirtyFlags, hC, hP], ?_⟩
  rw [hgen, hC, hP]
  exact combineComponentMesh_all K _ _ snapshot.root _
    (fun s hs => List.mem_toFinset.mpr (List.mem_map_of_mem _ hs))
    (fun q hq => List.mem_toFinset.mpr (List.mem_map_of_mem _ hq))

/-! ## What a failed combination leaves alone -/

theorem combinePartMesh_writes (K : Kernel) (dP : Finset String)
    (cache : GeneratedCacheContext) (p : PartSnapshot) :
    (combinePartMesh K dP cache p).cache.components = cache.components ∧
    (∀ k, k ∉ dP → (combinePartMesh K dP cache p).cache.parts k = cache.parts k) ∧
    (∀ k, (cache.parts k).isSome = true →
      ((combinePartMesh K dP cache p).cache.parts k).isSome = true) := by
  unfold combinePartMesh
  split_ifs with h
  · split
    · refine ⟨rfl, fun k hk => ?_, fun k hk => ?_⟩
      · have : k ≠ p.id := fun e => hk (e ▸ h)
        simp [GeneratedCacheContext.setPart, this]
      · by_cases e : k = p.id <;> simp [GeneratedCacheContext.setPart, e, hk]
    · exact ⟨rfl, fun _ _ => rfl, fun _ hk => hk⟩
  · exact ⟨rfl, fun _ _ => rfl, fun _ hk => hk⟩

mutual
theorem combineComponentMesh_writes (K : Kernel) (dC dP : Finset String) :
    (t : ComponentNode) → ∀ cache : GeneratedCacheContext,
    (∀ k, k ∉ dC →
      (combineComponentMesh K dC dP cache t).cache.components k = cache.components k) ∧
    (∀ k, k ∉ dP → (combineComponentMesh K dC dP cache t).cache.parts k = cache.parts k) ∧
    (∀ k, (cache.components k).isSome = true →
      ((combineComponentMesh K dC dP cache t).cache.components k).isSome = true) ∧
    (∀ k, (cache.parts k).isSome = true →
      ((combineComponentMesh K dC dP cache t).cache.parts k).isSome = true)
  | .part i st p => by
    intro cache
    obtain ⟨f1, f2, f3⟩ := combinePartMesh_writes K dP cache p
    simp only [combineComponentMesh]
    split_ifs with h
    · refine ⟨fun k hk => ?_, fun k hk => ?_, fun k hk => ?_, fun k hk => ?_⟩
      · have : k ≠ i := fun e => hk (e ▸ h)
        simp [GeneratedCacheContext.setComponent, this, f1]
      · simpa [GeneratedCacheContext.setComponent] using f2 k hk
      · by_cases e : k = i <;> simp [GeneratedCacheContext.setComponent, e, f1, hk]
      · simpa [GeneratedCacheContext.setComponent] using f3 k hk
    · exact ⟨fun _ _ => rfl, fun _ _ => rfl, fun _ hk => hk, fun _ hk => hk⟩
  | .group i st kids => by
    intro cache
    obtain ⟨f1, f2, f3, f4⟩ := combineChildren_writes K dC dP kids cache
    simp only [combineComponentMesh]
    split_ifs with h h2
    · exact ⟨f1, f2, f3, f4⟩
    · refine ⟨fun k hk => ?_, f2, fun k hk => ?_, f4⟩
      · have : k ≠ i := fun e => hk (e ▸ h)
        simp only [GeneratedCacheContext.setComponent, this, if_false]
        exact f1 k hk
      · by_cases e : k = i
        · simp [GeneratedCacheContext.setComponent, e]
        · simp only [GeneratedCacheContext.setComponent, e, if_false]
          exact f3 k hk
    · exact ⟨fun _ _ => rfl, fun _ _ => rfl, fun _ hk => hk, fun _ hk => hk⟩
theorem combineChildren_writes (K : Kernel) (dC dP : Finset String) :
    (ts : List ComponentNode) → ∀ cache : GeneratedCacheContext,
    (∀ k, k ∉ dC →
      (combineChildren K dC dP cache ts).cache.components k = cache.components k) ∧
    (∀ k, k ∉ dP → (combineChildren K dC dP cache ts).cache.parts k = cache.parts k) ∧
    (∀ k, (cache.components k).isSome = true →
      ((combineChildren K dC dP cache ts).cache.components k).isSome = true) ∧
    (∀ k, (cache.parts k).isSome = true →
      ((combineChildren K dC dP cache ts).cache.parts k).isSome = true)
  | [] => by
    intro cache
    simp [combineChildren]
  | t :: ts => by
    intro cache
    obtain ⟨a1, a2, a3, a4⟩ := combineComponentMesh_writes K dC dP t cache
    obtain ⟨b1, b2, b3, b4⟩ := combineChildren_writes K dC dP ts
      (combineComponentMesh K dC dP cache t).cache
    simp only [combineChildren]
    exact ⟨fun k hk => (b1 k hk).trans (a1 k hk), fun k hk => (b2 k hk).trans (a2 k hk),
      fun k hk => b3 k (a3 k hk), fun k hk => b4 k (a4 k hk)⟩
end

/-- After a pass without failure, every subtree of its snapshot is not dirty on
the cache it leaves: a subtree that a later snapshot holds unchanged has no
change of its own there. -/
theorem subtree_clean_after_pass (K : Kernel) (cacheContext : Option GeneratedCacheContext)
    (snapshot : Snapshot) (s : ComponentNode) (hs : s ∈ snapshot.root.nodes)
    (hok : (generate K cacheContext snapshot).failedIds = []) :
    checkIsComponentDirty (generate K cacheContext snapshot).cache s = false := by
  have hgen : generate K cacheContext snapshot =
      generate K (some (cacheContext.getD GeneratedCacheContext.empty)) snapshot := rfl
  rw [hgen] at hok ⊢
  generalize cacheContext.getD GeneratedCacheContext.empty = c0 at hok ⊢
  rw [generate_some K c0] at hok ⊢
  obtain ⟨⟨w1, w2⟩, _⟩ := combineComponentMesh_warm K (dirtyComponentIds c0 snapshot.root)
    (dirtyPartIds c0 snapshot.root) c0 snapshot.root c0
    (mem_dirtyComponentIds_iff c0 snapshot.root snapshot.componentIds_nodup)
    (mem_dirtyPartIds_iff c0 snapshot.root snapshot.partIds_nodup)
    (fun _ _ => rfl) (fun _ _ => rfl) snapshot.componentIds_nodup snapshot.partIds_nodup hok
  obtain ⟨hn, hq⟩ := nodes_closed snapshot.root s hs
  exact (dirty_iff _ s).mpr ⟨fun x hx => w1 x (hn x hx), fun q hqs => w2 q (hq q hqs)⟩

/-- C13 (on the pass modelled from the specification): in every generation
pass, whatever pairs of operands the Boolean Mesh Combiner returns null for,
the cache entries (GeneratedPart / GeneratedComponent) of every component and
every part of a subtree that has no change of its own, that is, a subtree
that is not dirty, as the siblings of the subtree with the failing pair are,
are the same after the pass as before it; no pass removes an entry, so
whatever was retrievable before still is; a component whose combination fails
keeps the cache of its children and is listed as failed, its own entry not
being replaced; and in the failed step the accumulator keeps its
pre-combination value for the rest of the fold. -/
theorem failure_containment (K : Kernel) (cache : GeneratedCacheContext) (snapshot : Snapshot)
    (s : ComponentNode) (hs : s ∈ snapshot.root.nodes)
    (hclean : checkIsComponentDirty cache s = false) :
    (∀ x ∈ s.nodes,
      (generate K (some cache) snapshot).cache.components x.id = cache.components x.id) ∧
    (∀ q ∈ s.parts,
      (generate K (some cache) snapshot).cache.parts q.id = cache.parts q.id) ∧
    (∀ k, (cache.components k).isSome = true →
      ((generate K (some cache) snapshot).cache.components k).isSome = true) ∧
    (∀ k, (cache.parts k).isSome = true →
      ((generate K (some cache) snapshot).cache.parts k).isSome = true) ∧
    (∀ (dC dP : Finset String) (c : GeneratedCacheContext) (i : String)
      (st : ComponentSettings) (kids : List ComponentNode), i ∈ dC →
      (combineMultipleMeshes K none (combineChildren K dC dP c kids).meshes).2 = true →
      (combineComponentMesh K dC dP c (.group i st kids)).cache
          = (combineChildren K dC dP c kids).cache ∧
        i ∈ (combineComponentMesh K dC dP c (.group i st kids)).failedIds) ∧
    (∀ (a m : Mesh) (mode : CombineMode) (rest : List (Option Mesh × CombineMode)),
      MeshCombiner.combine K a m mode.toMethod = none →
      combineMultipleMeshes K (some a) ((some m, mode) :: rest)
        = ((combineMultipleMeshes K (some a) rest).1, true)) := by
  obtain ⟨w1, w2, w3, w4⟩ := combineComponentMesh_writes K
    (dirtyComponentIds cache snapshot.root) (dirtyPartIds cache snapshot.root)
    snapshot.root cache
  obtain ⟨hn, hq⟩ := nodes_closed snapshot.root s hs
  obtain ⟨c1, c2⟩ := (dirty_iff cache s).mp hclean
  rw [generate_some]
  refine ⟨fun x hx => w1 x.id ?_, fun q hqs => w2 q.id ?_, w3, w4, ?_, ?_⟩
  · rw [mem_dirtyComponentIds_iff cache snapshot.root snapshot.componentIds_nodup x (hn x hx)]
    obtain ⟨hxn, hxq⟩ := nodes_closed s x hx
    rw [(dirty_iff cache x).mpr ⟨fun y hy => c1 y (hxn y hy), fun q hqx => c2 q (hxq q hqx)⟩]
    exact Bool.false_ne_true
  · rw [mem_dirtyPartIds_iff cache snapshot.root snapshot.partIds_nodup q (hq q hqs),
      c2 q hqs]
    exact Bool.false_ne_true
  · intro dC dP c i st kids hi hfail
    simp [combineComponentMesh, hi, hfail]
  · intro a m mode rest hnull
    simp [combineMultipleMeshes, hnull]

/-- After a pass on the pair tree, the radius of `pb1` is changed and the
geometric kernel is made to return null for the pair combined inside `g`: the
pass lists `g` as failed, and the entries of the sibling `c` and of its part
`pc` are those of before the pass, still retrievable. -/
theorem failure_containment_witness :
    (generate pairFailingKernel (some (generate sampleKernel none firstPairSnapshot).cache)
      editedPairSnapshot).failedIds = ["g"] ∧
    (generate pairFailingKernel (some (generate sampleKernel none firstPairSnapshot).cache)
      editedPairSnapshot).cache.components "c"
        = (generate sampleKernel none firstPairSnapshot).cache.components "c" ∧
    (generate pairFailingKernel (some (generate sampleKernel none firstPairSnapshot).cache)
      editedPairSnapshot).cache.parts "pc"
        = (generate sampleKernel none firstPairSnapshot).cache.parts "pc" ∧
    ((generate pairFailingKernel (some (generate sampleKernel none firstPairSnapshot).cache)
      editedPairSnapshot).cache.components "c").isSome = true ∧
    ((generate pairFailingKernel (some (generate sampleKernel none firstPairSnapshot).cache)
      editedPairSnapshot).cache.parts "pc").isSome = true :=
  ⟨by decide,
    (failure_containment pairFailingKernel (generate sampleKernel none firstPairSnapshot).cache
      editedPairSnapshot (.part "c" plainSettings ⟨"pc", ⟨["n3"], 1, "", false⟩⟩)
      (by simp [editedPairSnapshot, pairTree, nodes, nodesList])
      (subtree_clean_after_pass sampleKernel none firstPairSnapshot _
        (by simp [firstPairSnapshot, pairTree, nodes, nodesList]) (by decide))).1
      (.part "c" plainSettings ⟨"pc", ⟨["n3"], 1, "", false⟩⟩) (mem_nodes_self _),
    (failure_containment pairFailingKernel (generate sampleKernel none firstPairSnapshot).cache
      editedPairSnapshot (.part "c" plainSettings ⟨"pc", ⟨["n3"], 1, "", false⟩⟩)
      (by simp [editedPairSnapshot, pairTree, nodes, nodesList])
      (subtree_clean_after_pass sampleKernel none firstPairSnapshot _
        (by simp [firstPairSnapshot, pairTree, nodes, nodesList]) (by decide))).2.1
      ⟨"pc", ⟨["n3"], 1, "", false⟩⟩ (by simp [parts]),
    by decide, by decide⟩

/-! ## Provenance -/

theorem partNodeVertices_source (K : Kernel) (p : PartSnapshot) (x : NodeVertex)
    (hx : x ∈ partNodeVertices K p) :
    ∃ y ∈ K.nodeVertices p.definition, x.2 = (p.id, y.2) := by
  unfold partNodeVertices at hx
  split_ifs at hx
  · simp only [List.mem_append, List.mem_map] at hx
    rcases hx with ⟨y, hy, rfl⟩ | ⟨z, ⟨y, hy, rfl⟩, rfl⟩
    · exact ⟨y, hy, rfl⟩
    · exact ⟨y, hy, rfl⟩
  · simp only [List.mem_map] at hx
    obtain ⟨y, hy, rfl⟩ := hx
    exact ⟨y, hy, rfl⟩

theorem partNodeVertices_setPart (c : GeneratedCacheContext) (i k : String)
    (g : GeneratedPart) :
    (c.setPart i g).partNodeVertices k =
      if k = i then g.outcomeNodeVertices else c.partNodeVertices k := by
  by_cases h : k = i <;>
    simp [GeneratedCacheContext.partNodeVertices, GeneratedCacheContext.setPart, h]

theorem componentNodeVertices_setComponent (c : GeneratedCacheContext) (i k : String)
    (g : GeneratedComponent) :
    (c.setComponent i g).componentNodeVertices k =
      if k = i then g.outcomeNodeVertices else c.componentNodeVertices k := by
  by_cases h : k = i <;>
    simp [GeneratedCacheContext.componentNodeVertices, GeneratedCacheContext.setComponent, h]

theorem combinePartMesh_sources (K : Kernel) (dP : Finset String) (ok : String × String → Prop)
    (cache : GeneratedCacheContext) (p : PartSnapshot)
    (hb : ∀ x ∈ partNodeVertices K p, ok x.2)
    (hp : (p.id ∉ dP ∨ K.build p.definition = none) →
      ∀ x ∈ cache.partNodeVertices p.id, ok x.2) :
    (∀ x ∈ (combinePartMesh K dP cache p).outcomeNodeVertices, ok x.2) ∧
    (∀ k, (∀ x ∈ cache.partNodeVertices k, ok x.2) →
      ∀ x ∈ (combinePartMesh K dP cache p).cache.partNodeVertices k, ok x.2) ∧
    (combinePartMesh K dP cache p).cache.components = cache.components := by
  unfold combinePartMesh
  split_ifs with h
  · split
    · refine ⟨hb, fun k hk x hx => ?_, rfl⟩
      rw [partNodeVertices_setPart] at hx
      split_ifs at hx
      · exact hb x hx
      · exact hk x hx
    · rename_i hnone
      exact ⟨hp (Or.inr hnone), fun _ hk => hk, rfl⟩
  · exact ⟨hp (Or.inl h), fun _ hk => hk, rfl⟩

mutual
theorem combineComponentMesh_sources (K : Kernel) (dC dP : Finset String)
    (ok : String × String → Prop) (F : List String) :
    (t : ComponentNode) → ∀ cache : GeneratedCacheContext,
    (∀ q ∈ t.parts, ∀ x ∈ partNodeVertices K q, ok x.2) →
    (∀ q ∈ t.parts, (q.id ∉ dP ∨ K.build q.definition = none) →
      ∀ x ∈ cache.partNodeVertices q.id, ok x.2) →
    (∀ s ∈ t.nodes, (s.id ∉ dC ∨ s.id ∈ F) →
      ∀ x ∈ cache.componentNodeVertices s.id, ok x.2) →
    (∀ k ∈ (combineComponentMesh K dC dP cache t).failedIds, k ∈ F) →
    (∀ x ∈ (combineComponentMesh K dC dP cache t).outcomeNodeVertices, ok x.2) ∧
    (∀ k, (∀ x ∈ cache.partNodeVertices k, ok x.2) →
      ∀ x ∈ (combineComponentMesh K dC dP cache t).cache.partNodeVertices k, ok x.2) ∧
    (∀ k, (∀ x ∈ cache.componentNodeVertices k, ok x.2) →
      ∀ x ∈ (combineComponentMesh K dC dP cache t).cache.componentNodeVertices k, ok x.2)
  | .part i st p => by
    intro cache hb hp hc _
    obtain ⟨a1, a2, a3⟩ := combinePartMesh_sources K dP ok cache p
      (hb p (by simp [parts])) (hp p (by simp [parts]))
    have hci := hc _ (mem_nodes_self _)
    simp only [ComponentNode.id] at hci
    simp only [combineComponentMesh]
    split_ifs with h
    · refine ⟨a1, fun k hk x hx => ?_, fun k hk x hx => ?_⟩
      · exact a2 k hk x (by
          simpa [GeneratedCacheContext.partNodeVertices, GeneratedCacheContext.setComponent]
            using hx)
      · rw [componentNodeVertices_setComponent] at hx
        split_ifs at hx
        · exact a1 x hx
        · exact hk x (by
            simpa [GeneratedCacheContext.componentNodeVertices, a3] using hx)
    · exact ⟨hci (Or.inl h), fun _ hk => hk, fun _ hk => hk⟩
  | .group i st kids => by
    intro cache hb hp hc hF
    have hci := hc _ (mem_nodes_self _)
    simp only [ComponentNode.id] at hci
    by_cases h : i ∈ dC
    · have ih := combineChildren_sources K dC dP ok F kids cache
        (fun q hq => hb q (by simpa [parts] using hq))
        (fun q hq => hp q (by simpa [parts] using hq))
        (fun s hs => hc s (by simp [nodes, hs]))
      by_cases h2 : (combineMultipleMeshes K none
          (combineChildren K dC dP cache kids).meshes).2 = true
      · simp only [combineComponentMesh, h, h2, if_true, List.mem_cons, forall_eq_or_imp]
          at hF ⊢
        obtain ⟨a1, a2, a3⟩ := ih hF.2
        refine ⟨?_, a2, a3⟩
        split
        · rename_i g hg
          intro x hx
          exact a3 i (hci (Or.inr hF.1)) x (by
            simpa [GeneratedCacheContext.componentNodeVertices, hg] using hx)
        · exact a1
      · simp only [combineComponentMesh, h, h2, if_true, if_false, Bool.false_eq_true]
          at hF ⊢
        obtain ⟨a1, a2, a3⟩ := ih hF
        refine ⟨a1, fun k hk x hx => ?_, fun k hk x hx => ?_⟩
        · exact a2 k hk x (by
            simpa [GeneratedCacheContext.partNodeVertices, GeneratedCacheContext.setComponent]
              using hx)
        · rw [componentNodeVertices_setComponent] at hx
          split_ifs at hx
          · exact a1 x hx
          · exact a3 k hk x hx
    · simp only [combineComponentMesh, h, if_false]
      exact ⟨hci (Or.inl h), fun _ hk => hk, fun _ hk => hk⟩
theorem combineChildren_sources (K : Kernel) (dC dP : Finset String)
    (ok : String × String → Prop) (F : List String) : (ts : List ComponentNode) →
    ∀ cache : GeneratedCacheContext,
    (∀ q ∈ partsList ts, ∀ x ∈ partNodeVertices K q, ok x.2) →
    (∀ q ∈ partsList ts, (q.id ∉ dP ∨ K.build q.definition = none) →
      ∀ x ∈ cache.partNodeVertices q.id, ok x.2) →
    (∀ s ∈ nodesList ts, (s.id ∉ dC ∨ s.id ∈ F) →
      ∀ x ∈ cache.componentNodeVertices s.id, ok x.2) →
    (∀ k ∈ (combineChildren K dC dP cache ts).failedIds, k ∈ F) →
    (∀ x ∈ (combineChildren K dC dP cache ts).outcomeNodeVertices, ok x.2) ∧
    (∀ k, (∀ x ∈ cache.partNodeVertices k, ok x.2) →
      ∀ x ∈ (combineChildren K dC dP cache ts).cache.partNodeVertices k, ok x.2) ∧
    (∀ k, (∀ x ∈ cache.componentNodeVertices k, ok x.2) →
      ∀ x ∈ (combineChildren K dC dP cache ts).cache.componentNodeVertices k, ok x.2)
  | [] => by
    intro cache _ _ _ _
    simp [combineChildren]
  | t :: ts => by
    intro cache hb hp hc hF
    simp only [nodesList, partsList, List.mem_append] at hb hp hc
    simp only [combineChildren, List.mem_append] at hF
    obtain ⟨a1, a2, a3⟩ := combineComponentMesh_sources K dC dP ok F t cache
      (fun q hq => hb q (Or.inl hq)) (fun q hq => hp q (Or.inl hq))
      (fun s hs => hc s (Or.inl hs)) (fun k hk => hF k (Or.inl hk))
    obtain ⟨b1, b2, b3⟩ := combineChildren_sources K dC dP ok F ts
      (combineComponentMesh K dC dP cache t).cache
      (fun q hq => hb q (Or.inr hq))
      (fun q hq hcond => a2 q.id (hp q (Or.inr hq) hcond))
      (fun s hs hcond => a3 s.id (hc s (Or.inr hs) hcond))
      (fun k hk => hF k (Or.inr hk))
    simp only [combineChildren, List.mem_append]
    exact ⟨fun x hx => hx.elim (a1 x) (b1 x), fun k hk => b2 k (a2 k hk),
      fun k hk => b3 k (a3 k hk)⟩
end

/-- C14, as stated, fails on the pass modelled from the specification: after
node `n5` is removed from part `pb`, the builder fails on the degenerate
chain, the pass falls back to the geometry cached for `pb`, and the
provenance of the outcome still names node `n5`, which the snapshot no longer
holds. -/
theorem stale_provenance_after_failed_rebuild :
    (generate chainKernel (some (generate chainKernel none longChainSnapshot).cache)
      shortChainSnapshot).failedIds = ["pb"] ∧
    ((1, 0, 0), ("pb", "n5")) ∈
      (generate chainKernel (some (generate chainKernel none longChainSnapshot).cache)
        shortChainSnapshot).outcomeNodeVertices ∧
    ¬ shortChainSnapshot.root.hasSource ("pb", "n5") := by
  decide

/-- C14, amended (on the pass modelled from the specification): with a builder
that traces every vertex to a node of the part it is given, every provenance
entry of the outcome names a part id and a node id present in the snapshot,
provided the cache entries the pass reuses do: the entry of a part that is not
dirty or on which the builder fails, and the entry of a component that is not
dirty or that the pass lists as failed.  Nothing is asked of the entries of
the dirty parts and components that the pass rebuilds.  Without a cache
nothing is reused: the outcome of a full rebuild is closed. -/
theorem provenance_closure (K : Kernel) (cache : GeneratedCacheContext) (snapshot : Snapshot)
    (hK : ∀ (d : PartDef), ∀ y ∈ K.nodeVertices d, y.2 ∈ d.nodesAndEdges)
    (hparts : ∀ q ∈ snapshot.root.parts,
      (checkIsPartDirty cache q = false ∨ K.build q.definition = none) →
      ∀ x ∈ cache.partNodeVertices q.id, snapshot.root.hasSource x.2)
    (hcomps : ∀ s ∈ snapshot.root.nodes,
      (checkIsComponentDirty cache s = false ∨
        s.id ∈ (generate K (some cache) snapshot).failedIds) →
      ∀ x ∈ cache.componentNodeVertices s.id, snapshot.root.hasSource x.2) :
    (∀ x ∈ (generate K (some cache) snapshot).outcomeNodeVertices,
      snapshot.root.hasSource x.2) ∧
    (∀ x ∈ (generate K none snapshot).outcomeNodeVertices, snapshot.root.hasSource x.2) := by
  have hb : ∀ q ∈ snapshot.root.parts, ∀ x ∈ partNodeVertices K q,
      snapshot.root.hasSource x.2 := by
    intro q hq x hx
    obtain ⟨y, hy, e⟩ := partNodeVertices_source K q x hx
    rw [e]
    exact ⟨q, hq, rfl, hK _ y hy⟩
  obtain ⟨a1, _, _⟩ := combineComponentMesh_sources K
    (dirtyComponentIds cache snapshot.root) (dirtyPartIds cache snapshot.root)
    snapshot.root.hasSource (generate K (some cache) snapshot).failedIds snapshot.root cache hb
    (fun q hq hcond => hparts q hq (hcond.imp (fun hnot => by
      cases hd : checkIsPartDirty cache q
      · rfl
      · exact absurd ((mem_dirtyPartIds_iff cache snapshot.root snapshot.partIds_nodup
          q hq).mpr hd) hnot) id))
    (fun s hs hcond => hcomps s hs (hcond.imp (fun hnot => by
      cases hd : checkIsComponentDirty cache s
      · rfl
      · exact absurd ((mem_dirtyComponentIds_iff cache snapshot.root
          snapshot.componentIds_nodup s hs).mpr hd) hnot) id))
    (fun _ hk => hk)
  obtain ⟨b1, _, _⟩ := combineComponentMesh_sources K
    (dirtyComponentIds GeneratedCacheContext.empty snapshot.root)
    (dirtyPartIds GeneratedCacheContext.empty snapshot.root)
    snapshot.root.hasSource (generate K none snapshot).failedIds snapshot.root
    GeneratedCacheContext.empty hb
    (fun q _ _ x hx => by
      simp [GeneratedCacheContext.partNodeVertices, GeneratedCacheContext.empty] at hx)
    (fun s _ _ x hx => by
      simp [GeneratedCacheContext.componentNodeVertices, GeneratedCacheContext.empty] at hx)
    (fun _ hk => hk)
  exact ⟨a1, b1⟩

/-- The sample kernel traces every vertex to a node of the part.  On the cache
of a pass on the long chain, whose entry for `pb` names the node `n5`, a pass
of the sample kernel on the chain without `n5` rebuilds `pb`, `b` and the
root, reuses no entry, and yields closed provenance. -/
theorem provenance_closure_witness :
    (∃ x ∈ (generate sampleKernel none longChainSnapshot).cache.partNodeVertices "pb",
      ¬ shortChainSnapshot.root.hasSource x.2) ∧
    (generate sampleKernel (some (generate sampleKernel none longChainSnapshot).cache)
      shortChainSnapshot).failedIds = [] ∧
    (∀ x ∈ (generate sampleKernel (some (generate sampleKernel none longChainSnapshot).cache)
      shortChainSnapshot).outcomeNodeVertices, shortChainSnapshot.root.hasSource x.2) ∧
    (generate sampleKernel (some (generate sampleKernel none longChainSnapshot).cache)
      shortChainSnapshot).outcomeNodeVertices ≠ [] :=
  ⟨by decide, by decide,
    (provenance_closure sampleKernel (generate sampleKernel none longChainSnapshot).cache
      shortChainSnapshot
      (fun d y hy => by
        simp only [sampleKernel, List.mem_map] at hy
        obtain ⟨n, hn, rfl⟩ := hy
        exact hn)
      (by decide) (by decide)).1,
    by decide⟩

/-! ## Mirrored parts -/

theorem xNegated_xNegated (v : Rat × Rat × Rat) : xNegated (xNegated v) = v := by
  simp [xNegated]

theorem distSq_self (v : Rat × Rat × Rat) : distSq v v = 0 := by
  simp [distSq]

theorem joinXmirrored_vertices (m : Mesh) :
    (joinXmirrored m).vertices = m.vertices ++ m.vertices.map xNegated := rfl

theorem joinXmirrored_closed (m : Mesh) :
    ∀ v ∈ (joinXmirrored m).vertices, xNegated v ∈ (joinXmirrored m).vertices := by
  intro v hv
  rw [joinXmirrored_vertices, List.mem_append, List.mem_map] at hv ⊢
  rcases hv with hv | ⟨u, hu, rfl⟩
  · exact Or.inr ⟨v, hv, rfl⟩
  · exact Or.inl (by rw [xNegated_xNegated]; exact hu)

/-- C18 (on the pass modelled from the specification, over exact
coordinates): for a part with mirroring enabled that the pass builds, the
generated part mesh, which is also the mesh cached for the part, has a vertex
set closed under X-negation: with every vertex (x, y, z) it holds the vertex
(-x, y, z) itself, so a vertex within 1e-4 of it. -/
theorem mirrored_part_is_x_symmetric (K : Kernel) (dP : Finset String)
    (cache : GeneratedCacheContext) (p : PartSnapshot) (built : Mesh)
    (hmirror : p.definition.xMirrored = true) (hdirty : p.id ∈ dP)
    (hbuilt : K.build p.definition = some built) :
    ∃ m : Mesh,
      (combinePartMesh K dP cache p).mesh = some m ∧
      ((combinePartMesh K dP cache p).cache.parts p.id).map GeneratedPart.mesh = some m ∧
      (∀ v ∈ m.vertices, (-v.1, v.2.1, v.2.2) ∈ m.vertices) ∧
      (∀ v ∈ m.vertices, ∃ w ∈ m.vertices,
        distSq w (-v.1, v.2.1, v.2.2) ≤ (1 / 10000) ^ 2) := by
  refine ⟨joinXmirrored built, ?_, ?_, joinXmirrored_closed built, fun v hv => ?_⟩
  · simp [combinePartMesh, hdirty, hbuilt, partMesh, hmirror]
  · simp [combinePartMesh, hdirty, hbuilt, partMesh, hmirror, GeneratedCacheContext.setPart]
  · refine ⟨xNegated v, joinXmirrored_closed built v hv, ?_⟩
    have : distSq (xNegated v) (-v.1, v.2.1, v.2.2) = 0 := distSq_self _
    rw [this]
    positivity

/-- The mirrored sample part under the sample kernel: its one vertex at x = 3
comes with the vertex at x = -3. -/
theorem mirrored_part_is_x_symmetric_witness :
    mirroredPart.definition.xMirrored = true ∧
    sampleKernel.build mirroredPart.definition = some ⟨[(3, 0, 0)], []⟩ ∧
    (combinePartMesh sampleKernel {"pm"} GeneratedCacheContext.empty mirroredPart).mesh
      = some ⟨[(3, 0, 0), (-3, 0, 0)], []⟩ ∧
    ∃ m : Mesh,
      (combinePartMesh sampleKernel {"pm"} GeneratedCacheContext.empty mirroredPart).mesh
        = some m ∧
      ∀ v ∈ m.vertices, (-v.1, v.2.1, v.2.2) ∈ m.vertices :=
  ⟨by decide, by decide, by decide,
    (mirrored_part_is_x_symmetric sampleKernel {"pm"} GeneratedCacheContext.empty mirroredPart
      ⟨[(3, 0, 0)], []⟩ (by decide) (by decide) (by decide)).imp
      fun _ h => ⟨h.1, h.2.2.1⟩⟩

end MeshGenerator

end Dust3d

namespace Dust3d

namespace Remesher

/-! ## The remesher -/

theorem nearestFrom_lt (v : Rat × Rat × Rat) (rest : List ((Rat × Rat × Rat) × Rat)) :
    ∀ (best : Nat) (bestDistance : Rat) (index : Nat), best < index →
      nearestFrom v best bestDistance index rest < index + rest.length := by
  induction rest with
  | nil => intro best _ index h; simpa [nearestFrom] using h
  | cons node rest ih =>
    intro best bestDistance index h
    simp only [nearestFrom, List.length_cons]
    split_ifs
    · have := ih index (distSq v node.1) (index + 1) (Nat.lt_succ_self _)
      omega
    · have := ih best bestDistance (index + 1) (Nat.lt_succ_of_lt h)
      omega

theorem nearestNodeIndex_lt (v : Rat × Rat × Rat) (nodes : List ((Rat × Rat × Rat) × Rat))
    (h : nodes ≠ []) : nearestNodeIndex v nodes < nodes.length := by
  cases nodes with
  | nil => exact absurd rfl h
  | cons node rest =>
    have := nearestFrom_lt v rest 0 (distSq v node.1) 1 Nat.zero_lt_one
    simp only [nearestNodeIndex, List.length_cons]
    omega

/-- C19, as stated, fails on the remesher modelled from the specification: with
no source id at all, or with fewer source ids than nodes, a vertex can have no
source id to resolve to, and its entry is not among the pairs passed to
`setNodes`.  First an empty node set, then two nodes with one source id. -/
theorem sources_without_nodes_are_not_passed_ids :
    ((remesh keepAlgorithm ((init.setMesh triangleVertices [[0, 1, 2]]).setNodes [] [])
        1).getRemeshedVertices.length = 3 ∧
      ¬ ∀ e ∈ (remesh keepAlgorithm
          ((init.setMesh triangleVertices [[0, 1, 2]]).setNodes [] []) 1).getRemeshedVertexSources,
        e ∈ ([] : List (QUuid × QUuid))) ∧
    ¬ ∀ e ∈ (remesh keepAlgorithm
        ((init.setMesh triangleVertices [[0, 1, 2]]).setNodes twoNodes [(1, 11)])
        1).getRemeshedVertexSources, e ∈ ([(1, 11)] : List (QUuid × QUuid)) := by
  refine ⟨?_, ?_⟩
  · simp [remesh, keepAlgorithm, setNodes, setMesh, init, resolveSources,
      getRemeshedVertexSources, getRemeshedVertices, triangleVertices]
  · intro h
    have h2 := h (QUuid.null, QUuid.null) (by
      norm_num [remesh, keepAlgorithm, setNodes, setMesh, init, resolveSources,
        getRemeshedVertexSources, triangleVertices, twoNodes, nearestNodeIndex,
        nearestFrom, distSq])
    revert h2
    decide

/-- C19, amended (on the remesher modelled from the specification): after
`remesh` on any remesher, new or used, given any mesh and any nodes,
`getRemeshedVertexSources()` has exactly as many entries as
`getRemeshedVertices()`; when `setNodes` was given at least one source-id
pair and no fewer pairs than nodes, each entry is one of these pairs; and a
failed remesh leaves the remeshed vertices, faces and sources empty. -/
theorem remeshed_sources_are_aligned
    (algorithm : List (Rat × Rat × Rat) → List (List Nat) → Rat →
      Option (List (Rat × Rat × Rat) × List (List Nat)))
    (r : Remesher) (vertices : List (Rat × Rat × Rat)) (triangles : List (List Nat))
    (nodes : List ((Rat × Rat × Rat) × Rat)) (sourceIds : List (QUuid × QUuid))
    (factor : Rat) :
    (remesh algorithm ((r.setMesh vertices triangles).setNodes nodes sourceIds)
        factor).getRemeshedVertexSources.length =
      (remesh algorithm ((r.setMesh vertices triangles).setNodes nodes sourceIds)
        factor).getRemeshedVertices.length ∧
    (sourceIds ≠ [] → nodes.length ≤ sourceIds.length →
      ∀ e ∈ (remesh algorithm ((r.setMesh vertices triangles).setNodes nodes sourceIds)
        factor).getRemeshedVertexSources, e ∈ sourceIds) ∧
    (algorithm vertices triangles factor = none →
      (remesh algorithm ((r.setMesh vertices triangles).setNodes nodes sourceIds)
          factor).getRemeshedVertices = [] ∧
        (remesh algorithm ((r.setMesh vertices triangles).setNodes nodes sourceIds)
          factor).getRemeshedFaces = [] ∧
        (remesh algorithm ((r.setMesh vertices triangles).setNodes nodes sourceIds)
          factor).getRemeshedVertexSources = []) := by
  cases h : algorithm vertices triangles factor with
  | none =>
    simp [remesh, setNodes, setMesh, h, getRemeshedVertexSources, getRemeshedVertices,
      getRemeshedFaces]
  | some out =>
    refine ⟨?_, ?_, fun e => by simp at e⟩
    · simp [remesh, setNodes, setMesh, h, getRemeshedVertexSources,
        getRemeshedVertices, resolveSources]
    · intro hne hids e he
      simp only [remesh, setNodes, setMesh, h, getRemeshedVertexSources,
        resolveSources, List.mem_map] at he
      obtain ⟨v, _, rfl⟩ := he
      have hlt : nearestNodeIndex v nodes < sourceIds.length := by
        by_cases hn : nodes = []
        · subst hn
          exact List.length_pos.mpr hne
        · exact lt_of_lt_of_le (nearestNodeIndex_lt v nodes hn) hids
      rw [List.getD_eq_getElem _ _ hlt]
      exact List.getElem_mem _

/-- A remesher that holds the outputs of an earlier remesh of the triangle: on
it a remesh of the triangle with two nodes resolves each corner to the id of
the nearer node, and a remesh that fails leaves the three outputs empty. -/
theorem remeshed_sources_are_aligned_witness :
    (remesh keepAlgorithm ((init.setMesh triangleVertices [[0, 1, 2]]).setNodes twoNodes
      twoSourceIds) 1).getRemeshedVertices.length = 3 ∧
    (∀ e ∈ (remesh keepAlgorithm
        (((remesh keepAlgorithm ((init.setMesh triangleVertices [[0, 1, 2]]).setNodes twoNodes
          twoSourceIds) 1).setMesh triangleVertices [[0, 1, 2]]).setNodes twoNodes
          twoSourceIds) 1).getRemeshedVertexSources, e ∈ twoSourceIds) ∧
    (remesh failAlgorithm
        (((remesh keepAlgorithm ((init.setMesh triangleVertices [[0, 1, 2]]).setNodes twoNodes
          twoSourceIds) 1).setMesh triangleVertices [[0, 1, 2]]).setNodes twoNodes
          twoSourceIds) 1).getRemeshedVertices = [] :=
  ⟨by decide,
    (remeshed_sources_are_aligned keepAlgorithm
      (remesh keepAlgorithm ((init.setMesh triangleVertices [[0, 1, 2]]).setNodes twoNodes
        twoSourceIds) 1) triangleVertices [[0, 1, 2]] twoNodes twoSourceIds 1).2.1
      (by decide) (by decide),
    ((remeshed_sources_are_aligned failAlgorithm
      (remesh keepAlgorithm ((init.setMesh triangleVertices [[0, 1, 2]]).setNodes twoNodes
        twoSourceIds) 1) triangleVertices [[0, 1, 2]] twoNodes twoSourceIds 1).2.2 rfl).1⟩

end Remesher

end Dust3d

namespace Dust3d

namespace Document

/-! ## The scheduling of generation passes -/

theorem generateMesh_inv (d : Document)
    (h1 : d.started = List.range d.m_nextMeshGenerationId)
    (h2 : ∀ g, d.m_meshGenerator = some g → g + 1 = d.m_nextMeshGenerationId) :
    d.generateMesh.started = List.range d.generateMesh.m_nextMeshGenerationId ∧
      ∀ g, d.generateMesh.m_meshGenerator = some g →
        g + 1 = d.generateMesh.m_nextMeshGenerationId := by
  unfold generateMesh
  split
  · exact ⟨h1, h2⟩
  · refine ⟨?_, fun g hg => ?_⟩
    · simp [h1, List.range_succ]
    · simp only [Option.some.injEq] at hg
      simp [hg]

theorem meshReady_inv (d : Document)
    (h1 : d.started = List.range d.m_nextMeshGenerationId)
    (h2 : ∀ g, d.m_meshGenerator = some g → g + 1 = d.m_nextMeshGenerationId) :
    d.meshReady.started = List.range d.meshReady.m_nextMeshGenerationId ∧
      ∀ g, d.meshReady.m_meshGenerator = some g →
        g + 1 = d.meshReady.m_nextMeshGenerationId := by
  unfold meshReady
  split
  · exact ⟨h1, h2⟩
  · have hidle := generateMesh_inv { d with m_meshGenerator := none } h1
      (fun g hg => by simp at hg)
    cases hob : d.m_isResultMeshObsolete
    · simp only [Bool.false_eq_true, if_false]
      split_ifs
      · exact ⟨h1, fun g hg => by simp at hg⟩
      · exact ⟨h1, fun g hg => by simp at hg⟩
    · simp only [if_true]
      split_ifs
      · exact hidle
      · exact hidle

theorem step_inv (d : Document) (e : Event)
    (h1 : d.started = List.range d.m_nextMeshGenerationId)
    (h2 : ∀ g, d.m_meshGenerator = some g → g + 1 = d.m_nextMeshGenerationId) :
    (d.step e).started = List.range (d.step e).m_nextMeshGenerationId ∧
      ∀ g, (d.step e).m_meshGenerator = some g → g + 1 = (d.step e).m_nextMeshGenerationId := by
  cases e with
  | mutation => exact generateMesh_inv d h1 h2
  | passFinished => exact meshReady_inv d h1 h2

theorem run_inv (events : List Event) : ∀ d : Document,
    d.started = List.range d.m_nextMeshGenerationId →
    (∀ g, d.m_meshGenerator = some g → g + 1 = d.m_nextMeshGenerationId) →
    (d.run events).started = List.range (d.run events).m_nextMeshGenerationId ∧
      ∀ g, (d.run events).m_meshGenerator = some g →
        g + 1 = (d.run events).m_nextMeshGenerationId := by
  induction events with
  | nil => intro d h1 h2; exact ⟨h1, h2⟩
  | cons e events ih =>
    intro d h1 h2
    obtain ⟨k1, k2⟩ := step_inv d e h1 h2
    exact ih (d.step e) k1 k2

theorem generateMesh_resultMesh (d : Document) :
    d.generateMesh.m_resultMesh = d.m_resultMesh := by
  unfold generateMesh; split <;> rfl

theorem meshReady_eq (d : Document) (g : Nat) (hg : d.m_meshGenerator = some g) :
    ∃ nx : Document, nx.m_resultMesh = d.m_resultMesh ∧
      d.meshReady = if g + 1 = nx.m_nextMeshGenerationId then
        { nx with m_resultMesh := some g, m_meshGenerationId := g } else nx := by
  refine ⟨if d.m_isResultMeshObsolete then generateMesh { d with m_meshGenerator := none }
      else { d with m_meshGenerator := none }, ?_, ?_⟩
  · split_ifs
    · rw [generateMesh_resultMesh]
    · rfl
  · unfold meshReady
    simp only [hg]

/-- What `meshReady` does when the pass in flight has the most recently
assigned id: superseded by a mutation, the pass has its result dropped and the
next pass is started with the next id; not superseded, it has its result
taken. -/
theorem meshReady_of_recent (d : Document) (g : Nat) (hg : d.m_meshGenerator = some g)
    (hrecent : g + 1 = d.m_nextMeshGenerationId) :
    (d.m_isResultMeshObsolete = true →
      d.meshReady.m_resultMesh = d.m_resultMesh ∧ d.meshReady.m_meshGenerator = some (g + 1)
        ∧ d.meshReady.m_nextMeshGenerationId = g + 2) ∧
    (d.m_isResultMeshObsolete = false →
      d.meshReady.m_resultMesh = some g ∧ d.meshReady.m_meshGenerator = none
        ∧ d.meshReady.m_nextMeshGenerationId = g + 1) := by
  constructor
  · intro hob
    have hne : ¬ (g + 1 = d.m_nextMeshGenerationId + 1) := by omega
    simp [meshReady, hg, hob, generateMesh, hne, ← hrecent]
  · intro hob
    simp [meshReady, hg, hob, ← hrecent]

/-- C16 (on the scheduling modelled from the specification): after any sequence
of mutations and pass completions on a new document, the ids given to the
passes started so far are 0, 1, 2, ... in this order, so strictly increasing,
and the pass in flight has the most recently assigned id.  When that pass
completes after a mutation superseded it, the next pass is started with the
next id, the id of the completed pass is no longer the most recently assigned
one, and the result mesh stays as it was; when it completes without having
been superseded, its id is still the most recent one and its result becomes
the result mesh.  In any state of the document, a pass that completes with an
id that is not the most recently assigned one leaves the result mesh as it is. -/
theorem generation_ids_increase_and_stale_results_drop (events : List Event) :
    (init.run events).started.Pairwise (fun a b => a < b) ∧
    (init.run events).started = List.range (init.run events).m_nextMeshGenerationId ∧
    (∀ g, (init.run events).m_meshGenerator = some g →
      g + 1 = (init.run events).m_nextMeshGenerationId ∧
      ((init.run events).m_isResultMeshObsolete = true →
        g + 1 ≠ ((init.run events).step Event.passFinished).m_nextMeshGenerationId ∧
        ((init.run events).step Event.passFinished).m_resultMesh
          = (init.run events).m_resultMesh ∧
        ((init.run events).step Event.passFinished).m_meshGenerator = some (g + 1)) ∧
      ((init.run events).m_isResultMeshObsolete = false →
        g + 1 = ((init.run events).step Event.passFinished).m_nextMeshGenerationId ∧
        ((init.run events).step Event.passFinished).m_resultMesh = some g)) ∧
    (∀ (d : Document) (g : Nat), d.m_meshGenerator = some g →
      (g + 1 ≠ d.meshReady.m_nextMeshGenerationId →
        d.meshReady.m_resultMesh = d.m_resultMesh) ∧
      (g + 1 = d.meshReady.m_nextMeshGenerationId →
        d.meshReady.m_resultMesh = some g)) := by
  obtain ⟨h1, h2⟩ := run_inv events init rfl (fun g hg => by simp [init] at hg)
  refine ⟨?_, h1, fun g hg => ?_, fun d g hg => ?_⟩
  · rw [h1]; exact List.pairwise_lt_range _
  · obtain ⟨k1, k2⟩ := meshReady_of_recent _ g hg (h2 g hg)
    refine ⟨h2 g hg, fun hob => ?_, fun hob => ?_⟩
    · obtain ⟨a1, a2, a3⟩ := k1 hob
      exact ⟨by show g + 1 ≠ (init.run events).meshReady.m_nextMeshGenerationId; omega,
        a1, a2⟩
    · obtain ⟨a1, _, a3⟩ := k2 hob
      exact ⟨by show g + 1 = (init.run events).meshReady.m_nextMeshGenerationId; omega, a1⟩
  · obtain ⟨nx, hr, he⟩ := meshReady_eq d g hg
    rw [he]
    by_cases h : g + 1 = nx.m_nextMeshGenerationId
    · rw [if_pos h]
      exact ⟨fun h2 => absurd h h2, fun _ => rfl⟩
    · rw [if_neg h]
      exact ⟨fun _ => hr, fun h2 => absurd h2 h⟩

/-- Pass 0 is superseded by a mutation while in flight: when it completes its
result is dropped and pass 1 is started; the result of pass 1 is taken. -/
theorem generation_ids_increase_and_stale_results_drop_witness :
    (init.run [Event.mutation, Event.mutation]).m_meshGenerator = some 0 ∧
    (init.run [Event.mutation, Event.mutation]).m_isResultMeshObsolete = true ∧
    (init.run [Event.mutation, Event.mutation, Event.passFinished]).m_resultMesh = none ∧
    (init.run [Event.mutation, Event.mutation, Event.passFinished]).started = [0, 1] ∧
    (init.run [Event.mutation, Event.mutation, Event.passFinished,
      Event.passFinished]).m_resultMesh = some 1 :=
  ⟨by decide, by decide,
    (((generation_ids_increase_and_stale_results_drop
      [Event.mutation, Event.mutation]).2.2.1 0 (by decide)).2.1 (by decide)).2.1.trans
      (by decide),
    by decide,
    (((generation_ids_increase_and_stale_results_drop
      [Event.mutation, Event.mutation, Event.passFinished]).2.2.1 1 (by decide)).2.2
      (by decide)).2⟩

theorem run_mutations_in_flight (n : Nat) : ∀ (d : Document) (g : Nat),
    d.m_meshGenerator = some g →
    d.run (List.replicate (n + 1) Event.mutation) = { d with m_isResultMeshObsolete := true } := by
  induction n with
  | zero =>
    intro d g h
    simp [run, step, generateMesh, h]
  | succ n ih =>
    intro d g h
    rw [List.replicate_succ, run, List.foldl_cons]
    have hs : d.step Event.mutation = { d with m_isResultMeshObsolete := true } := by
      simp [step, generateMesh, h]
    rw [hs]
    exact ih { d with m_isResultMeshObsolete := true } g h

/-- C17 (on the scheduling modelled from the specification): while a pass is in
flight, any number `n + 1` of mutations leaves that pass in flight and starts
no pass; when it then finishes, exactly one further pass is started, with the
next id, and no request is left pending.  Without any mutation and with no
request pending, the finishing pass is followed by no further pass. -/
theorem mutations_coalesce_into_one_pass (d : Document) (g n : Nat)
    (hflight : d.m_meshGenerator = some g) :
    (d.run (List.replicate (n + 1) Event.mutation)).m_meshGenerator = some g ∧
    (d.run (List.replicate (n + 1) Event.mutation)).started = d.started ∧
    (d.run (List.replicate (n + 1) Event.mutation ++ [Event.passFinished])).started
      = d.started ++ [d.m_nextMeshGenerationId] ∧
    (d.run (List.replicate (n + 1) Event.mutation ++ [Event.passFinished])).m_meshGenerator
      = some d.m_nextMeshGenerationId ∧
    (d.run (List.replicate (n + 1) Event.mutation ++ [Event.passFinished])).m_isResultMeshObsolete
      = false ∧
    (d.m_isResultMeshObsolete = false →
      (d.run [Event.passFinished]).started = d.started ∧
      (d.run [Event.passFinished]).m_meshGenerator = none) := by
  have hrun := run_mutations_in_flight n d g hflight
  have happ : d.run (List.replicate (n + 1) Event.mutation ++ [Event.passFinished]) =
      (d.run (List.replicate (n + 1) Event.mutation)).step Event.passFinished := by
    simp [run, List.foldl_append]
  rw [happ, hrun]
  refine ⟨hflight, rfl, ?_, ?_, ?_, fun hno => ?_⟩
  · simp only [step, hflight, meshReady]
    split_ifs <;> simp [generateMesh]
  · simp only [step, hflight, meshReady]
    split_ifs <;> simp [generateMesh]
  · simp only [step, hflight, meshReady]
    split_ifs <;> simp [generateMesh]
  · have hone : d.run [Event.passFinished] = d.meshReady := by
      simp [run, step]
    rw [hone]
    unfold meshReady
    rw [hflight, hno]
    simp only [Bool.false_eq_true, if_false]
    split_ifs <;> exact ⟨rfl, rfl⟩

/-- A document with pass 0 in flight receives three mutations: pass 0 stays in
flight, and when it finishes exactly pass 1 is started. -/
theorem mutations_coalesce_into_one_pass_witness :
    (init.run [Event.mutation]).m_meshGenerator = some 0 ∧
    ((init.run [Event.mutation]).run
      (List.replicate 3 Event.mutation ++ [Event.passFinished])).started = [0, 1] :=
  ⟨by decide,
    (mutations_coalesce_into_one_pass (init.run [Event.mutation]) 0 2 (by decide)).2.2.1.trans
      (by decide)⟩

end Document

end Dust3d

namespace Dust3d

namespace Component

/-! ## The smoothing parameters -/

/-- The value a smoothing setter stores is the argument clamped to `[0, 1]`. -/
theorem clamp_eq_max_min (v : Rat) :
    (if v < 0 then 0 else if v > 1 then 1 else v) = max 0 (min 1 v) := by
  by_cases h0 : v < 0
  · rw [if_pos h0, min_eq_right (by linarith), max_eq_left (le_of_lt h0)]
  · rw [if_neg h0]
    by_cases h1 : v > 1
    · rw [if_pos h1, min_eq_left (le_of_lt h1), max_eq_right (by norm_num)]
    · rw [if_neg h1, min_eq_right (not_lt.mp h1), max_eq_right (not_lt.mp h0)]

/-- A setter given the value it stored stores that value again. -/
theorem setSmoothAll_stored (c : Component) (v : Rat) :
    (c.setSmoothAll v).setSmoothAll (c.setSmoothAll v).smoothAll = c.setSmoothAll v := by
  have h : (c.setSmoothAll v).smoothAll = max 0 (min 1 v) := clamp_eq_max_min v
  have h0 : ¬ (c.setSmoothAll v).smoothAll < 0 := by rw [h]; exact not_lt.mpr (le_max_left _ _)
  have h1 : ¬ (c.setSmoothAll v).smoothAll > 1 := by
    rw [h]; exact not_lt.mpr (max_le (by norm_num) (min_le_left _ _))
  show ({ c.setSmoothAll v with
    smoothAll := if (c.setSmoothAll v).smoothAll < 0 then 0
      else if (c.setSmoothAll v).smoothAll > 1 then 1
      else (c.setSmoothAll v).smoothAll } : Component) = c.setSmoothAll v
  rw [if_neg h0, if_neg h1]

/-- The same for the seam. -/
theorem setSmoothSeam_stored (c : Component) (v : Rat) :
    (c.setSmoothSeam v).setSmoothSeam (c.setSmoothSeam v).smoothSeam = c.setSmoothSeam v := by
  have h : (c.setSmoothSeam v).smoothSeam = max 0 (min 1 v) := clamp_eq_max_min v
  have h0 : ¬ (c.setSmoothSeam v).smoothSeam < 0 := by
    rw [h]; exact not_lt.mpr (le_max_left _ _)
  have h1 : ¬ (c.setSmoothSeam v).smoothSeam > 1 := by
    rw [h]; exact not_lt.mpr (max_le (by norm_num) (min_le_left _ _))
  show ({ c.setSmoothSeam v with
    smoothSeam := if (c.setSmoothSeam v).smoothSeam < 0 then 0
      else if (c.setSmoothSeam v).smoothSeam > 1 then 1
      else (c.setSmoothSeam v).smoothSeam } : Component) = c.setSmoothSeam v
  rw [if_neg h0, if_neg h1]

/-- C26: after `setSmoothAll(v)` the member `smoothAll` is `max(0, min(1, v))`
and `smoothSeam` is as before; after `setSmoothSeam(v)` the member `smoothSeam`
is `max(0, min(1, v))` and `smoothAll` is as before; either setter called a
second time, with the same argument or with the value it stored, changes
nothing. -/
theorem smoothing_is_clamped (c : Component) (v : Rat) :
    (c.setSmoothAll v).smoothAll = max 0 (min 1 v)
      ∧ (c.setSmoothAll v).smoothSeam = c.smoothSeam
      ∧ (c.setSmoothSeam v).smoothSeam = max 0 (min 1 v)
      ∧ (c.setSmoothSeam v).smoothAll = c.smoothAll
      ∧ (c.setSmoothAll v).setSmoothAll v = c.setSmoothAll v
      ∧ (c.setSmoothSeam v).setSmoothSeam v = c.setSmoothSeam v
      ∧ (c.setSmoothAll v).setSmoothAll (c.setSmoothAll v).smoothAll = c.setSmoothAll v
      ∧ (c.setSmoothSeam v).setSmoothSeam (c.setSmoothSeam v).smoothSeam
          = c.setSmoothSeam v :=
  ⟨clamp_eq_max_min v, rfl, clamp_eq_max_min v, rfl, rfl, rfl, setSmoothAll_stored c v,
    setSmoothSeam_stored c v⟩

end Component

namespace PoseDocument

/-! ## Canvas and outcome coordinates -/

/-- C25: over the rationals, with the scale factor `0.5`, `toOutcomeX` and
`fromOutcomeX` are inverse to each other in both orders, and so are the pair
for Y and the pair for Z. -/
theorem outcome_conversions_are_inverse (x : Rat) :
    toOutcomeX (fromOutcomeX x) = x ∧ fromOutcomeX (toOutcomeX x) = x
      ∧ toOutcomeY (fromOutcomeY x) = x ∧ fromOutcomeY (toOutcomeY x) = x
      ∧ toOutcomeZ (fromOutcomeZ x) = x ∧ fromOutcomeZ (toOutcomeZ x) = x := by
  simp only [toOutcomeX, fromOutcomeX, toOutcomeY, fromOutcomeY, toOutcomeZ, fromOutcomeZ,
    m_outcomeScaleFactor]
  refine ⟨?_, ?_, ?_, ?_, ?_, ?_⟩ <;> norm_num

end PoseDocument

end Dust3d

namespace Dust3d

namespace PoseDocument

/-! ## The visibility of a side -/

/-- C27: after `setSideVisiableState(s, v)` the side `s` is visible exactly
when `v` says so and every other side is as visible as before; when `s` was
already as visible as `v` says, the document after the call is the document
before it. -/
theorem setSideVisiableState_sets_one_side (env : PoseExternals) (d : PoseDocument)
    (s : SkeletonSide) (v : Bool) :
    (d.setSideVisiableState env s v).isSideVisible s = v
      ∧ (∀ t, t ≠ s → (d.setSideVisiableState env s v).isSideVisible t = d.isSideVisible t)
      ∧ (d.isSideVisible s = v → d.setSideVisiableState env s v = d) := by
  unfold setSideVisiableState
  by_cases h : d.isSideVisible s = v
  · simp [h]
  · rw [if_neg h]
    refine ⟨?_, ?_, fun h' => absurd h' h⟩
    · cases v <;> simp_all [isSideVisible]
    · intro t ht
      cases v <;> simp [isSideVisible, Finset.mem_erase, Finset.mem_insert, ht]

end PoseDocument

namespace MotionClip

/-! ## The link of a motion clip -/

/-- C28: a clip made from the link data and the link data type of a clip `c`
has the clip type of `c`, and for the types `Pose` and `Motion` the `linkToId`
of `c` too; a link data type that is none of the four names makes a clip of
type `Pose` with a null `linkToId`. -/
theorem link_type_round_trip {ι π : Type} (conv : ClipConversions ι π) (i0 : ι) (p0 : π)
    (c : MotionClip ι π) :
    (create conv i0 p0 (c.linkData conv) c.linkDataType).clipType = c.clipType
      ∧ (c.clipType = MotionClipType.Pose ∨ c.clipType = MotionClipType.Motion →
          (create conv i0 p0 (c.linkData conv) c.linkDataType).linkToId = c.linkToId)
      ∧ ∀ data type : String, type ≠ "poseId" → type ≠ "InterpolationType" →
          type ≠ "ProceduralAnimation" → type ≠ "motionId" →
          (create conv i0 p0 data type).clipType = MotionClipType.Pose
            ∧ (create conv i0 p0 data type).linkToId = QUuid.null := by
  refine ⟨?_, ?_, ?_⟩
  · cases h : c.clipType <;> simp [create, linkDataType, h]
  · rintro (h | h) <;>
      simp [create, linkDataType, linkData, h, Component.ofString_toString]
  · intro data type h1 h2 h3 h4
    simp [create, init, Ne.symm h1, Ne.symm h2, Ne.symm h3, Ne.symm h4]

end MotionClip

end Dust3d

namespace Dust3d

namespace Motion

/-! ## The preview of a motion -/

/-- The `(int)` of a size is at most the size. -/
theorem toInt32_le (n : Nat) : toInt32 n ≤ (n : Int) := by
  unfold toInt32
  have h := Nat.mod_le n (2 ^ 32)
  split <;> omega

/-- The `(int)` of a size below `2^31` is the size. -/
theorem toInt32_small (n : Nat) (h : n < 2 ^ 31) : toInt32 n = (n : Int) := by
  unfold toInt32
  have h1 : n % 2 ^ 32 = n := Nat.mod_eq_of_lt (by omega)
  rw [h1, if_pos h]

/-- The index `middle` is a position of a vector that is not empty. -/
theorem middle_in_range (n : Nat) (h : 0 < n) : 0 ≤ middle n ∧ middle n < (n : Int) := by
  unfold middle
  refine ⟨le_max_right _ _, max_lt ?_ (by omega)⟩
  have hle := toInt32_le n
  rcases lt_or_le (toInt32 n) 0 with hneg | hpos
  · have h1 : Int.tdiv (toInt32 n) 2 = -(Int.tdiv (-(toInt32 n)) 2) := by
      rw [Int.neg_tdiv, neg_neg]
    rw [h1, Int.tdiv_eq_ediv (by omega) (by omega)]
    omega
  · rw [Int.tdiv_eq_ediv hpos (by omega)]
    omega

/-- Below `2^31` entries the index is `max(n / 2 - 1, 0)`. -/
theorem middle_small (n : Nat) (h : n < 2 ^ 31) : middle n = max ((n : Int) / 2 - 1) 0 := by
  unfold middle
  rw [toInt32_small n h, Int.tdiv_eq_ediv (by omega) (by omega)]

/-- C29 fails for a vector of `2^31` entries, where the conversion `(int)` of
the size wraps: `takePreviewMesh` copies the first mesh, here `1`, not the
mesh at the index `n / 2 - 1`, here `2`. -/
theorem preview_of_huge_motion_is_first_mesh :
    takePreviewMesh ({ m_previewMeshs := (0, 1) :: List.replicate (2 ^ 31 - 1) (0, 2) } :
        Motion Nat) = some 1
      ∧ (((0, 1) :: List.replicate (2 ^ 31 - 1) (0, 2) : List (Rat × Nat))[
          (max ((((2 ^ 31 : Nat) : Int)) / 2 - 1) 0).toNat]?).map Prod.snd = some 2 := by
  have hm : middle 2147483648 = 0 := by decide
  have hi : (max ((((2 ^ 31 : Nat) : Int)) / 2 - 1) 0).toNat = 1073741822 + 1 := by decide
  constructor
  · unfold takePreviewMesh
    rw [if_neg (by rw [List.isEmpty_cons]; exact Bool.false_ne_true)]
    rw [List.length_cons, List.length_replicate]
    rw [show 2 ^ 31 - 1 + 1 = 2147483648 from by norm_num, hm, Int.toNat_zero,
      List.getElem?_cons_zero]
    rfl
  · rw [hi, List.getElem?_cons_succ, List.getElem?_replicate,
      if_pos (by norm_num)]
    rfl

/-- C29 (amended): `takePreviewMesh` returns null for a motion without preview
meshes; otherwise it copies the mesh at the index `middle`, which is at least
0 and less than the number `n` of preview meshes; for `n` below `2^31` that
index is `max(n / 2 - 1, 0)`. -/
theorem takePreviewMesh_index_in_range {μ : Type} (m : Motion μ) :
    (m.m_previewMeshs.length = 0 → m.takePreviewMesh = none)
      ∧ (0 < m.m_previewMeshs.length →
          0 ≤ middle m.m_previewMeshs.length
            ∧ middle m.m_previewMeshs.length < (m.m_previewMeshs.length : Int)
            ∧ ∃ mesh, m.m_previewMeshs[(middle m.m_previewMeshs.length).toNat]? = some mesh
                ∧ m.takePreviewMesh = some mesh.2)
      ∧ (m.m_previewMeshs.length < 2 ^ 31 →
          middle m.m_previewMeshs.length = max ((m.m_previewMeshs.length : Int) / 2 - 1) 0) := by
  refine ⟨?_, ?_, middle_small _⟩
  · intro h
    have : m.m_previewMeshs = [] := List.length_eq_zero.mp h
    simp [takePreviewMesh, this]
  · intro h
    obtain ⟨h0, h1⟩ := middle_in_range _ h
    have hlt : (middle m.m_previewMeshs.length).toNat < m.m_previewMeshs.length := by omega
    refine ⟨h0, h1, m.m_previewMeshs[(middle m.m_previewMeshs.length).toNat], ?_, ?_⟩
    · exact List.getElem?_eq_getElem hlt
    · have hne : m.m_previewMeshs.isEmpty = false := by
        cases hl : m.m_previewMeshs with
        | nil => rw [hl] at h; simp at h
        | cons a l => rfl
      simp [takePreviewMesh, hne, List.getElem?_eq_getElem hlt]

end Motion

end Dust3d

namespace Dust3d

namespace PoseDocument

/-! ## The history of a pose document -/

theorem addPartIdOfSide_histories (env : PoseExternals) (d : PoseDocument) (side : SkeletonSide) :
    histories (addPartIdOfSide env d side) = histories d := by
  unfold addPartIdOfSide
  split <;> rfl

theorem headNode_histories (env : PoseExternals) (rigBones : List RiggerBone) (b : NodeBuild)
    (index : Int) (side : SkeletonSide) (suffix : String) :
    histories (headNode env rigBones b index side suffix).1.doc = histories b.doc := by
  unfold headNode
  split
  · rfl
  · split <;> rfl

theorem addEdgePair_histories (env : PoseExternals) (rigBones : List RiggerBone)
    (b : NodeBuild) (edgePair : Int × Int) :
    histories (addEdgePair env rigBones b edgePair).doc = histories b.doc := by
  unfold addEdgePair
  simp only []
  split_ifs
  · rw [headNode_histories, headNode_histories]
  · rw [headNode_histories, headNode_histories]
  · show histories (headNode _ _ _ _ _ _).1.doc = _
    rw [headNode_histories, headNode_histories]

theorem addLeafHead_histories (env : PoseExternals) (rigBones : List RiggerBone)
    (b : NodeBuild) (i : Nat) :
    histories (addLeafHead env rigBones b i).doc = histories b.doc := by
  unfold addLeafHead
  split_ifs <;> rfl

theorem addBoneIds_histories (env : PoseExternals) (rigBones : List RiggerBone)
    (b : NodeBuild) (i : Nat) :
    histories (addBoneIds env rigBones b i).doc = histories b.doc := by
  unfold addBoneIds
  split_ifs <;> rfl

theorem foldl_histories {α : Type} (f : NodeBuild → α → NodeBuild)
    (h : ∀ b a, histories (f b a).doc = histories b.doc) (l : List α) (b : NodeBuild) :
    histories (l.foldl f b).doc = histories b.doc := by
  induction l generalizing b with
  | nil => rfl
  | cons a l ih => rw [List.foldl_cons, ih, h]

theorem allBuilt_histories (env : PoseExternals) (d : PoseDocument)
    (rigBones : List RiggerBone) (names : StdMap String (QUuid × QUuid)) :
    histories (allBuilt env d rigBones names).doc = histories d := by
  unfold allBuilt leafHeadsBuilt edgesBuilt startBuild
  rw [foldl_histories _ (addBoneIds_histories env rigBones),
    foldl_histories _ (addLeafHead_histories env rigBones),
    foldl_histories _ (addEdgePair_histories env rigBones)]
  show histories (addPartIdOfSide _ _ _) = _
  rw [addPartIdOfSide_histories, addPartIdOfSide_histories, addPartIdOfSide_histories]

theorem finishBuild_histories (b : NodeBuild) (isOther : Bool) :
    histories (finishBuild b isOther) = histories b.doc := by
  unfold finishBuild
  cases isOther <;> cases b.boneIndexToHeadNodeIdMap 0 <;> rfl

theorem parametersToNodes_histories (env : PoseExternals) (d : PoseDocument)
    (rigBones : List RiggerBone) (names : StdMap String (QUuid × QUuid)) (isOther : Bool) :
    histories (parametersToNodes env d rigBones names isOther).1 = histories d := by
  unfold parametersToNodes
  split
  · rfl
  · show histories (finishBuild _ _) = _
    rw [finishBuild_histories, allBuilt_histories]

theorem foldl_doc_histories {α : Type} (f : PoseDocument → α → PoseDocument)
    (h : ∀ d a, histories (f d a) = histories d) (l : List α) (d : PoseDocument) :
    histories (l.foldl f d) = histories d := by
  induction l generalizing d with
  | nil => rfl
  | cons a l ih => rw [List.foldl_cons, ih, h]

/-- `fromParameters` leaves the two stacks of the history as they are. -/
theorem fromParameters_histories (env : PoseExternals) (d : PoseDocument)
    (rigBones : List RiggerBone) (parameters : Parameters) :
    histories (fromParameters env d rigBones parameters) = histories d := by
  unfold fromParameters
  split
  · rfl
  · show histories (parametersToNodes _ _ _ _ _).1 = _
    rw [parametersToNodes_histories,
      foldl_doc_histories _ (fun doc a => parametersToNodes_histories env doc _ _ true)]
    rfl

theorem fromParameters_undoItems (env : PoseExternals) (d : PoseDocument)
    (rigBones : List RiggerBone) (parameters : Parameters) :
    (fromParameters env d rigBones parameters).m_undoItems = d.m_undoItems :=
  congrArg Prod.fst (fromParameters_histories env d rigBones parameters)

theorem fromParameters_redoItems (env : PoseExternals) (d : PoseDocument)
    (rigBones : List RiggerBone) (parameters : Parameters) :
    (fromParameters env d rigBones parameters).m_redoItems = d.m_redoItems :=
  congrArg Prod.snd (fromParameters_histories env d rigBones parameters)

/-- A list of two items or more ends in two items. -/
theorem two_at_the_back {α : Type} (l : List α) (h : l.length ≥ 2) :
    ∃ front a b, l = front ++ [a, b] := by
  induction l with
  | nil => simp at h
  | cons x l ih =>
    match l, h, ih with
    | [y], _, _ => exact ⟨[], x, y, rfl⟩
    | y :: z :: l', _, ih =>
      obtain ⟨front, a, b, hl⟩ := ih (by simp)
      exact ⟨x :: front, a, b, by rw [hl]; rfl⟩

/-- What `undo` does to a document with two items or more to undo. -/
theorem undo_of_two (env : PoseExternals) (d : PoseDocument) (front : List PoseHistoryItem)
    (a b : PoseHistoryItem) (h : d.m_undoItems = front ++ [a, b]) :
    d.undo env = fromParameters env
      { d with m_redoItems := d.m_redoItems ++ [b], m_undoItems := front ++ [a] }
      d.m_riggerBones a.parameters := by
  have hl : d.m_undoItems.getLast? = some b := by
    rw [h, show front ++ [a, b] = (front ++ [a]) ++ [b] by simp, List.getLast?_concat]
  have hd : d.m_undoItems.dropLast = front ++ [a] := by
    rw [h, show front ++ [a, b] = (front ++ [a]) ++ [b] by simp, List.dropLast_concat]
  have hu : d.undoable = true := by simp [undoable, h]
  unfold undo
  rw [hu, hl, hd, List.getLast?_concat]
  rfl

/-- What `redo` does to a document with an item to redo. -/
theorem redo_of_concat (env : PoseExternals) (d : PoseDocument)
    (front : List PoseHistoryItem) (b : PoseHistoryItem) (h : d.m_redoItems = front ++ [b]) :
    d.redo env =
      { fromParameters env { d with m_undoItems := d.m_undoItems ++ [b] }
          d.m_riggerBones b.parameters with
        m_redoItems := front } := by
  have hl : d.m_redoItems.getLast? = some b := by rw [h, List.getLast?_concat]
  have hd : (fromParameters env { d with m_undoItems := d.m_undoItems ++ [b] }
      d.m_riggerBones b.parameters).m_redoItems.dropLast = front := by
    rw [fromParameters_redoItems]
    show d.m_redoItems.dropLast = front
    rw [h, List.dropLast_concat]
  unfold redo
  rw [hl]
  simp only []
  rw [hd]

/-- C23: when `undoable()` holds, `undo()` followed by `redo()` leaves the undo
stack and the redo stack as they were, and the document after the `redo()` is
what `fromParameters` makes with the parameters of the item that is on top of
the undo stack again; when `undoable()` does not hold, `undo()` leaves the
document, and so both stacks, as it is. -/
theorem undo_then_redo_restores_history (env : PoseExternals) (d : PoseDocument) :
    (d.undoable = true →
        ((d.undo env).redo env).m_undoItems = d.m_undoItems
          ∧ ((d.undo env).redo env).m_redoItems = d.m_redoItems
          ∧ ∃ item, ((d.undo env).redo env).m_undoItems.getLast? = some item
              ∧ (d.undo env).redo env =
                { fromParameters env { d.undo env with m_undoItems := d.m_undoItems }
                    (d.undo env).m_riggerBones item.parameters with
                  m_redoItems := d.m_redoItems })
      ∧ (d.undoable = false →
          d.undo env = d ∧ (d.undo env).m_undoItems = d.m_undoItems
            ∧ (d.undo env).m_redoItems = d.m_redoItems) := by
  constructor
  · intro hu
    obtain ⟨front, a, b, h⟩ := two_at_the_back d.m_undoItems (by simpa [undoable] using hu)
    have hundo := undo_of_two env d front a b h
    have h1 : (d.undo env).m_undoItems = front ++ [a] := by
      rw [hundo, fromParameters_undoItems]
    have h2 : (d.undo env).m_redoItems = d.m_redoItems ++ [b] := by
      rw [hundo, fromParameters_redoItems]
    have h3 : (d.undo env).m_undoItems ++ [b] = d.m_undoItems := by rw [h1, h]; simp
    have hredo : (d.undo env).redo env =
        { fromParameters env { d.undo env with m_undoItems := d.m_undoItems }
            (d.undo env).m_riggerBones b.parameters with
          m_redoItems := d.m_redoItems } := by
      have hr := redo_of_concat env (d.undo env) d.m_redoItems b h2
      rw [h3] at hr
      exact hr
    have h4 : ((d.undo env).redo env).m_undoItems = d.m_undoItems := by
      rw [hredo]
      show (fromParameters _ _ _ _).m_undoItems = _
      rw [fromParameters_undoItems]
    refine ⟨h4, by rw [hredo], b, ?_, hredo⟩
    rw [h4, h, show front ++ [a, b] = (front ++ [a]) ++ [b] by simp, List.getLast?_concat]
  · intro hu
    have : d.undo env = d := by unfold undo; rw [hu]; rfl
    rw [this]
    exact ⟨rfl, rfl, rfl⟩

/-- The sample document can undo, and undo followed by redo restores it. -/
theorem undo_then_redo_restores_history_witness :
    twoItems.undoable = true
      ∧ ((twoItems.undo sampleExternals).redo sampleExternals).m_undoItems
          = twoItems.m_undoItems :=
  ⟨by decide, ((undo_then_redo_restores_history sampleExternals twoItems).1 (by decide)).1⟩


/-- What `undo` does to the two stacks. -/
theorem undo_stacks (env : PoseExternals) (d : PoseDocument) :
    (d.undoable = false ∧ d.undo env = d)
      ∨ ∃ front a b, d.m_undoItems = front ++ [a, b]
          ∧ (d.undo env).m_undoItems = front ++ [a]
          ∧ (d.undo env).m_redoItems = d.m_redoItems ++ [b] := by
  cases hu : d.undoable with
  | false =>
    left
    refine ⟨rfl, ?_⟩
    unfold undo; rw [hu]; rfl
  | true =>
    right
    obtain ⟨front, a, b, h⟩ := two_at_the_back d.m_undoItems (by simpa [undoable] using hu)
    refine ⟨front, a, b, h, ?_, ?_⟩
    · rw [undo_of_two env d front a b h, fromParameters_undoItems]
    · rw [undo_of_two env d front a b h, fromParameters_redoItems]

/-- What `redo` does to the two stacks. -/
theorem redo_stacks (env : PoseExternals) (d : PoseDocument) :
    (d.m_redoItems = [] ∧ d.redo env = d)
      ∨ ∃ front b, d.m_redoItems = front ++ [b]
          ∧ (d.redo env).m_undoItems = d.m_undoItems ++ [b]
          ∧ (d.redo env).m_redoItems = front := by
  rcases List.eq_nil_or_concat d.m_redoItems with h | ⟨front, b, h⟩
  on_goal 2 => rw [List.concat_eq_append] at h
  · left
    refine ⟨h, ?_⟩
    unfold redo; rw [h]; rfl
  · right
    refine ⟨front, b, h, ?_, ?_⟩
    · rw [redo_of_concat env d front b h]
      show (fromParameters _ _ _ _).m_undoItems = _
      rw [fromParameters_undoItems]
    · rw [redo_of_concat env d front b h]

/-- Each call keeps: a redo stack with an item comes with an undo stack with
an item. -/
theorem call_keeps_undo_under_redo (env : PoseExternals) (d : PoseDocument) (c : HistoryCall)
    (h : d.m_redoItems ≠ [] → d.m_undoItems ≠ []) :
    (d.call env c).m_redoItems ≠ [] → (d.call env c).m_undoItems ≠ [] := by
  cases c with
  | saveHistoryItem =>
    intro _
    show d.m_undoItems ++ [_] ≠ []
    simp
  | undo =>
    show (d.undo env).m_redoItems ≠ [] → (d.undo env).m_undoItems ≠ []
    rcases undo_stacks env d with ⟨_, h'⟩ | ⟨front, a, b, _, h1, _⟩
    · rw [h']; exact h
    · intro _; rw [h1]; simp
  | redo =>
    show (d.redo env).m_redoItems ≠ [] → (d.redo env).m_undoItems ≠ []
    rcases redo_stacks env d with ⟨_, h'⟩ | ⟨front, b, _, h1, _⟩
    · rw [h']; exact h
    · intro _; rw [h1]; simp
  | clearHistories =>
    intro h'
    exact absurd rfl h'

/-- After any calls from a document that satisfies it, a redo stack with an
item comes with an undo stack with an item. -/
theorem calls_keep_undo_under_redo (env : PoseExternals) (cs : List HistoryCall)
    (d : PoseDocument) (h : d.m_redoItems ≠ [] → d.m_undoItems ≠ []) :
    (d.calls env cs).m_redoItems ≠ [] → (d.calls env cs).m_undoItems ≠ [] := by
  induction cs generalizing d with
  | nil => exact h
  | cons c cs ih => exact ih (d.call env c) (call_keeps_undo_under_redo env d c h)

/-- C24: in every state reached from an empty history by calls of
`saveHistoryItem`, `undo`, `redo` and `clearHistories`, a redo stack with an
item comes with an undo stack with an item; `undo` does not empty an undo stack
that holds an item; `undo` and `redo` each keep the number of items of the two
stacks together; and after a `redo` that had an item to take, `undoable()`
holds. -/
theorem history_invariant (env : PoseExternals) (d : PoseDocument) (cs : List HistoryCall)
    (h : histories d = ([], [])) :
    ((d.calls env cs).m_redoItems ≠ [] → (d.calls env cs).m_undoItems ≠ [])
      ∧ ((d.calls env cs).m_undoItems ≠ [] → ((d.calls env cs).undo env).m_undoItems ≠ [])
      ∧ ((d.calls env cs).undo env).m_undoItems.length
            + ((d.calls env cs).undo env).m_redoItems.length
          = (d.calls env cs).m_undoItems.length + (d.calls env cs).m_redoItems.length
      ∧ ((d.calls env cs).redo env).m_undoItems.length
            + ((d.calls env cs).redo env).m_redoItems.length
          = (d.calls env cs).m_undoItems.length + (d.calls env cs).m_redoItems.length
      ∧ ((d.calls env cs).redoable = true → ((d.calls env cs).redo env).undoable = true) := by
  have hinv := calls_keep_undo_under_redo env cs d
    (fun hne => absurd (congrArg Prod.snd h) hne)
  generalize d.calls env cs = s at hinv ⊢
  refine ⟨hinv, ?_, ?_, ?_, ?_⟩
  · rcases undo_stacks env s with ⟨_, h'⟩ | ⟨front, a, b, _, h1, _⟩
    · rw [h']; exact id
    · intro _; rw [h1]; simp
  · rcases undo_stacks env s with ⟨_, h'⟩ | ⟨front, a, b, h0, h1, h2⟩
    · rw [h']
    · rw [h1, h2, h0]; simp; omega
  · rcases redo_stacks env s with ⟨_, h'⟩ | ⟨front, b, h0, h1, h2⟩
    · rw [h']
    · rw [h1, h2, h0]; simp; omega
  · intro hre
    rcases redo_stacks env s with ⟨h0, _⟩ | ⟨front, b, h0, h1, _⟩
    · simp [redoable, h0] at hre
    · have hne : s.m_undoItems ≠ [] := hinv (by rw [h0]; simp)
      have hpos : 0 < s.m_undoItems.length := List.length_pos.mpr hne
      simp only [undoable, h1, List.length_append, List.length_singleton, decide_eq_true_eq]
      omega

/-- The empty pose document has an empty history; after two items are saved
and one is undone, the redo stack and the undo stack both hold an item. -/
theorem history_invariant_witness :
    histories PoseDocument.init = ([], [])
      ∧ ((PoseDocument.init.calls sampleExternals
          [HistoryCall.saveHistoryItem, HistoryCall.saveHistoryItem,
            HistoryCall.undo]).m_redoItems ≠ [] →
        (PoseDocument.init.calls sampleExternals
          [HistoryCall.saveHistoryItem, HistoryCall.saveHistoryItem,
            HistoryCall.undo]).m_undoItems ≠ []) :=
  ⟨rfl, (history_invariant sampleExternals PoseDocument.init
    [HistoryCall.saveHistoryItem, HistoryCall.saveHistoryItem, HistoryCall.undo] rfl).1⟩

end PoseDocument

end Dust3d

namespace Dust3d

namespace PoseDocument

/-! ## The nodes and edges made from bones -/

theorem touch_of_some {κ α : Type} [DecidableEq κ] (m : StdMap κ α) (k : κ) (fresh v : α)
    (h : m k = some v) (j : κ) : StdMap.touch m k fresh j = m j := by
  unfold StdMap.touch StdMap.set StdMap.get
  by_cases hj : j = k
  · rw [if_pos hj, hj, h]; rfl
  · rw [if_neg hj]

theorem partIdOfSide_eq {d : PoseDocument} {partIds : SkeletonSide → QUuid}
    (hp : ∀ side, d.m_partIdMap side = some (partIds side)) (side : SkeletonSide) :
    d.partIdOfSide side = partIds side := by
  unfold partIdOfSide StdMap.get
  rw [hp side]; rfl

theorem touchPartIdOfSide_parts {d : PoseDocument} {partIds : SkeletonSide → QUuid}
    (hp : ∀ side, d.m_partIdMap side = some (partIds side)) (side s : SkeletonSide) :
    (d.touchPartIdOfSide side).m_partIdMap s = some (partIds s) := by
  show StdMap.touch d.m_partIdMap side QUuid.null s = _
  rw [touch_of_some _ _ _ _ (hp side)]
  exact hp s

theorem MadeSince.mono {env : PoseExternals} {first : Nat} {d d' : PoseDocument} {u : QUuid}
    (h : MadeSince env first d u) (hc : d.uuidsCreated ≤ d'.uuidsCreated) :
    MadeSince env first d' u := by
  obtain ⟨k, h1, h2, h3⟩ := h
  exact ⟨k, h1, lt_of_lt_of_le h2 hc, h3⟩

/-- The uuid the next call returns is none of those made before. -/
theorem made_ne_next {env : PoseExternals} {first last : Nat} {d : PoseDocument} {u : QUuid}
    (hf : FreshUuids env first last) (hc : first ≤ d.uuidsCreated)
    (hl : d.uuidsCreated < last) (hu : MadeSince env first d u) :
    u ≠ env.createUuid d.uuidsCreated := by
  obtain ⟨k, h1, h2, h3⟩ := hu
  rw [← h3]
  exact ((hf d.uuidsCreated hl hc).2 k h2 h1)

/-- The uuid the next call returns is not null. -/
theorem next_ne_null {env : PoseExternals} {first last : Nat} {d : PoseDocument}
    (hf : FreshUuids env first last) (hc : first ≤ d.uuidsCreated)
    (hl : d.uuidsCreated < last) : env.createUuid d.uuidsCreated ≠ QUuid.null :=
  (hf d.uuidsCreated hl hc).1

theorem Continues.refl (env : PoseExternals) (first : Nat) (d : PoseDocument) :
    Continues env first d d :=
  ⟨le_rfl, fun _ _ => rfl, fun _ node _ h => ⟨node, h, rfl, fun _ hx => hx⟩⟩

theorem Continues.trans {env : PoseExternals} {first : Nat} {d d1 d2 : PoseDocument}
    (h1 : Continues env first d d1) (h2 : Continues env first d1 d2) :
    Continues env first d d2 := by
  refine ⟨le_trans h1.count h2.count, ?_, ?_⟩
  · intro e he
    rw [h2.edges e (he.mono h1.count), h1.edges e he]
  · intro u node hu hn
    obtain ⟨n1, hn1, hp1, he1⟩ := h1.nodes u node hu hn
    obtain ⟨n2, hn2, hp2, he2⟩ := h2.nodes u n1 (hu.mono h1.count) hn1
    exact ⟨n2, hn2, hp2.trans hp1, fun e he => he2 e (he1 e he)⟩

/-- A document with the same nodes and edges continues the other. -/
theorem Continues.of_maps (env : PoseExternals) (first : Nat) {d d' : PoseDocument}
    (hc : d.uuidsCreated ≤ d'.uuidsCreated) (he : d'.edgeMap = d.edgeMap)
    (hn : d'.nodeMap = d.nodeMap) : Continues env first d d' :=
  ⟨hc, fun _ _ => by rw [he], fun _ node _ h => ⟨node, by rw [hn]; exact h, rfl, fun _ hx => hx⟩⟩

theorem NodeMade.node_continues {env : PoseExternals} {first : Nat} {d d' : PoseDocument}
    {partId u : QUuid} (h : NodeMade env first d partId u) (hc : Continues env first d d') :
    NodeMade env first d' partId u := by
  obtain ⟨h0, hm, node, hn, hp⟩ := h
  obtain ⟨node', hn', hp', _⟩ := hc.nodes u node hm hn
  exact ⟨h0, hm.mono hc.count, node', hn', hp'.trans hp⟩

theorem EdgeMade.edge_continues {env : PoseExternals} {first : Nat} {d d' : PoseDocument}
    {e : QUuid} (h : EdgeMade env first d e) (hc : Continues env first d d') :
    EdgeMade env first d' e := by
  obtain ⟨hm, edge, u, v, nodeU, nodeV, he, hl, hu0, hv0, hmu, hmv, hnu, hnv, hpu, hpv, heu, hev⟩ := h
  obtain ⟨nodeU', hnu', hpu', heu'⟩ := hc.nodes u nodeU hmu hnu
  obtain ⟨nodeV', hnv', hpv', hev'⟩ := hc.nodes v nodeV hmv hnv
  exact ⟨hm.mono hc.count, edge, u, v, nodeU', nodeV', by rw [hc.edges e hm]; exact he, hl,
    hu0, hv0, hmu.mono hc.count, hmv.mono hc.count, hnu', hnv', hpu'.trans hpu,
    hpv'.trans hpv, heu' e heu, hev' e hev⟩

/-- A well formed edge in the sense of `EdgeMade` passes the test
`wellFormedEdge`. -/
theorem EdgeMade.wellFormed {env : PoseExternals} {first : Nat} {d : PoseDocument}
    {e : QUuid} (h : EdgeMade env first d e) : wellFormedEdge d e = true := by
  obtain ⟨_, edge, u, v, nodeU, nodeV, he, hl, hu0, hv0, _, _, hnu, hnv, hpu, hpv, heu, hev⟩ := h
  unfold wellFormedEdge
  rw [he]
  simp only [hl, hnu, hnv]
  simp [QUuid.isNull, hu0, hv0, hpu, hpv, heu, hev]

/-- What `pushEdgeId` does to a node that is stored. -/
theorem pushEdgeId_node (d : PoseDocument) (v e u : QUuid) (node : SkeletonNode)
    (h : d.nodeMap u = some node) :
    ∃ node', (d.pushEdgeId v e).nodeMap u = some node' ∧ node'.partId = node.partId
      ∧ (∀ x ∈ node.edgeIds, x ∈ node'.edgeIds) ∧ (u = v → e ∈ node'.edgeIds) := by
  by_cases huv : u = v
  · subst huv
    refine ⟨{ node with edgeIds := node.edgeIds ++ [e] }, ?_, rfl, ?_, ?_⟩
    · simp [pushEdgeId, StdMap.set, StdMap.get, h]
    · intro x hx; exact List.mem_append_left _ hx
    · intro _; simp
  · refine ⟨node, ?_, rfl, fun _ hx => hx, fun h' => absurd h' huv⟩
    simp [pushEdgeId, StdMap.set, huv, h]

theorem pushEdgeId_continues (env : PoseExternals) (first : Nat) (d : PoseDocument)
    (v e : QUuid) : Continues env first d (d.pushEdgeId v e) := by
  refine ⟨le_rfl, fun _ _ => rfl, ?_⟩
  intro u node _ hn
  obtain ⟨node', h1, h2, h3, _⟩ := pushEdgeId_node d v e u node hn
  exact ⟨node', h1, h2, h3⟩

theorem setNodeRadius_continues (env : PoseExternals) (first : Nat) (d : PoseDocument)
    (v : QUuid) (radius : Rat) : Continues env first d (d.setNodeRadius v radius) := by
  refine ⟨le_rfl, fun _ _ => rfl, ?_⟩
  intro u node _ hn
  by_cases huv : u = v
  · subst huv
    exact ⟨{ node with radius := radius }, by simp [setNodeRadius, StdMap.set, StdMap.get, hn],
      rfl, fun _ hx => hx⟩
  · exact ⟨node, by simp [setNodeRadius, StdMap.set, huv, hn], rfl, fun _ hx => hx⟩

/-- The document after a node was made continues the one before. -/
theorem addNode_continues {env : PoseExternals} {first last : Nat} {d : PoseDocument}
    (hf : FreshUuids env first last) (hc : first ≤ d.uuidsCreated)
    (hl : d.uuidsCreated < last) (side : SkeletonSide) (radius : Rat) (position : QVector3D)
    (name : String) : Continues env first d (addNode env d side radius position name).1 := by
  refine ⟨Nat.le_succ _, fun _ _ => rfl, ?_⟩
  intro u node hu hn
  refine ⟨node, ?_, rfl, fun _ hx => hx⟩
  have hne := made_ne_next hf hc hl hu
  simp [addNode, setNode, StdMap.set, hne, pushNodeId, countUuid, touchPartIdOfSide, hn]

/-- The node made is stored, under the uuid of the next call, on the part of
the side. -/
theorem addNode_made {env : PoseExternals} {first last : Nat} {d : PoseDocument}
    {partIds : SkeletonSide → QUuid}
    (hf : FreshUuids env first last) (hc : first ≤ d.uuidsCreated)
    (hl : d.uuidsCreated < last) (hp : ∀ side, d.m_partIdMap side = some (partIds side))
    (side : SkeletonSide) (radius : Rat) (position : QVector3D) (name : String) :
    NodeMade env first (addNode env d side radius position name).1 (partIds side)
      (addNode env d side radius position name).2.id := by
  refine ⟨next_ne_null hf hc hl, ⟨d.uuidsCreated, hc, Nat.lt_succ_self _, rfl⟩,
    (addNode env d side radius position name).2, ?_, partIdOfSide_eq hp side⟩
  simp [addNode, setNode, StdMap.set]

theorem addNode_parts (env : PoseExternals) {d : PoseDocument}
    {partIds : SkeletonSide → QUuid}
    (hp : ∀ side, d.m_partIdMap side = some (partIds side))
    (side : SkeletonSide) (radius : Rat) (position : QVector3D) (name : String)
    (s : SkeletonSide) :
    (addNode env d side radius position name).1.m_partIdMap s = some (partIds s) :=
  touchPartIdOfSide_parts hp side s

/-- An edge made between two nodes made before is well formed, and the
document after it continues the one before. -/
theorem edge_made {env : PoseExternals} {first last : Nat} {d : PoseDocument}
    {partId u v : QUuid}
    (hf : FreshUuids env first last) (hc : first ≤ d.uuidsCreated)
    (hl : d.uuidsCreated < last)
    (hu : NodeMade env first d partId u) (hv : NodeMade env first d partId v)
    (d' : PoseDocument) (hcount : d'.uuidsCreated = d.uuidsCreated + 1)
    (hedge : d'.edgeMap = StdMap.set d.edgeMap (env.createUuid d.uuidsCreated)
      { id := env.createUuid d.uuidsCreated, partId := partId, nodeIds := [u, v] })
    (hnode : d'.nodeMap = ((d.pushEdgeId u (env.createUuid d.uuidsCreated)).pushEdgeId v
      (env.createUuid d.uuidsCreated)).nodeMap) :
    Continues env first d d' ∧ EdgeMade env first d' (env.createUuid d.uuidsCreated) := by
  have hcont : Continues env first d d' := by
    refine ⟨by omega, ?_, ?_⟩
    · intro e he
      have hne := made_ne_next hf hc hl he
      rw [hedge]
      simp [StdMap.set, hne]
    · intro w node hw hn
      rw [hnode]
      exact ((pushEdgeId_continues env first d u _).trans
        (pushEdgeId_continues env first _ v _)).nodes w node hw hn
  refine ⟨hcont, ⟨d.uuidsCreated, hc, by omega, rfl⟩,
    ({ id := env.createUuid d.uuidsCreated, partId := partId, nodeIds := [u, v] } :
      SkeletonEdge), u, v, ?_⟩
  obtain ⟨hu0, hmu, nodeU, hnu, hpu⟩ := hu
  obtain ⟨hv0, hmv, nodeV, hnv, hpv⟩ := hv
  obtain ⟨nodeU1, hnu1, hpu1, _, heu1⟩ := pushEdgeId_node d u (env.createUuid d.uuidsCreated) u nodeU hnu
  obtain ⟨nodeU2, hnu2, hpu2, heu2, _⟩ :=
    pushEdgeId_node _ v (env.createUuid d.uuidsCreated) u nodeU1 hnu1
  obtain ⟨nodeV1, hnv1, hpv1, _, _⟩ := pushEdgeId_node d u (env.createUuid d.uuidsCreated) v nodeV hnv
  obtain ⟨nodeV2, hnv2, hpv2, _, hev2⟩ :=
    pushEdgeId_node _ v (env.createUuid d.uuidsCreated) v nodeV1 hnv1
  refine ⟨nodeU2, nodeV2, ?_, rfl, hu0, hv0, hmu.mono hcont.count, hmv.mono hcont.count,
    by rw [hnode]; exact hnu2, by rw [hnode]; exact hnv2, ?_, ?_, heu2 _ (heu1 rfl), hev2 rfl⟩
  · rw [hedge]; simp [StdMap.set]
  · rw [hpu2, hpu1, hpu]
  · rw [hpv2, hpv1, hpv]

/-! ### One round of each loop -/

theorem headNode_count_le (env : PoseExternals) (rigBones : List RiggerBone) (b : NodeBuild)
    (index : Int) (side : SkeletonSide) (suffix : String) :
    b.doc.uuidsCreated ≤ (headNode env rigBones b index side suffix).1.doc.uuidsCreated := by
  unfold headNode
  split
  · exact le_rfl
  · split
    · exact Nat.le_succ _
    · exact le_rfl

/-- The lookup of a head node keeps the invariant; the id it returns is null
or the id of a node on the part of the side of the bone. -/
theorem headNode_inv {env : PoseExternals} {rigBones : List RiggerBone} {first last : Nat}
    {partIds : SkeletonSide → QUuid} {b : NodeBuild}
    (hf : FreshUuids env first last) (hb : BuildInv env rigBones first partIds b)
    (index : Int) (suffix : String)
    (hl : (headNode env rigBones b index (env.sideFromBoneName (boneAt rigBones index).name)
      suffix).1.doc.uuidsCreated ≤ last) :
    BuildInv env rigBones first partIds
        (headNode env rigBones b index (env.sideFromBoneName (boneAt rigBones index).name)
          suffix).1
      ∧ Continues env first b.doc
        (headNode env rigBones b index (env.sideFromBoneName (boneAt rigBones index).name)
          suffix).1.doc
      ∧ ((headNode env rigBones b index (env.sideFromBoneName (boneAt rigBones index).name)
            suffix).2 ≠ QUuid.null →
          NodeMade env first
            (headNode env rigBones b index (env.sideFromBoneName (boneAt rigBones index).name)
              suffix).1.doc
            (partIds (env.sideFromBoneName (boneAt rigBones index).name))
            (headNode env rigBones b index (env.sideFromBoneName (boneAt rigBones index).name)
              suffix).2) := by
  unfold headNode at hl ⊢
  split at hl
  · next found hfound =>
    simp only [hfound]
    exact ⟨hb, Continues.refl _ _ _, fun _ => hb.heads index found hfound⟩
  · next hnone =>
    simp only [hnone]
    split at hl
    · next hvirtual =>
      rw [if_pos hvirtual]
      have hl' : b.doc.uuidsCreated < last := hl
      have hcont := addNode_continues hf hb.count hl'
        (env.sideFromBoneName (boneAt rigBones index).name) m_nodeRadius
        (boneAt rigBones index).headPosition ((boneAt rigBones index).name ++ suffix)
      have hmade := addNode_made hf hb.count hl' hb.parts
        (env.sideFromBoneName (boneAt rigBones index).name) m_nodeRadius
        (boneAt rigBones index).headPosition ((boneAt rigBones index).name ++ suffix)
      refine ⟨⟨le_trans hb.count hcont.count, addNode_parts env hb.parts _ _ _ _, ?_, ?_⟩,
        hcont, fun _ => hmade⟩
      · intro j u hj
        by_cases hji : j = index
        · subst hji
          simp only [StdMap.set, if_true] at hj
          rw [← Option.some.inj hj]
          exact hmade
        · simp only [StdMap.set, if_neg hji] at hj
          exact (hb.heads j u hj).node_continues hcont
      · intro e he
        exact (hb.edges e he).edge_continues hcont
    · next hvirtual =>
      rw [if_neg hvirtual]
      exact ⟨hb, Continues.refl _ _ _, fun h => absurd rfl h⟩

/-- An edge between two nodes on the part of `side` keeps the invariant. -/
theorem addEdge_inv {env : PoseExternals} {rigBones : List RiggerBone} {first last : Nat}
    {partIds : SkeletonSide → QUuid} {b : NodeBuild}
    (hf : FreshUuids env first last) (hb : BuildInv env rigBones first partIds b)
    (side : SkeletonSide) (u v : QUuid)
    (hu : NodeMade env first b.doc (partIds side) u)
    (hv : NodeMade env first b.doc (partIds side) v)
    (hl : (addEdge env b side u v).doc.uuidsCreated ≤ last) :
    BuildInv env rigBones first partIds (addEdge env b side u v) := by
  have hl' : b.doc.uuidsCreated < last := hl
  have hpart : b.doc.partIdOfSide side = partIds side := partIdOfSide_eq hb.parts side
  obtain ⟨hcont, hmade⟩ := edge_made hf hb.count hl' hu hv
    (addEdge env b side u v).doc rfl (by rw [← hpart]; rfl) rfl
  refine ⟨le_trans hb.count hcont.count, touchPartIdOfSide_parts hb.parts side, ?_, ?_⟩
  · intro j w hj
    exact (hb.heads j w hj).node_continues hcont
  · intro e he
    rcases Finset.mem_insert.mp he with h | h
    · rw [h]; exact hmade
    · exact (hb.edges e h).edge_continues hcont

theorem addEdgePair_count_le (env : PoseExternals) (rigBones : List RiggerBone)
    (b : NodeBuild) (edgePair : Int × Int) :
    (headNode env rigBones
        (headNode env rigBones b edgePair.1
          (env.sideFromBoneName (boneAt rigBones edgePair.1).name) "Start").1
        edgePair.2 (env.sideFromBoneName (boneAt rigBones edgePair.2).name) "").1.doc.uuidsCreated
      ≤ (addEdgePair env rigBones b edgePair).doc.uuidsCreated := by
  unfold addEdgePair
  simp only []
  split_ifs
  · exact le_rfl
  · exact le_rfl
  · exact Nat.le_succ _

theorem addEdgePair_mono (env : PoseExternals) (rigBones : List RiggerBone)
    (b : NodeBuild) (edgePair : Int × Int) :
    b.doc.uuidsCreated ≤ (addEdgePair env rigBones b edgePair).doc.uuidsCreated :=
  le_trans (headNode_count_le _ _ _ _ _ _)
    (le_trans (headNode_count_le _ _ _ _ _ _) (addEdgePair_count_le env rigBones b edgePair))

/-- One round of the loop over the edge pairs keeps the invariant. -/
theorem addEdgePair_inv {env : PoseExternals} {rigBones : List RiggerBone} {first last : Nat}
    {partIds : SkeletonSide → QUuid} {b : NodeBuild}
    (hf : FreshUuids env first last) (hb : BuildInv env rigBones first partIds b)
    (edgePair : Int × Int)
    (hl : (addEdgePair env rigBones b edgePair).doc.uuidsCreated ≤ last) :
    BuildInv env rigBones first partIds (addEdgePair env rigBones b edgePair) := by
  have hl2 := le_trans (addEdgePair_count_le env rigBones b edgePair) hl
  have hl1 := le_trans (headNode_count_le _ _ _ _ _ _) hl2
  obtain ⟨hb1, _, hn1⟩ := headNode_inv hf hb edgePair.1 "Start" hl1
  obtain ⟨hb2, hc2, hn2⟩ := headNode_inv hf hb1 edgePair.2 "" hl2
  unfold addEdgePair at hl ⊢
  simp only [] at hl ⊢
  split_ifs at hl ⊢ with hnull hside
  · exact hb2
  · exact hb2
  · simp only [QUuid.isNull, Bool.or_eq_true, beq_iff_eq, not_or] at hnull
    have hside' : env.sideFromBoneName (boneAt rigBones edgePair.1).name
        = env.sideFromBoneName (boneAt rigBones edgePair.2).name := not_not.mp hside
    refine addEdge_inv hf hb2 _ _ _ ((hn1 hnull.1).node_continues hc2) ?_ hl
    rw [congrArg partIds hside']
    exact hn2 hnull.2

theorem addLeafHead_mono (env : PoseExternals) (rigBones : List RiggerBone)
    (b : NodeBuild) (i : Nat) :
    b.doc.uuidsCreated ≤ (addLeafHead env rigBones b i).doc.uuidsCreated := by
  unfold addLeafHead
  split_ifs
  · exact le_rfl
  · exact le_rfl
  · exact Nat.le_succ _
  · exact le_rfl

theorem boneAt_cast (rigBones : List RiggerBone) (i : Nat) :
    boneAt rigBones (i : Int) = rigBones.getD i {} := by
  unfold boneAt
  rw [if_pos (Int.natCast_nonneg i), Int.toNat_natCast]

/-- One round of the loop over the leaf bones without a head node keeps the
invariant. -/
theorem addLeafHead_inv {env : PoseExternals} {rigBones : List RiggerBone} {first last : Nat}
    {partIds : SkeletonSide → QUuid} {b : NodeBuild}
    (hf : FreshUuids env first last) (hb : BuildInv env rigBones first partIds b) (i : Nat)
    (hl : (addLeafHead env rigBones b i).doc.uuidsCreated ≤ last) :
    BuildInv env rigBones first partIds (addLeafHead env rigBones b i) := by
  unfold addLeafHead at hl ⊢
  split_ifs at hl ⊢
  · exact hb
  · exact hb
  · have hl' : b.doc.uuidsCreated < last := hl
    have hcont := addNode_continues hf hb.count hl'
      (env.sideFromBoneName (rigBones.getD i {}).name) m_nodeRadius
      (rigBones.getD i {}).headPosition ""
    have hmade := addNode_made hf hb.count hl' hb.parts
      (env.sideFromBoneName (rigBones.getD i {}).name) m_nodeRadius
      (rigBones.getD i {}).headPosition ""
    refine ⟨le_trans hb.count hcont.count, addNode_parts env hb.parts _ _ _ _, ?_, ?_⟩
    · intro j u hj
      by_cases hji : j = (i : Int)
      · subst hji
        simp only [StdMap.set, if_true] at hj
        rw [← Option.some.inj hj, boneAt_cast]
        exact hmade
      · simp only [StdMap.set, if_neg hji] at hj
        exact (hb.heads j u hj).node_continues hcont
    · intro e he
      exact (hb.edges e he).edge_continues hcont
  · exact hb

/-- A head node, once made, stays. -/
theorem addLeafHead_keeps_heads (env : PoseExternals) (rigBones : List RiggerBone)
    (b : NodeBuild) (i : Nat) (j : Int) (h : (b.boneIndexToHeadNodeIdMap j).isSome = true) :
    ((addLeafHead env rigBones b i).boneIndexToHeadNodeIdMap j).isSome = true := by
  unfold addLeafHead
  split_ifs
  · exact h
  · exact h
  · show (StdMap.set _ _ _ j).isSome = true
    unfold StdMap.set
    split
    · rfl
    · exact h
  · exact h

/-- After its round a leaf bone that is not virtual has a head node. -/
theorem addLeafHead_makes_head (env : PoseExternals) (rigBones : List RiggerBone)
    (b : NodeBuild) (i : Nat) (hleaf : (rigBones.getD i {}).children.isEmpty = true)
    (hvirtual : startsWith (rigBones.getD i {}).name "Virtual_" = false) :
    ((addLeafHead env rigBones b i).boneIndexToHeadNodeIdMap (i : Int)).isSome = true := by
  unfold addLeafHead
  split_ifs with h1 h2 h3
  · exact h1
  · rw [hleaf] at h2; exact absurd h2 (by decide)
  · show (StdMap.set _ _ _ _).isSome = true
    simp [StdMap.set]
  · rw [hvirtual] at h3; exact absurd rfl h3

/-- The tail node of a leaf bone with a head node, and the edge between the
two, keep the invariant. -/
theorem addLeafTail_inv {env : PoseExternals} {rigBones : List RiggerBone} {first last : Nat}
    {partIds : SkeletonSide → QUuid} {b : NodeBuild}
    (hf : FreshUuids env first last) (hb : BuildInv env rigBones first partIds b) (i : Nat)
    (u : QUuid) (hhead : b.boneIndexToHeadNodeIdMap (i : Int) = some u)
    (hl : (addLeafTail env rigBones b i).doc.uuidsCreated ≤ last) :
    BuildInv env rigBones first partIds (addLeafTail env rigBones b i) := by
  have hl0 : b.doc.uuidsCreated + 2 ≤ last := hl
  have hcont := addNode_continues hf hb.count (show b.doc.uuidsCreated < last by omega)
    (env.sideFromBoneName (rigBones.getD i {}).name) (m_nodeRadius / 2)
    (rigBones.getD i {}).tailPosition ""
  have hmade := addNode_made hf hb.count (show b.doc.uuidsCreated < last by omega) hb.parts
    (env.sideFromBoneName (rigBones.getD i {}).name) (m_nodeRadius / 2)
    (rigBones.getD i {}).tailPosition ""
  have hparts := addNode_parts env hb.parts
    (env.sideFromBoneName (rigBones.getD i {}).name) (m_nodeRadius / 2)
    (rigBones.getD i {}).tailPosition ""
  have hget : StdMap.get b.boneIndexToHeadNodeIdMap (i : Int) QUuid.null = u := by
    unfold StdMap.get; rw [hhead]; rfl
  have hu := (hb.heads (i : Int) u hhead).node_continues hcont
  rw [boneAt_cast] at hu
  have hpart := partIdOfSide_eq hparts (env.sideFromBoneName (rigBones.getD i {}).name)
  obtain ⟨hcont2, hedge⟩ := edge_made hf (le_trans hb.count hcont.count)
    (show (addNode env b.doc (env.sideFromBoneName (rigBones.getD i {}).name)
      (m_nodeRadius / 2) (rigBones.getD i {}).tailPosition "").1.uuidsCreated < last from
        (show b.doc.uuidsCreated + 1 < last by omega))
    hu hmade (addLeafTail env rigBones b i).doc rfl
    (by rw [← hpart, ← hget]; rfl) (by rw [← hget]; rfl)
  have hall := hcont.trans hcont2
  refine ⟨le_trans hb.count hall.count, ?_, ?_, ?_⟩
  · intro s
    exact touchPartIdOfSide_parts hparts _ s
  · intro j w hj
    have hj' : b.boneIndexToHeadNodeIdMap j = some w := by
      rw [← touch_of_some _ _ QUuid.null _ hhead j]; exact hj
    exact (hb.heads j w hj').node_continues hall
  · intro e he
    rcases Finset.mem_insert.mp he with h | h
    · rw [h]; exact hedge
    · exact (hb.edges e h).edge_continues hall

theorem addBoneIds_mono (env : PoseExternals) (rigBones : List RiggerBone)
    (b : NodeBuild) (i : Nat) :
    b.doc.uuidsCreated ≤ (addBoneIds env rigBones b i).doc.uuidsCreated := by
  unfold addBoneIds
  split_ifs
  · exact le_rfl
  · exact Nat.le_add_right _ 2
  · exact le_rfl
  · exact le_rfl

/-- One round of the last loop keeps the invariant, when the leaf bones have
their head nodes. -/
theorem addBoneIds_inv {env : PoseExternals} {rigBones : List RiggerBone} {first last : Nat}
    {partIds : SkeletonSide → QUuid} {b : NodeBuild}
    (hf : FreshUuids env first last) (hb : BuildInv env rigBones first partIds b)
    (hheads : LeafHeads rigBones b) (i : Nat) (hi : i ∈ boneIndices rigBones)
    (hl : (addBoneIds env rigBones b i).doc.uuidsCreated ≤ last) :
    BuildInv env rigBones first partIds (addBoneIds env rigBones b i) := by
  unfold addBoneIds at hl ⊢
  split_ifs at hl ⊢ with hvirtual hleaf hnone
  · exact hb
  · have hv : startsWith (rigBones.getD i {}).name "Virtual_" = false := by
      cases h : startsWith (rigBones.getD i {}).name "Virtual_" with
      | false => rfl
      | true => rw [h] at hvirtual; exact absurd rfl hvirtual
    have hsome := hheads i hi hleaf hv
    obtain ⟨u, hu⟩ := Option.isSome_iff_exists.mp hsome
    exact addLeafTail_inv hf hb i u hu hl
  · exact hb
  · exact ⟨hb.count, hb.parts, hb.heads, hb.edges⟩

/-- A head node, once made, stays in the last loop. -/
theorem addBoneIds_keeps_heads (env : PoseExternals) (rigBones : List RiggerBone)
    (b : NodeBuild) (i : Nat) (j : Int) (h : (b.boneIndexToHeadNodeIdMap j).isSome = true) :
    ((addBoneIds env rigBones b i).boneIndexToHeadNodeIdMap j).isSome = true := by
  unfold addBoneIds
  split_ifs
  · exact h
  · show (StdMap.touch _ _ _ j).isSome = true
    unfold StdMap.touch StdMap.set
    split
    · rfl
    · exact h
  · exact h
  · exact h

/-! ### The loops -/

theorem foldl_mono {α : Type} (f : NodeBuild → α → NodeBuild)
    (hmono : ∀ b a, b.doc.uuidsCreated ≤ (f b a).doc.uuidsCreated) (l : List α)
    (b : NodeBuild) : b.doc.uuidsCreated ≤ (l.foldl f b).doc.uuidsCreated := by
  induction l generalizing b with
  | nil => exact le_rfl
  | cons a l ih => exact le_trans (hmono b a) (ih (f b a))

/-- A property that each round keeps, as long as the uuids made stay below
`last`, holds after the loop. -/
theorem foldl_keeps {α : Type} (f : NodeBuild → α → NodeBuild) (P : NodeBuild → Prop)
    (last : Nat) (hmono : ∀ b a, b.doc.uuidsCreated ≤ (f b a).doc.uuidsCreated)
    (l : List α)
    (hstep : ∀ b a, a ∈ l → P b → (f b a).doc.uuidsCreated ≤ last → P (f b a))
    (b : NodeBuild) (hP : P b) (hl : (l.foldl f b).doc.uuidsCreated ≤ last) :
    P (l.foldl f b) := by
  induction l generalizing b with
  | nil => exact hP
  | cons a l ih =>
    have hla : (f b a).doc.uuidsCreated ≤ last := le_trans (foldl_mono f hmono l (f b a)) hl
    exact ih (fun b' a' ha' => hstep b' a' (List.mem_cons_of_mem _ ha')) (f b a)
      (hstep b a (List.mem_cons_self _ _) hP hla) hl

/-- The loop over the leaf bones gives each of them that is not virtual a head
node. -/
theorem leaf_heads_after (env : PoseExternals) (rigBones : List RiggerBone) (l : List Nat)
    (b : NodeBuild) (i : Nat) (hi : i ∈ l)
    (hleaf : (rigBones.getD i {}).children.isEmpty = true)
    (hvirtual : startsWith (rigBones.getD i {}).name "Virtual_" = false) :
    ((l.foldl (addLeafHead env rigBones) b).boneIndexToHeadNodeIdMap (i : Int)).isSome
      = true := by
  induction l generalizing b with
  | nil => simp at hi
  | cons a l ih =>
    rw [List.foldl_cons]
    by_cases hil : i ∈ l
    · exact ih _ hil
    · have hia : i = a := by
        rcases List.mem_cons.mp hi with h | h
        · exact h
        · exact absurd h hil
      subst hia
      have h0 := addLeafHead_makes_head env rigBones b i hleaf hvirtual
      clear ih hi hil
      generalize addLeafHead env rigBones b i = b' at h0
      induction l generalizing b' with
      | nil => exact h0
      | cons a l ih => exact ih _ (addLeafHead_keeps_heads env rigBones b' a _ h0)

theorem leafHeads_of_leafHeadsBuilt (env : PoseExternals) (d : PoseDocument)
    (rigBones : List RiggerBone) (names : StdMap String (QUuid × QUuid)) :
    LeafHeads rigBones (leafHeadsBuilt env d rigBones names) :=
  fun i hi hleaf hvirtual => leaf_heads_after env rigBones _ _ i hi hleaf hvirtual

/-- In any state, the round that makes the tail node of a leaf bone lists the
node twice or more among the `nodeIds` of its part: the lines 458 and 470 both
push it. -/
theorem addLeafTail_lists_tail_twice (env : PoseExternals) (rigBones : List RiggerBone)
    (b : NodeBuild) (i : Nat) :
    ∃ part,
      (addLeafTail env rigBones b i).doc.partMap
          (addNode env b.doc (env.sideFromBoneName (rigBones.getD i {}).name)
            (m_nodeRadius / 2) (rigBones.getD i {}).tailPosition "").2.partId = some part
        ∧ 2 ≤ part.nodeIds.count
          (addNode env b.doc (env.sideFromBoneName (rigBones.getD i {}).name)
            (m_nodeRadius / 2) (rigBones.getD i {}).tailPosition "").2.id := by
  refine ⟨_, by simp [addLeafTail, addNode, pushNodeId, setNode, setEdge, pushEdgeId,
    countUuid, touchPartIdOfSide, StdMap.set, StdMap.get]; rfl, ?_⟩
  simp [addNode, pushNodeId, setNode, countUuid, touchPartIdOfSide, StdMap.set, StdMap.get,
    List.count_append]

/-! ### The whole of `parametersToNodes` -/

theorem addPartIdOfSide_mono (env : PoseExternals) (d : PoseDocument) (side : SkeletonSide) :
    d.uuidsCreated ≤ (addPartIdOfSide env d side).uuidsCreated := by
  unfold addPartIdOfSide
  split
  · exact le_rfl
  · exact Nat.le_succ _

theorem addPartIdOfSide_has (env : PoseExternals) (d : PoseDocument) (side : SkeletonSide) :
    ((addPartIdOfSide env d side).m_partIdMap side).isSome = true := by
  unfold addPartIdOfSide
  split
  · next h => exact h
  · show (StdMap.set _ _ _ side).isSome = true
    simp [StdMap.set]

theorem addPartIdOfSide_keeps (env : PoseExternals) (d : PoseDocument) (side s : SkeletonSide)
    (h : (d.m_partIdMap s).isSome = true) :
    ((addPartIdOfSide env d side).m_partIdMap s).isSome = true := by
  unfold addPartIdOfSide
  split
  · exact h
  · show (StdMap.set _ _ _ s).isSome = true
    unfold StdMap.set
    split
    · rfl
    · exact h

/-- Before the loops every side has its part id. -/
theorem startBuild_parts (env : PoseExternals) (d : PoseDocument)
    (names : StdMap String (QUuid × QUuid)) (s : SkeletonSide) :
    (startBuild env d names).doc.m_partIdMap s
      = some ((startBuild env d names).doc.partIdOfSide s) := by
  have h : ((startBuild env d names).doc.m_partIdMap s).isSome = true := by
    cases s
    · exact addPartIdOfSide_keeps _ _ _ _ (addPartIdOfSide_has _ _ _)
    · exact addPartIdOfSide_keeps _ _ _ _
        (addPartIdOfSide_keeps _ _ _ _ (addPartIdOfSide_has _ _ _))
    · exact addPartIdOfSide_has _ _ _
  obtain ⟨p, hp⟩ := Option.isSome_iff_exists.mp h
  unfold partIdOfSide StdMap.get
  rw [hp]; rfl

/-- The invariant holds before the loops. -/
theorem startBuild_inv (env : PoseExternals) (d : PoseDocument) (rigBones : List RiggerBone)
    (names : StdMap String (QUuid × QUuid)) :
    BuildInv env rigBones d.uuidsCreated (startBuild env d names).doc.partIdOfSide
      (startBuild env d names) := by
  refine ⟨?_, startBuild_parts env d names, ?_, ?_⟩
  · exact le_trans (addPartIdOfSide_mono _ _ _)
      (le_trans (addPartIdOfSide_mono _ _ _) (addPartIdOfSide_mono _ _ _))
  · intro j u hj
    exact absurd hj (by simp [startBuild, StdMap.empty])
  · intro e he
    exact absurd he (by simp [startBuild])

/-- The invariant holds after the loops, and the leaf bones have their head
nodes before the last of them. -/
theorem allBuilt_inv (env : PoseExternals) (d : PoseDocument) (rigBones : List RiggerBone)
    (names : StdMap String (QUuid × QUuid))
    (hf : FreshUuids env d.uuidsCreated (allBuilt env d rigBones names).doc.uuidsCreated) :
    BuildInv env rigBones d.uuidsCreated (startBuild env d names).doc.partIdOfSide
      (allBuilt env d rigBones names) := by
  have h3 : (leafHeadsBuilt env d rigBones names).doc.uuidsCreated
      ≤ (allBuilt env d rigBones names).doc.uuidsCreated :=
    foldl_mono _ (addBoneIds_mono env rigBones) _ _
  have h2 : (edgesBuilt env d rigBones names).doc.uuidsCreated
      ≤ (allBuilt env d rigBones names).doc.uuidsCreated :=
    le_trans (foldl_mono _ (addLeafHead_mono env rigBones) _ _) h3
  have i1 : BuildInv env rigBones d.uuidsCreated (startBuild env d names).doc.partIdOfSide
      (edgesBuilt env d rigBones names) :=
    foldl_keeps _ _ _ (addEdgePair_mono env rigBones) _
      (fun b a _ hb hl => addEdgePair_inv hf hb a hl) _ (startBuild_inv env d rigBones names) h2
  have i2 : BuildInv env rigBones d.uuidsCreated (startBuild env d names).doc.partIdOfSide
      (leafHeadsBuilt env d rigBones names) :=
    foldl_keeps _ _ _ (addLeafHead_mono env rigBones) _
      (fun b a _ hb hl => addLeafHead_inv hf hb a hl) _ i1 h3
  have i3 := foldl_keeps (addBoneIds env rigBones)
    (fun b => BuildInv env rigBones d.uuidsCreated (startBuild env d names).doc.partIdOfSide b
      ∧ LeafHeads rigBones b) _ (addBoneIds_mono env rigBones) (boneIndices rigBones)
    (fun b a ha hb hl => ⟨addBoneIds_inv hf hb.1 hb.2 a ha hl,
      fun i hi hleaf hvirtual => addBoneIds_keeps_heads env rigBones b a _
        (hb.2 i hi hleaf hvirtual)⟩)
    (leafHeadsBuilt env d rigBones names)
    ⟨i2, leafHeads_of_leafHeadsBuilt env d rigBones names⟩ le_rfl
  exact i3.1

/-- The last lines of `parametersToNodes` continue the document. -/
theorem finishBuild_continues (env : PoseExternals) (first : Nat) (b : NodeBuild)
    (isOther : Bool) : Continues env first b.doc (finishBuild b isOther) := by
  have h : Continues env first b.doc
      (match b.boneIndexToHeadNodeIdMap 0 with
        | some rootNodeId => b.doc.setNodeRadius rootNodeId (m_nodeRadius * 2)
        | none => b.doc) := by
    split
    · exact setNodeRadius_continues env first b.doc _ _
    · exact Continues.refl env first b.doc
  unfold finishBuild
  cases isOther
  · exact h
  · exact h.trans (Continues.of_maps env first le_rfl rfl rfl)

/-- C21 fails: for a root bone with one leaf bone, the tail node made for the
leaf bone, with the uuid `5`, is a node of the part `2`, and that part lists
it twice among its `nodeIds`. -/
theorem tail_node_is_listed_twice :
    (5 : QUuid) ∈ (allBuilt sampleExternals PoseDocument.init leafBones
        StdMap.empty).newAddedNodeIds
      ∧ ((parametersToNodes sampleExternals PoseDocument.init leafBones StdMap.empty
          false).1.nodeMap 5).map (fun node => node.partId) = some 2
      ∧ ((parametersToNodes sampleExternals PoseDocument.init leafBones StdMap.empty
          false).1.partMap 2).map (fun part => part.nodeIds.count 5) = some 2 := by
  decide

end PoseDocument

end Dust3d
